import Mathlib

/-!
# NautManager: directory-watching auto-registration daemon and tracking API

A shallow embedding of `watcher/watch.js` (the startup configuration, the
registrar `processNewDirectory`, the event handler `handlePotentialProject` and
its debounce timers) and of `server/src/controllers/projectController.js` (the
handlers `getAllProjects`, `getProjectById`, `createProject`, `updateProject`,
`deleteProject` and `toggleArchiveStatus`).

Conventions of the embedding:

* JavaScript strings are `String`; the functions of Node's POSIX `path` module
  are modelled on the list of characters of a path.
* The `Set` `processedDirs` is a list of strings in insertion order.
* The collaborators (`axios`, `fs/promises`, the database) are explicit
  parameters; every call made to one of them is recorded in a trace.
* `console.log` / `console.error` have no effect on the state and are left out.
* The fields of a request body are values of `JsValue`, with `undefined` for
  an absent field; `parseInt(s, 10)` returns a `JsNumber`, rounded to the
  nearest double.
* Timers are a table of deadlines: `setTimeout(f, d)` arms a timer due `d`
  milliseconds later when `d` is an integer from 1 to `2 ** 31 - 1`, and one
  millisecond later for every other `d`; each passing millisecond fires the
  timers then due.
-/

set_option autoImplicit false

namespace NautManager

/-! ## Node's POSIX `path` module -/

namespace path

/-- Split a path at every `/`: `"/a//b"` gives `["", "a", "", "b"]`. -/
def splitSlash : List Char → List (List Char)
  | [] => [[]]
  | c :: cs =>
    if c = '/' then [] :: splitSlash cs
    else
      match splitSlash cs with
      | [] => [[c]]
      | s :: ss => (c :: s) :: ss

/-- Join segments with `/` between them. -/
def joinSlash : List (List Char) → List Char
  | [] => []
  | [s] => s
  | s :: t :: ss => s ++ '/' :: joinSlash (t :: ss)

/-- One segment of `normalizeString`, on the stack of kept segments (last
kept segment first): empty segments and `.` are dropped, `..` removes the
last kept segment unless there is none or it is itself `..` (then `..` is
kept when `allowAboveRoot`), any other segment is kept. -/
def normalizeStep (allowAboveRoot : Bool) (stack : List (List Char)) (seg : List Char) :
    List (List Char) :=
  if seg = [] ∨ seg = ['.'] then stack
  else if seg = ['.', '.'] then
    match stack with
    | [] => if allowAboveRoot then [['.', '.']] else []
    | top :: rest =>
      if top = ['.', '.'] then (if allowAboveRoot then ['.', '.'] :: top :: rest else top :: rest)
      else rest
  else seg :: stack

/-- The kept segments of a path, in order. -/
def normalizeSegments (p : List Char) (allowAboveRoot : Bool) : List (List Char) :=
  ((splitSlash p).foldl (normalizeStep allowAboveRoot) []).reverse

/-- Node's `normalizeString(path, allowAboveRoot, '/', isPosixPathSeparator)`. -/
def normalizeString (p : List Char) (allowAboveRoot : Bool) : List Char :=
  joinSlash (normalizeSegments p allowAboveRoot)

/-- Whether the path starts with `/`. -/
def isAbsolute (p : List Char) : Bool :=
  p.head? = some '/'

/-- Node's `path.posix.normalize`. -/
def normalize (p : String) : String :=
  if p.data = [] then "."
  else
    let absolute := isAbsolute p.data
    let trailingSeparator := p.data.getLast? = some '/'
    let q := normalizeString p.data (!absolute)
    if q = [] then
      if absolute then "/" else if trailingSeparator then "./" else "."
    else
      let q := if trailingSeparator then q ++ ['/'] else q
      if absolute then ⟨'/' :: q⟩ else ⟨q⟩

/-- Node's `path.posix.join(...args)`: the non-empty arguments joined by `/`,
then normalized; `.` when there is none. -/
def join (args : List String) : String :=
  match (args.filter (fun a => a.data ≠ [])).map String.data with
  | [] => "."
  | a :: as => normalize ⟨joinSlash (a :: as)⟩

/-- The normalized segments of `path.posix.resolve(p)` with `process.cwd() = cwd`,
and whether the resolved path is absolute. -/
def resolveSegments (cwd p : String) : Bool × List (List Char) :=
  let r1 : List Char × Bool := if p.data = [] then ([], false) else (p.data ++ ['/'], isAbsolute p.data)
  let r2 : List Char × Bool :=
    if r1.2 then r1
    else if cwd.data = [] then r1
    else (cwd.data ++ '/' :: r1.1, isAbsolute cwd.data)
  (r2.2, normalizeSegments r2.1 (!r2.2))

/-- Node's `path.posix.resolve(p)` with `process.cwd() = cwd`. -/
def resolve (cwd p : String) : String :=
  let r := resolveSegments cwd p
  if r.1 then ⟨'/' :: joinSlash r.2⟩
  else if r.2 = [] then "." else ⟨joinSlash r.2⟩

/-- Drop the longest common run of leading segments of two segment lists. -/
def dropCommon : List (List Char) → List (List Char) → List (List Char) × List (List Char)
  | a :: as, b :: bs => if a = b then dropCommon as bs else (a :: as, b :: bs)
  | as, bs => (as, bs)

/-- Node's `path.posix.relative(from, to)` with `process.cwd() = cwd`: both
paths are resolved, the common leading directories are dropped, one `..` is
emitted for every remaining directory of `from`, followed by the rest of `to`. -/
def relative (cwd fromPath toPath : String) : String :=
  if fromPath = toPath then ""
  else
    let f := resolve cwd fromPath
    let t := resolve cwd toPath
    if f = t then ""
    else
      let d := dropCommon (resolveSegments cwd fromPath).2 (resolveSegments cwd toPath).2
      ⟨joinSlash (d.1.map (fun _ => ['.', '.']) ++ d.2)⟩

/-- Node's `path.posix.basename(p)` (no suffix): the last non-empty segment,
`""` when there is none. -/
def basename (p : String) : String :=
  match ((splitSlash p.data).filter (fun s => s ≠ [])).getLast? with
  | none => ""
  | some s => ⟨s⟩

end path

/-! ## The watcher (`watcher/watch.js`) -/

/-- The number returned by `parseInt`: `NaN`, an integer-valued double, or
an infinity. -/
inductive JsNumber where
  | nan
  | finite (value : Int)
  | infinity (negative : Bool)
deriving DecidableEq, Repr

/-- The function `isNaN` on the result of `parseInt`. -/
def isNaN : JsNumber → Bool
  | .nan => true
  | _ => false

/-- The configuration read once at startup (lines 9-12), together with the
working directory of the process, which `path.relative` consults for paths
that are not absolute. The constant `debounceMs` is the result of `parseInt`
(line 12), which need not be a number of milliseconds. -/
structure Config where
  containerWatchPath : String
  hostWatchPath : String
  apiUrl : String
  debounceMs : JsNumber
  cwd : String
deriving DecidableEq, Repr

/-- A project record as returned by the tracking API. -/
structure ProjectRecord where
  id : Nat
  name : String
  local_path : Option String
  is_archived : Bool
  last_updated_at : Nat
deriving DecidableEq, Repr

/-- The body of the creation request (`projectData`, lines 113-121). -/
structure ProjectData where
  name : String
  local_path : String
  concept : String
deriving DecidableEq, Repr

/-- How `axios.get` settles: resolved with a response whose `data` is absent
(`none`, a falsy body) or an array of records, or rejected. -/
inductive GetOutcome where
  | ok (data : Option (List ProjectRecord))
  | error (message : String)
deriving DecidableEq, Repr

/-- How `axios.post` settles: resolved with a response, rejected with an
axios error carrying a response (an HTTP error status), rejected with an
axios error without response (network error), or rejected with an error
that is not an axios error. -/
inductive PostOutcome where
  | ok (status : Nat)
  | axiosErrorResponse (status : Nat)
  | axiosErrorNoResponse (message : String)
  | otherError (message : String)
deriving DecidableEq, Repr

/-- How `fs.readFile(path, 'utf-8')` settles. -/
inductive ReadOutcome where
  | ok (content : String)
  | error (message : String)
deriving DecidableEq, Repr

/-- The collaborators of the watcher, as seen by one run: what each call
answers. `fsAccess p` is whether `fs.access(p)` resolves. -/
structure Env where
  axiosGet : String → String → GetOutcome
  fsAccess : String → Bool
  fsReadFile : String → ReadOutcome
  axiosPost : String → ProjectData → PostOutcome

/-- A call made to a collaborator. `axiosGet url h` is
`axios.get(url, { params: { local_path: h } })`. -/
inductive Call where
  | axiosGet (url : String) (local_path : String)
  | fsAccess (path : String)
  | fsReadFile (path : String)
  | axiosPost (url : String) (data : ProjectData)
deriving DecidableEq, Repr

/-- Whether the call is a creation (POST) call. -/
def Call.isPost : Call → Bool
  | .axiosPost _ _ => true
  | _ => false

/-- Whether the call touches the filesystem. -/
def Call.isFile : Call → Bool
  | .fsAccess _ => true
  | .fsReadFile _ => true
  | _ => false

/-- The method `Set.prototype.has`. -/
def setHas (s : List String) (x : String) : Bool :=
  decide (x ∈ s)

/-- The method `Set.prototype.add`: appends the value unless it is present. -/
def setAdd (s : List String) (x : String) : List String :=
  if x ∈ s then s else s ++ [x]

/-- The method `Set.prototype.delete`. -/
def setDelete (s : List String) (x : String) : List String :=
  s.filter (fun y => y ≠ x)

/-- The condition `checkResponse.data && checkResponse.data.length > 0` (line 74). -/
def dataNonEmpty : Option (List ProjectRecord) → Bool
  | some (_ :: _) => true
  | _ => false

/-- The condition under which the `catch` of the creation call releases the
entry (line 143): `!axios.isAxiosError(error) || !error.response ||
error.response.status !== 409`. For a resolved call the `catch` is not run. -/
def PostOutcome.releases : PostOutcome → Bool
  | .ok _ => false
  | .axiosErrorResponse status => status != 409
  | .axiosErrorNoResponse _ => true
  | .otherError _ => true

/-- The host path computed at lines 60-62. -/
def hostPathOf (cfg : Config) (dirPath : String) : String :=
  path.join [cfg.hostWatchPath, path.relative cfg.cwd cfg.containerWatchPath dirPath]

/-- The URL of both API calls, written with a template string in the source (lines 71, 126). -/
def projectsUrl (cfg : Config) : String :=
  cfg.apiUrl ++ "/projects"

/-- The constant `conceptPathMd` (line 87). -/
def conceptPathMd (dirPath : String) : String :=
  path.join [dirPath, "docs", "concept.md"]

/-- The constant `conceptPathReadme` (line 88). -/
def conceptPathReadme (dirPath : String) : String :=
  path.join [dirPath, "docs", "README.md"]

/-- The state after a run of `processNewDirectory` and the calls it made, in order. -/
structure Result where
  processedDirs : List String
  calls : List Call
deriving DecidableEq, Repr

/-- The function `processNewDirectory(dirPath)` (lines 47-147), run to
completion against the collaborators `env` from the set `processedDirs`. -/
def processNewDirectory (cfg : Config) (env : Env) (processedDirs : List String)
    (dirPath : String) : Result :=
  if setHas processedDirs dirPath then
    ⟨processedDirs, []⟩
  else
    let processedDirs := setAdd processedDirs dirPath
    let projectName := path.basename dirPath
    let hostPath := hostPathOf cfg dirPath
    let c1 := [Call.axiosGet (projectsUrl cfg) hostPath]
    match env.axiosGet (projectsUrl cfg) hostPath with
    | .error _ => ⟨setDelete processedDirs dirPath, c1⟩
    | .ok data =>
      if dataNonEmpty data then
        ⟨setAdd processedDirs dirPath, c1⟩
      else
        let found : Option String × List Call :=
          if env.fsAccess (conceptPathMd dirPath) then
            (some (conceptPathMd dirPath), [Call.fsAccess (conceptPathMd dirPath)])
          else if env.fsAccess (conceptPathReadme dirPath) then
            (some (conceptPathReadme dirPath),
              [Call.fsAccess (conceptPathMd dirPath), Call.fsAccess (conceptPathReadme dirPath)])
          else
            (none, [Call.fsAccess (conceptPathMd dirPath), Call.fsAccess (conceptPathReadme dirPath)])
        match found.1 with
        | none => ⟨setDelete processedDirs dirPath, c1 ++ found.2⟩
        | some conceptFilePath =>
          let c2 := c1 ++ found.2 ++ [Call.fsReadFile conceptFilePath]
          match env.fsReadFile conceptFilePath with
          | .error _ => ⟨setDelete processedDirs dirPath, c2⟩
          | .ok conceptContent =>
            let projectData : ProjectData := ⟨projectName, hostPath, conceptContent⟩
            let c3 := c2 ++ [Call.axiosPost (projectsUrl cfg) projectData]
            if (env.axiosPost (projectsUrl cfg) projectData).releases then
              ⟨setDelete processedDirs dirPath, c3⟩
            else
              ⟨processedDirs, c3⟩

/-! ### The same function as a task suspended at its `await`s -/

/-- Where a running `processNewDirectory` is suspended: at the `await` of the
existence check (line 71), of `fs.access` for `docs/concept.md` (line 93) or
`docs/README.md` (line 95), of `fs.readFile` (line 101), of the creation call
(line 126); `done` once it has returned. -/
inductive Task where
  | awaitGet (dirPath projectName hostPath : String)
  | awaitAccessMd (dirPath projectName hostPath : String)
  | awaitAccessReadme (dirPath projectName hostPath : String)
  | awaitReadFile (dirPath projectName hostPath conceptFilePath : String)
  | awaitPost (dirPath : String) (projectData : ProjectData)
  | done
deriving DecidableEq, Repr

/-- The set, the continuation and the calls issued by one uninterrupted
stretch of `processNewDirectory`. -/
structure Step where
  processedDirs : List String
  task : Task
  calls : List Call
deriving DecidableEq, Repr

/-- The synchronous start of `processNewDirectory(dirPath)` (lines 47-73): the
gate, the marking, and the issue of the existence check. -/
def invoke (cfg : Config) (processedDirs : List String) (dirPath : String) : Step :=
  if setHas processedDirs dirPath then
    ⟨processedDirs, .done, []⟩
  else
    ⟨setAdd processedDirs dirPath,
      .awaitGet dirPath (path.basename dirPath) (hostPathOf cfg dirPath),
      [Call.axiosGet (projectsUrl cfg) (hostPathOf cfg dirPath)]⟩

/-- The stretch of `processNewDirectory` that runs when the awaited call
settles, with the answer taken from `env`, up to the next `await` or the return. -/
def resume (cfg : Config) (env : Env) (processedDirs : List String) : Task → Step
  | .awaitGet dirPath projectName hostPath =>
    match env.axiosGet (projectsUrl cfg) hostPath with
    | .error _ => ⟨setDelete processedDirs dirPath, .done, []⟩
    | .ok data =>
      if dataNonEmpty data then ⟨setAdd processedDirs dirPath, .done, []⟩
      else
        ⟨processedDirs, .awaitAccessMd dirPath projectName hostPath,
          [Call.fsAccess (conceptPathMd dirPath)]⟩
  | .awaitAccessMd dirPath projectName hostPath =>
    if env.fsAccess (conceptPathMd dirPath) then
      ⟨processedDirs, .awaitReadFile dirPath projectName hostPath (conceptPathMd dirPath),
        [Call.fsReadFile (conceptPathMd dirPath)]⟩
    else
      ⟨processedDirs, .awaitAccessReadme dirPath projectName hostPath,
        [Call.fsAccess (conceptPathReadme dirPath)]⟩
  | .awaitAccessReadme dirPath projectName hostPath =>
    if env.fsAccess (conceptPathReadme dirPath) then
      ⟨processedDirs, .awaitReadFile dirPath projectName hostPath (conceptPathReadme dirPath),
        [Call.fsReadFile (conceptPathReadme dirPath)]⟩
    else
      ⟨setDelete processedDirs dirPath, .done, []⟩
  | .awaitReadFile dirPath projectName hostPath conceptFilePath =>
    match env.fsReadFile conceptFilePath with
    | .error _ => ⟨setDelete processedDirs dirPath, .done, []⟩
    | .ok conceptContent =>
      ⟨processedDirs, .awaitPost dirPath ⟨projectName, hostPath, conceptContent⟩,
        [Call.axiosPost (projectsUrl cfg) ⟨projectName, hostPath, conceptContent⟩]⟩
  | .awaitPost dirPath projectData =>
    if (env.axiosPost (projectsUrl cfg) projectData).releases then
      ⟨setDelete processedDirs dirPath, .done, []⟩
    else ⟨processedDirs, .done, []⟩
  | .done => ⟨processedDirs, .done, []⟩

/-- Resume a task up to `n` times against the same collaborators,
accumulating the calls. -/
def drive (cfg : Config) (env : Env) : Nat → Step → Step
  | 0, s => s
  | n + 1, s =>
    let r := resume cfg env s.processedDirs s.task
    drive cfg env n ⟨r.processedDirs, r.task, s.calls ++ r.calls⟩

/-- Two invocations of `processNewDirectory` sharing `processedDirs`, each
with the calls it has issued so far. -/
structure Pair where
  processedDirs : List String
  first : Task
  second : Task
  callsFirst : List Call
  callsSecond : List Call

/-- The statement sequence `processNewDirectory(dirPath); processNewDirectory(dirPath);`:
the second call starts when the first has reached its first `await`. -/
def invokeTwice (cfg : Config) (processedDirs : List String) (dirPath : String) : Pair :=
  let a := invoke cfg processedDirs dirPath
  let b := invoke cfg a.processedDirs dirPath
  ⟨b.processedDirs, a.task, b.task, a.calls, b.calls⟩

/-- One turn of the event loop: the awaited call of the first (`false`) or of
the second (`true`) invocation settles as `env` says, and that invocation
runs to its next `await`. -/
def Pair.step (cfg : Config) (s : Pair) (turn : Bool × Env) : Pair :=
  if turn.1 then
    let r := resume cfg turn.2 s.processedDirs s.second
    ⟨r.processedDirs, s.first, r.task, s.callsFirst, s.callsSecond ++ r.calls⟩
  else
    let r := resume cfg turn.2 s.processedDirs s.first
    ⟨r.processedDirs, r.task, s.second, s.callsFirst ++ r.calls, s.callsSecond⟩

/-- A whole schedule of turns. -/
def Pair.run (cfg : Config) (s : Pair) (schedule : List (Bool × Env)) : Pair :=
  schedule.foldl (Pair.step cfg) s

/-- The number of creation calls a task can still issue: one until the
creation call is in flight, none afterwards. -/
def Task.postsAhead : Task → Nat
  | .awaitPost _ _ => 0
  | .done => 0
  | _ => 1

/-! ### Paths given by their segments -/

/-- A path segment that `normalize` keeps as it is: not empty, without `/`,
and neither `.` nor `..`. -/
def GoodSegment (s : List Char) : Prop :=
  s ≠ [] ∧ '/' ∉ s ∧ s ≠ ['.'] ∧ s ≠ ['.', '.']

/-- The absolute path with the given segments: `/` followed by the segments
joined by `/`. -/
def absolutePath (segs : List (List Char)) : String :=
  ⟨'/' :: path.joinSlash segs⟩

/-! ### Concrete collaborators -/

/-- A case-sensitive filesystem holding the listed files: a path is
accessible, and read with the listed outcome, exactly when it is listed
character by character. -/
def fileSystem (files : List (String × ReadOutcome)) : (String → Bool) × (String → ReadOutcome) :=
  (fun p => files.any (fun f => f.1 = p),
   fun p => match files.find? (fun f => f.1 = p) with
     | some f => f.2
     | none => .error "ENOENT")

/-- The collaborators in which the existence check settles as `get`, the
filesystem holds `files`, and the creation call settles as `post`. -/
def envOf (get : GetOutcome) (files : List (String × ReadOutcome)) (post : PostOutcome) : Env :=
  ⟨fun _ _ => get, (fileSystem files).1, (fileSystem files).2, fun _ _ => post⟩

/-- A configuration: `/w` in the container is `/srv/projects` on the host. -/
def exampleConfig : Config :=
  ⟨"/w", "/srv/projects", "http://api:3001/api", .finite 5000, "/app"⟩

/-- An existing record for `/srv/projects/foo`. -/
def fooRecord : ProjectRecord :=
  ⟨7, "foo", some "/srv/projects/foo", false, 100⟩

/-- The API already holds a record for the path. -/
def envExists : Env :=
  envOf (.ok (some [fooRecord])) [] (.ok 201)

/-- The existence check is rejected. -/
def envCheckFails : Env :=
  envOf (.error "connect ECONNREFUSED") [] (.ok 201)

/-- No record, and a project directory without `docs/`. -/
def envNoDocs : Env :=
  envOf (.ok (some [])) [] (.ok 201)

/-- No record, both documents present, the creation call acknowledged. -/
def envBoth : Env :=
  envOf (.ok (some []))
    [("/w/foo/docs/concept.md", .ok "# Concept"), ("/w/foo/docs/README.md", .ok "# Readme")]
    (.ok 201)

/-- No record, and only `docs/readme.md`, in lower case, present. -/
def envLowerReadme : Env :=
  envOf (.ok (some [])) [("/w/foo/docs/readme.md", .ok "# Foo")] (.ok 201)

/-! ## The tracking API (`server/src/controllers/projectController.js`) -/

/-- The query string of a request (`req.query`), as far as the handlers and
their callers use it. -/
structure Query where
  archived : Option String
  local_path : Option String
deriving DecidableEq, Repr

/-- How the database call `query(text, params)` settles. -/
inductive DbOutcome where
  | rows (rows : List ProjectRecord)
  | error (message : String)
deriving DecidableEq, Repr

/-- The body sent by `res.json`. -/
inductive Body where
  | rows (rows : List ProjectRecord)
  | failure (message : String) (error : String)
deriving DecidableEq, Repr

/-- The response sent by a handler: `res.status(status).json(body)`. -/
structure Response where
  status : Nat
  body : Body
deriving DecidableEq, Repr

/-- The statement and bound parameters built by `getAllProjects` (lines 9-25). -/
def selectQuery (q : Query) : String × List String :=
  let showArchived : Bool := q.archived = some "true"
  let text := "SELECT * FROM projects"
  let queryParams : List String := []
  let text :=
    if showArchived then text ++ " WHERE is_archived = true"
    else text ++ " WHERE is_archived = false"
  let text := text ++ " ORDER BY last_updated_at DESC"
  (text, queryParams)

/-- The handler `getAllProjects` (lines 7-34), with the database call as a parameter. -/
def getAllProjects (query : String → List String → DbOutcome) (q : Query) : Response :=
  match query (selectQuery q).1 (selectQuery q).2 with
  | .rows rows => ⟨200, .rows rows⟩
  | .error message => ⟨500, .failure "Error fetching projects" message⟩

/-- The database holding the table `projects`, answering the two statements
`getAllProjects` can issue: the rows with the given `is_archived`, latest
`last_updated_at` first. -/
def projectsTable (table : List ProjectRecord) (text : String) (_params : List String) : DbOutcome :=
  if text = "SELECT * FROM projects WHERE is_archived = true ORDER BY last_updated_at DESC" then
    .rows ((table.filter (fun r => r.is_archived)).insertionSort
      (fun a b => b.last_updated_at ≤ a.last_updated_at))
  else if text = "SELECT * FROM projects WHERE is_archived = false ORDER BY last_updated_at DESC" then
    .rows ((table.filter (fun r => !r.is_archived)).insertionSort
      (fun a b => b.last_updated_at ≤ a.last_updated_at))
  else .error "unknown statement"

/-- The records of a table whose stored `local_path` equals `h`. -/
def matching (table : List ProjectRecord) (h : String) : List ProjectRecord :=
  table.filter (fun r => r.local_path = some h)

/-! ## The event handler and its debounce timers (`watcher/watch.js`, lines 149-197) -/

namespace path

/-- Node's `path.posix.dirname(p)`: the characters before the last segment
(trailing slashes are skipped first) and before the slash that precedes it;
`/` or `.` when no such slash exists after the first character, `//` when
that slash is the second character of a rooted path. -/
def dirname (p : String) : String :=
  if p.data = [] then "."
  else
    let hasRoot := isAbsolute p.data
    let rest :=
      ((p.data.reverse.dropWhile (fun c => c = '/')).dropWhile (fun c => c ≠ '/')).reverse
    if rest.length ≤ 1 then (if hasRoot then "/" else ".")
    else if hasRoot ∧ rest.length = 2 then "//"
    else ⟨rest.dropLast⟩

end path

/-- The method `String.prototype.toLowerCase`, on the letters `A`-`Z`; the
names it is compared with (`concept.md`, `readme.md`) contain no letter that
another character lowers to. -/
def toLowerCase (s : String) : String :=
  ⟨s.data.map Char.toLower⟩

/-- How `fs.stat(itemPath)` settles: resolved with `stats.isDirectory()` true
or false, or rejected. -/
inductive StatOutcome where
  | directory
  | other
  | error
deriving DecidableEq, Repr

/-- The body of the timer callback after `fs.stat` (lines 167-184): the
argument with which `processNewDirectory` is called, if it is called. -/
def classify (cfg : Config) (stat : String → StatOutcome) (itemPath : String) : Option String :=
  match stat itemPath with
  | .error => none
  | .directory => some itemPath
  | .other =>
    let docDir := path.dirname itemPath
    let projectDir := path.dirname docDir
    let baseName := toLowerCase (path.basename itemPath)
    if path.basename docDir = "docs" ∧ (baseName = "concept.md" ∨ baseName = "readme.md") ∧
        path.dirname projectDir = cfg.containerWatchPath then
      some projectDir
    else none

/-- A timer armed by `setTimeout(callback, debounceMs)` for an item path: its
identity, the path its callback closes over, and the time at which it is due. -/
structure Timer where
  id : Nat
  itemPath : String
  deadline : Nat
deriving DecidableEq, Repr

/-- A run of a timer callback: for which path, when, and the directory handed
to `processNewDirectory`, if any. -/
structure Fired where
  itemPath : String
  time : Nat
  candidate : Option String
deriving DecidableEq, Repr

/-- The state of the event handler: the clock, the next timer identity, the
runtime's table of armed timers (neither fired nor cancelled) in arming
order, the object `debounceTimers` (line 26) from item paths to timer
identities, and the callbacks run so far. -/
structure Watcher where
  now : Nat
  nextId : Nat
  timers : List Timer
  debounceTimers : String → Option Nat
  fired : List Fired

/-- The state at startup, at time `t0`. -/
def Watcher.init (t0 : Nat) : Watcher :=
  ⟨t0, 0, [], fun _ => none, []⟩

/-- The function `clearTimeout(id)` on the table of armed timers. -/
def clearTimeout (timers : List Timer) (id : Nat) : List Timer :=
  timers.filter (fun t => t.id ≠ id)

/-- The largest delay of a timer, `TIMEOUT_MAX = 2 ** 31 - 1` milliseconds. -/
def TIMEOUT_MAX : Nat := 2147483647

/-- The delay in milliseconds with which `setTimeout(callback, after)` arms
its timer: `after` itself when `1 ≤ after ≤ TIMEOUT_MAX`, and one millisecond
for every other value, `NaN`, `0`, negative numbers and infinities included. -/
def timeoutDelay (after : JsNumber) : Nat :=
  match after with
  | .finite v => if 1 ≤ v ∧ v ≤ (TIMEOUT_MAX : Int) then v.toNat else 1
  | _ => 1

/-- The function `handlePotentialProject(itemPath)` (lines 152-188) up to the
return of `setTimeout`: the depth guard, the cancellation of the recorded
timer, and the arming and recording of a new timer, due after the delay that
`setTimeout` makes of `debounceMs`. -/
def handlePotentialProject (cfg : Config) (itemPath : String) (s : Watcher) : Watcher :=
  if path.dirname itemPath ≠ cfg.containerWatchPath then s
  else
    let timers :=
      match s.debounceTimers itemPath with
      | some id => clearTimeout s.timers id
      | none => s.timers
    ⟨s.now, s.nextId + 1,
      timers ++ [⟨s.nextId, itemPath, s.now + timeoutDelay cfg.debounceMs⟩],
      fun q => if q = itemPath then some s.nextId else s.debounceTimers q,
      s.fired⟩

/-- The timer `t` fires: it leaves the table of armed timers and its callback
(lines 161-187) runs, classifying `t.itemPath` by the metadata `stat` and
deleting `debounceTimers[t.itemPath]`. -/
def fire (cfg : Config) (stat : String → StatOutcome) (s : Watcher) (t : Timer) : Watcher :=
  ⟨s.now, s.nextId, s.timers.filter (fun u => u.id ≠ t.id),
    fun q => if q = t.itemPath then none else s.debounceTimers q,
    s.fired ++ [⟨t.itemPath, s.now, classify cfg stat t.itemPath⟩]⟩

/-- All timers due at the current time fire, in arming order. -/
def fireDue (cfg : Config) (stat : String → StatOutcome) (s : Watcher) : Watcher :=
  (s.timers.filter (fun t => t.deadline ≤ s.now)).foldl (fire cfg stat) s

/-- One millisecond passes: the timers due at the current time fire, the
filesystem metadata being `stat`, and the clock moves on. -/
def tick (cfg : Config) (stat : String → StatOutcome) (s : Watcher) : Watcher :=
  ⟨(fireDue cfg stat s).now + 1, (fireDue cfg stat s).nextId, (fireDue cfg stat s).timers,
    (fireDue cfg stat s).debounceTimers, (fireDue cfg stat s).fired⟩

/-- What happens to the watcher: a filesystem event (`add` or `addDir`) for
an item path, delivered to `handlePotentialProject` (lines 195-197), or the
passing of one millisecond. -/
inductive Action where
  | event (itemPath : String)
  | tick (stat : String → StatOutcome)

/-- Whether the action is an event for the path `p`. -/
def Action.isEventOn (p : String) : Action → Bool
  | .event q => decide (q = p)
  | .tick _ => false

/-- Whether the action is the passing of a millisecond. -/
def Action.isTick : Action → Bool
  | .event _ => false
  | .tick _ => true

/-- The number of milliseconds that pass in a list of actions. -/
def countTicks (acts : List Action) : Nat :=
  acts.countP Action.isTick

/-- The effect of one action. -/
def Watcher.step (cfg : Config) (s : Watcher) : Action → Watcher
  | .event itemPath => handlePotentialProject cfg itemPath s
  | .tick stat => tick cfg stat s

/-- The effect of a list of actions, in order. -/
def Watcher.run (cfg : Config) (acts : List Action) (s : Watcher) : Watcher :=
  acts.foldl (Watcher.step cfg) s

/-- A burst of events on `p`: after each list of other actions, one more
event on `p`. -/
def burst (p : String) : List (List Action) → List Action
  | [] => []
  | seg :: segs => seg ++ Action.event p :: burst p segs

/-- The armed timers of a path. -/
def Watcher.timersFor (s : Watcher) (p : String) : List Timer :=
  s.timers.filter (fun t => t.itemPath = p)

/-- The callbacks run so far for a path. -/
def Watcher.firedFor (s : Watcher) (p : String) : List Fired :=
  s.fired.filter (fun f => f.itemPath = p)

/-- The invariant of the timer tables: every armed timer is the one recorded
under its path, identities are fresh and distinct, no identity is recorded
under two paths, and no armed timer is overdue. -/
structure Watcher.Inv (s : Watcher) : Prop where
  recorded : ∀ t ∈ s.timers, s.debounceTimers t.itemPath = some t.id
  fresh : ∀ t ∈ s.timers, t.id < s.nextId
  distinct : (s.timers.map (fun t => t.id)).Nodup
  freshKey : ∀ p id, s.debounceTimers p = some id → id < s.nextId
  oneKey : ∀ p q id, s.debounceTimers p = some id → s.debounceTimers q = some id → p = q
  notOverdue : ∀ t ∈ s.timers, s.now ≤ t.deadline

/-- A configuration with a debounce delay of three milliseconds. -/
def quickConfig : Config :=
  ⟨"/w", "/srv/projects", "http://api:3001/api", .finite 3, "/app"⟩

/-- A configuration whose `debounceMs` is `2 ** 31`, one more than `TIMEOUT_MAX`. -/
def longConfig : Config :=
  ⟨"/w", "/srv/projects", "http://api:3001/api", .finite 2147483648, "/app"⟩

/-- The metadata in which every path is a directory. -/
def allDirectories : String → StatOutcome :=
  fun _ => .directory

/-- The metadata in which every path is a file. -/
def allFiles : String → StatOutcome :=
  fun _ => .other

/-! ### Any number of invocations, and the whole daemon -/

/-- The directory a suspended invocation is working on; none once it has returned. -/
def Task.dirPath : Task → Option String
  | .awaitGet dirPath _ _ => some dirPath
  | .awaitAccessMd dirPath _ _ => some dirPath
  | .awaitAccessReadme dirPath _ _ => some dirPath
  | .awaitReadFile dirPath _ _ _ => some dirPath
  | .awaitPost dirPath _ => some dirPath
  | .done => none

/-- Whether the awaited call of a suspended invocation, settling as `env`
says, makes it release its entry: a rejected existence check (line 82), no
concept document (line 104), an unreadable one (line 109), or a creation
call rejected with anything but a 409 response (line 144). -/
def releaseOutcome (cfg : Config) (env : Env) : Task → Bool
  | .awaitGet _ _ hostPath =>
    match env.axiosGet (projectsUrl cfg) hostPath with
    | .error _ => true
    | .ok _ => false
  | .awaitAccessMd _ _ _ => false
  | .awaitAccessReadme dirPath _ _ => !env.fsAccess (conceptPathReadme dirPath)
  | .awaitReadFile _ _ _ conceptFilePath =>
    match env.fsReadFile conceptFilePath with
    | .error _ => true
    | .ok _ => false
  | .awaitPost _ projectData => (env.axiosPost (projectsUrl cfg) projectData).releases
  | .done => false

/-- The set `processedDirs` shared by all invocations of
`processNewDirectory` made so far, numbered in the order of their calls. -/
structure Pool where
  processedDirs : List String
  tasks : Nat → Task
  count : Nat

/-- No invocation yet. -/
def Pool.init (processedDirs : List String) : Pool :=
  ⟨processedDirs, fun _ => Task.done, 0⟩

/-- A new call `processNewDirectory(dirPath)` runs to its first `await`. -/
def Pool.start (cfg : Config) (s : Pool) (dirPath : String) : Pool :=
  ⟨(invoke cfg s.processedDirs dirPath).processedDirs,
    fun k => if k = s.count then (invoke cfg s.processedDirs dirPath).task else s.tasks k,
    s.count + 1⟩

/-- The awaited call of invocation `i` settles as `env` says and the
invocation runs to its next `await` or returns. -/
def Pool.settle (cfg : Config) (s : Pool) (i : Nat) (env : Env) : Pool :=
  ⟨(resume cfg env s.processedDirs (s.tasks i)).processedDirs,
    fun k => if k = i then (resume cfg env s.processedDirs (s.tasks i)).task else s.tasks k,
    s.count⟩

/-- A turn of the event loop as the registrar sees it: a new invocation, or
the settling of an awaited call. -/
inductive PoolAction where
  | start (dirPath : String)
  | settle (i : Nat) (env : Env)

/-- The effect of one turn. -/
def Pool.step (cfg : Config) (s : Pool) : PoolAction → Pool
  | .start dirPath => Pool.start cfg s dirPath
  | .settle i env => Pool.settle cfg s i env

/-- Any interleaving of invocations and settlings. -/
def Pool.run (cfg : Config) (acts : List PoolAction) (s : Pool) : Pool :=
  acts.foldl (Pool.step cfg) s

/-- The directories handed to `processNewDirectory` by the timers due at the
current time, in firing order. -/
def dueCandidates (cfg : Config) (stat : String → StatOutcome) (w : Watcher) : List String :=
  (w.timers.filter (fun t => t.deadline ≤ w.now)).filterMap (fun t => classify cfg stat t.itemPath)

/-- The whole daemon: the event handler with its timers, and the registrar
with its invocations. -/
structure Daemon where
  watcher : Watcher
  pool : Pool

/-- What happens to the daemon: a filesystem event, the passing of a
millisecond (due timers fire and their callbacks call `processNewDirectory`),
or the settling of a call awaited by an invocation. -/
inductive DaemonAction where
  | event (itemPath : String)
  | tick (stat : String → StatOutcome)
  | settle (i : Nat) (env : Env)

/-- The effect of one action on the daemon. -/
def Daemon.step (cfg : Config) (s : Daemon) : DaemonAction → Daemon
  | .event itemPath => ⟨handlePotentialProject cfg itemPath s.watcher, s.pool⟩
  | .tick stat =>
    ⟨tick cfg stat s.watcher, (dueCandidates cfg stat s.watcher).foldl (Pool.start cfg) s.pool⟩
  | .settle i env => ⟨s.watcher, Pool.settle cfg s.pool i env⟩

/-- The invariant of the pool: every invocation in progress has its
directory in `processedDirs`, and no two work on the same directory. -/
structure Pool.Inv (s : Pool) : Prop where
  marked : ∀ i d, (s.tasks i).dirPath = some d → d ∈ s.processedDirs
  single : ∀ i j d, (s.tasks i).dirPath = some d → (s.tasks j).dirPath = some d → i = j
/-- What holds of every timer and every callback run of the watcher: the
item path is directly in the watch path, and the callback handed over
nothing or the item path itself. -/
structure Watcher.Sound (cfg : Config) (s : Watcher) : Prop where
  armed : ∀ t ∈ s.timers, path.dirname t.itemPath = cfg.containerWatchPath
  ran : ∀ f ∈ s.fired, path.dirname f.itemPath = cfg.containerWatchPath ∧
    (f.candidate = none ∨ f.candidate = some f.itemPath)

/-! ## JavaScript values, `parseInt`, and the startup of the watcher (lines 9-17) -/

/-- The white space and line terminators that `parseInt` skips at the start
of its argument, by code point. -/
def isWhiteSpace (c : Char) : Bool :=
  decide (c.toNat ∈ [9, 10, 11, 12, 13, 32, 160, 5760, 8232, 8233, 8239, 8287, 12288, 65279]) ||
    (decide (8192 ≤ c.toNat) && decide (c.toNat ≤ 8202))

/-- How many low bits an integer has beyond the 53 bits of a double's
significand. -/
def excessBits : Nat → Nat → Nat
  | 0, _ => 0
  | fuel + 1, n => if n < 2 ^ 53 then 0 else excessBits fuel (n / 2) + 1

/-- The double nearest to a non-negative integer (ties to even), as an
integer; none when it is beyond the largest double, that is when the rounded
significand `m` and the exponent `k` give `m * 2 ^ k` of at least `2 ^ 1024`.
`fuel` bounds the number of bits of `n`. -/
def nearestDouble (fuel n : Nat) : Option Nat :=
  let k := excessBits fuel n
  let q := n / 2 ^ k
  let r := n % 2 ^ k
  let m := if 2 ^ k < 2 * r ∨ (2 * r = 2 ^ k ∧ q % 2 = 1) then q + 1 else q
  if 972 ≤ k ∨ (k = 971 ∧ m = 2 ^ 53) then none else some (m * 2 ^ k)

/-- The value of a string of decimal digits. -/
def digitsValue (ds : List Char) : Nat :=
  ds.foldl (fun acc c => acc * 10 + (c.toNat - 48)) 0

/-- The characters after an optional sign `-` or `+`. -/
def skipSign (t : List Char) : List Char :=
  if t.head? = some '-' ∨ t.head? = some '+' then t.tail else t

/-- The leading decimal integer of a string: the longest run of decimal
digits after the leading white space and an optional sign. -/
def integerPart (s : String) : List Char :=
  (skipSign (s.data.dropWhile isWhiteSpace)).takeWhile Char.isDigit

/-- The function `parseInt(s, 10)`: leading white space is skipped, a sign is
read, the longest run of decimal digits that follows is the integer, which
is converted to a double; `NaN` when there is no digit. -/
def parseInt (s : String) : JsNumber :=
  let negative : Bool := (s.data.dropWhile isWhiteSpace).head? = some '-'
  if integerPart s = [] then .nan
  else
    match nearestDouble (4 * (integerPart s).length) (digitsValue (integerPart s)) with
    | none => .infinity negative
    | some v => .finite (if negative then - (v : Int) else (v : Int))

/-- The environment variables the watcher reads, after `dotenv.config()`. -/
structure Environment where
  CONTAINER_WATCH_PATH : Option String
  HOST_WATCH_PATH : Option String
  NAUTMANAGER_API_URL : Option String
  DEBOUNCE_MS : Option String
deriving DecidableEq, Repr

/-- The test `!x` on an environment variable: unset or the empty string. -/
def unsetOrEmpty (x : Option String) : Bool :=
  match x with
  | none => true
  | some s => decide (s = "")

/-- The constant `debounceMs` (line 12):
`parseInt(process.env.DEBOUNCE_MS || '5000', 10)`. -/
def debounceMs (env : Environment) : JsNumber :=
  parseInt (if unsetOrEmpty env.DEBOUNCE_MS then "5000" else env.DEBOUNCE_MS.getD "")

/-- How the startup of the watcher ends: `process.exit(code)` at line 16, or
the creation of the filesystem watch at line 28 with the configuration read. -/
inductive Startup where
  | exit (code : Nat)
  | watching (containerWatchPath hostWatchPath apiUrl : String) (debounceMs : JsNumber)
deriving DecidableEq, Repr

/-- The startup of the watcher (lines 9-42). -/
def startup (env : Environment) : Startup :=
  if unsetOrEmpty env.CONTAINER_WATCH_PATH ∨ unsetOrEmpty env.HOST_WATCH_PATH ∨
      unsetOrEmpty env.NAUTMANAGER_API_URL then
    .exit 1
  else
    .watching (env.CONTAINER_WATCH_PATH.getD "") (env.HOST_WATCH_PATH.getD "")
      (env.NAUTMANAGER_API_URL.getD "") (debounceMs env)

/-! ## The other handlers of the tracking API -/

/-- A JavaScript value as the handlers see the fields of a request body:
`undefined` for an absent field, and the JSON values; arrays and objects are
opaque to the handlers but for being truthy non-strings. -/
inductive JsValue where
  | undefined
  | null
  | bool (b : Bool)
  | number (n : Int)
  | string (s : String)
  | array (items : List String)
  | object (text : String)
deriving DecidableEq, Repr

/-- The truthiness of a value: `undefined`, `null`, `false`, `0` and `''` are falsy. -/
def JsValue.truthy : JsValue → Bool
  | .undefined => false
  | .null => false
  | .bool b => b
  | .number n => decide (n ≠ 0)
  | .string s => decide (s ≠ "")
  | .array _ => true
  | .object _ => true

/-- The test `typeof v === 'string'`. -/
def JsValue.isString : JsValue → Bool
  | .string _ => true
  | _ => false

/-- A destructuring default `field = d`: the default replaces `undefined` only. -/
def JsValue.orDefault (v d : JsValue) : JsValue :=
  if v = .undefined then d else v

/-- An error thrown by the database call, with the fields the handlers read. -/
structure DbError where
  code : Option String
  constraint : Option String
  message : String
deriving DecidableEq, Repr

/-- How the database call `query(text, values)` settles; `rowCount` is the
number of rows. -/
inductive QueryOutcome where
  | rows (rows : List ProjectRecord)
  | error (e : DbError)
deriving DecidableEq, Repr

/-- The body sent with a response: a record (`undefined` when there is
none), a message, a message with the text of an error, or nothing. -/
inductive ReplyBody where
  | record (r : Option ProjectRecord)
  | message (message : String)
  | failure (message : String) (error : String)
  | empty
deriving DecidableEq, Repr

/-- The response sent by a handler. -/
structure Reply where
  status : Nat
  body : ReplyBody
deriving DecidableEq, Repr

/-- What a handler did: its response and the database calls it issued, in order. -/
structure Handled where
  reply : Reply
  queries : List (String × List JsValue)
deriving DecidableEq, Repr

/-- The fields of `req.body` that `createProject` and `updateProject`
destructure (lines 63-78 and 126-141); an absent field is `undefined`. -/
structure ProjectBody where
  name : JsValue
  summary : JsValue
  concept : JsValue
  local_path : JsValue
  git_repo : JsValue
  website_url : JsValue
  project_category : JsValue
  start_commands : JsValue
  tags : JsValue
  description : JsValue
  deadline : JsValue
  type : JsValue
  completion_percentage : JsValue
  urgency : JsValue
deriving DecidableEq, Repr

/-- The constant `insertQuery` (lines 88-92). -/
def insertQuery : String :=
  "\n    INSERT INTO projects (name, summary, concept, local_path, git_repo, website_url, project_category, start_commands, tags, deadline, type, completion_percentage, urgency)\n    VALUES ($1, $2, $3, $4, $5, $6, $7, $8, $9, $10, $11, $12, $13)\n    RETURNING *; \n  "

/-- The array `values` of `createProject` (lines 94-108), after the
destructuring defaults of lines 63-78. -/
def insertValues (body : ProjectBody) : List JsValue :=
  [body.name,
   body.summary.orDefault .null,
   body.concept.orDefault .null,
   body.local_path,
   body.git_repo.orDefault .null,
   body.website_url.orDefault .null,
   body.project_category.orDefault .null,
   body.start_commands.orDefault .null,
   body.tags.orDefault (.array []),
   body.deadline.orDefault .null,
   body.type.orDefault (.string "Private"),
   body.completion_percentage.orDefault (.number 0),
   body.urgency.orDefault (.string "Medium")]

/-- The test of the `catch` blocks for a unique-constraint violation on
`local_path` (lines 116 and 196). -/
def DbError.isLocalPathConflict (e : DbError) : Bool :=
  decide (e.code = some "23505") && decide (e.constraint = some "projects_local_path_key")

/-- The handler `createProject` (lines 61-121), with the database call as a parameter. -/
def createProject (query : String → List JsValue → QueryOutcome) (body : ProjectBody) : Handled :=
  if !body.name.truthy then
    ⟨⟨400, .message "Project name is required"⟩, []⟩
  else if body.local_path.truthy && !body.local_path.isString then
    ⟨⟨400, .message "Invalid local_path format"⟩, []⟩
  else
    match query insertQuery (insertValues body) with
    | .rows rows => ⟨⟨201, .record rows.head?⟩, [(insertQuery, insertValues body)]⟩
    | .error e =>
      if e.isLocalPathConflict then
        ⟨⟨409, .failure "Project with this local path already exists" e.message⟩,
          [(insertQuery, insertValues body)]⟩
      else
        ⟨⟨500, .failure "Error creating project" e.message⟩, [(insertQuery, insertValues body)]⟩

/-- The updatable fields of `updateProject` with their values, in the order
of the statements of lines 160-172. -/
def updatable (body : ProjectBody) : List (String × JsValue) :=
  [("name", body.name), ("summary", body.summary), ("concept", body.concept),
   ("local_path", body.local_path), ("git_repo", body.git_repo),
   ("website_url", body.website_url), ("project_category", body.project_category),
   ("start_commands", body.start_commands), ("tags", body.tags), ("deadline", body.deadline),
   ("type", body.type), ("completion_percentage", body.completion_percentage),
   ("urgency", body.urgency)]

/-- The variables `fields`, `values` and `paramIndex` of `updateProject` (lines 156-158). -/
structure UpdateState where
  fields : List String
  values : List JsValue
  paramIndex : Nat
deriving DecidableEq, Repr

/-- One statement of lines 160-172:
`if (v !== undefined) { fields.push(column = $paramIndex++); values.push(v); }`. -/
def pushField (st : UpdateState) (cv : String × JsValue) : UpdateState :=
  if cv.2 ≠ .undefined then
    ⟨st.fields ++ [cv.1 ++ " = $" ++ toString st.paramIndex], st.values ++ [cv.2],
      st.paramIndex + 1⟩
  else st

/-- The state after the thirteen statements of lines 160-172. -/
def updateState (body : ProjectBody) : UpdateState :=
  (updatable body).foldl pushField ⟨[], [], 1⟩

/-- The constant `updateQuery` (lines 180-185), for the state reached. -/
def updateQuery (st : UpdateState) : String :=
  "\n    UPDATE projects\n    SET " ++ ", ".intercalate st.fields ++ "\n    WHERE id = $" ++
    toString st.paramIndex ++ "\n    RETURNING *; \n  "

/-- The handler `updateProject` (lines 124-201), with the database call as a parameter. -/
def updateProject (query : String → List JsValue → QueryOutcome) (id : String)
    (body : ProjectBody) : Handled :=
  if isNaN (parseInt id) then
    ⟨⟨400, .message "Invalid project ID format"⟩, []⟩
  else if body.name = .string "" then
    ⟨⟨400, .message "Project name cannot be empty"⟩, []⟩
  else if (updateState body).fields.length = 0 then
    ⟨⟨400, .message "No fields provided for update"⟩, []⟩
  else
    let text := updateQuery (updateState body)
    let values := (updateState body).values ++ [JsValue.string id]
    match query text values with
    | .rows rows =>
      if rows.length = 0 then
        ⟨⟨404, .message "Project not found for update"⟩, [(text, values)]⟩
      else ⟨⟨200, .record rows.head?⟩, [(text, values)]⟩
    | .error e =>
      if e.isLocalPathConflict then
        ⟨⟨409, .failure "Another project with this local path already exists" e.message⟩,
          [(text, values)]⟩
      else ⟨⟨500, .failure "Error updating project" e.message⟩, [(text, values)]⟩

/-- The handler `getProjectById` (lines 37-58). -/
def getProjectById (query : String → List JsValue → QueryOutcome) (id : String) : Handled :=
  if isNaN (parseInt id) then
    ⟨⟨400, .message "Invalid project ID format"⟩, []⟩
  else
    match query "SELECT * FROM projects WHERE id = $1" [.string id] with
    | .rows rows =>
      if rows.length = 0 then
        ⟨⟨404, .message "Project not found"⟩,
          [("SELECT * FROM projects WHERE id = $1", [.string id])]⟩
      else
        ⟨⟨200, .record rows.head?⟩, [("SELECT * FROM projects WHERE id = $1", [.string id])]⟩
    | .error e =>
      ⟨⟨500, .failure "Error fetching project" e.message⟩,
        [("SELECT * FROM projects WHERE id = $1", [.string id])]⟩

/-- The handler `deleteProject` (lines 204-230). -/
def deleteProject (query : String → List JsValue → QueryOutcome) (id : String) : Handled :=
  if isNaN (parseInt id) then
    ⟨⟨400, .message "Invalid project ID format"⟩, []⟩
  else
    match query "DELETE FROM projects WHERE id = $1 RETURNING id;" [.string id] with
    | .rows rows =>
      if rows.length = 0 then
        ⟨⟨404, .message "Project not found for deletion"⟩,
          [("DELETE FROM projects WHERE id = $1 RETURNING id;", [.string id])]⟩
      else
        ⟨⟨204, .empty⟩, [("DELETE FROM projects WHERE id = $1 RETURNING id;", [.string id])]⟩
    | .error e =>
      ⟨⟨500, .failure "Error deleting project" e.message⟩,
        [("DELETE FROM projects WHERE id = $1 RETURNING id;", [.string id])]⟩

/-- The handler `toggleArchiveStatus` (lines 233-266). -/
def toggleArchiveStatus (query : String → List JsValue → QueryOutcome) (id : String) : Handled :=
  if isNaN (parseInt id) then
    ⟨⟨400, .message "Invalid project ID format"⟩, []⟩
  else
    let q1 : String × List JsValue := ("SELECT is_archived FROM projects WHERE id = $1", [.string id])
    match query q1.1 q1.2 with
    | .error e => ⟨⟨500, .failure "Error toggling archive status" e.message⟩, [q1]⟩
    | .rows [] => ⟨⟨404, .message "Project not found to toggle archive status"⟩, [q1]⟩
    | .rows (r :: _) =>
      let q2 : String × List JsValue :=
        ("UPDATE projects SET is_archived = $1, last_updated_at = NOW() WHERE id = $2 RETURNING *",
          [.bool (!r.is_archived), .string id])
      match query q2.1 q2.2 with
      | .error e => ⟨⟨500, .failure "Error toggling archive status" e.message⟩, [q1, q2]⟩
      | .rows updateRows => ⟨⟨200, .record updateRows.head?⟩, [q1, q2]⟩

/-- A request body with only the given name. -/
def bodyNamed (name : JsValue) : ProjectBody :=
  ⟨name, .undefined, .undefined, .undefined, .undefined, .undefined, .undefined, .undefined,
    .undefined, .undefined, .undefined, .undefined, .undefined, .undefined⟩

/-- A database that answers every call with the record `fooRecord`. -/
def oneRow : String → List JsValue → QueryOutcome :=
  fun _ _ => .rows [fooRecord]

/-- A database that rejects every call with the given error. -/
def failing (e : DbError) : String → List JsValue → QueryOutcome :=
  fun _ _ => .error e

/-! ## Properties of the set operations -/

theorem setHas_iff (s : List String) (x : String) : setHas s x = true ↔ x ∈ s := by
  simp [setHas]

theorem mem_setAdd (s : List String) (x y : String) : y ∈ setAdd s x ↔ y ∈ s ∨ y = x := by
  unfold setAdd
  split
  · constructor
    · intro h; exact Or.inl h
    · rintro (h | h)
      · exact h
      · subst h; assumption
  · simp

theorem mem_setDelete (s : List String) (x y : String) : y ∈ setDelete s x ↔ y ∈ s ∧ y ≠ x := by
  simp [setDelete]

theorem self_mem_setAdd (s : List String) (x : String) : x ∈ setAdd s x :=
  (mem_setAdd s x x).2 (Or.inr rfl)

theorem self_not_mem_setDelete (s : List String) (x : String) : x ∉ setDelete s x := by
  simp [setDelete]

/-! ## The registrar, branch by branch -/

theorem processNewDirectory_gated (cfg : Config) (env : Env) (S : List String) (d : String)
    (h : d ∈ S) : processNewDirectory cfg env S d = ⟨S, []⟩ := by
  simp [processNewDirectory, setHas, h]

theorem processNewDirectory_checkError (cfg : Config) (env : Env) (S : List String) (d : String)
    (h : d ∉ S) (m : String) (hg : env.axiosGet (projectsUrl cfg) (hostPathOf cfg d) = .error m) :
    processNewDirectory cfg env S d
      = ⟨setDelete (setAdd S d) d, [Call.axiosGet (projectsUrl cfg) (hostPathOf cfg d)]⟩ := by
  simp [processNewDirectory, setHas, h, hg]

theorem processNewDirectory_exists (cfg : Config) (env : Env) (S : List String) (d : String)
    (h : d ∉ S) (data : Option (List ProjectRecord))
    (hg : env.axiosGet (projectsUrl cfg) (hostPathOf cfg d) = .ok data)
    (hd : dataNonEmpty data = true) :
    processNewDirectory cfg env S d
      = ⟨setAdd (setAdd S d) d, [Call.axiosGet (projectsUrl cfg) (hostPathOf cfg d)]⟩ := by
  simp [processNewDirectory, setHas, h, hg, hd]

theorem processNewDirectory_noConcept (cfg : Config) (env : Env) (S : List String) (d : String)
    (h : d ∉ S) (data : Option (List ProjectRecord))
    (hg : env.axiosGet (projectsUrl cfg) (hostPathOf cfg d) = .ok data)
    (hd : dataNonEmpty data = false)
    (h1 : env.fsAccess (conceptPathMd d) = false) (h2 : env.fsAccess (conceptPathReadme d) = false) :
    processNewDirectory cfg env S d
      = ⟨setDelete (setAdd S d) d, [Call.axiosGet (projectsUrl cfg) (hostPathOf cfg d),
          Call.fsAccess (conceptPathMd d), Call.fsAccess (conceptPathReadme d)]⟩ := by
  simp [processNewDirectory, setHas, h, hg, hd, h1, h2]

theorem processNewDirectory_md_unreadable (cfg : Config) (env : Env) (S : List String) (d : String)
    (h : d ∉ S) (data : Option (List ProjectRecord))
    (hg : env.axiosGet (projectsUrl cfg) (hostPathOf cfg d) = .ok data)
    (hd : dataNonEmpty data = false)
    (h1 : env.fsAccess (conceptPathMd d) = true) (m : String)
    (hr : env.fsReadFile (conceptPathMd d) = .error m) :
    processNewDirectory cfg env S d
      = ⟨setDelete (setAdd S d) d, [Call.axiosGet (projectsUrl cfg) (hostPathOf cfg d),
          Call.fsAccess (conceptPathMd d), Call.fsReadFile (conceptPathMd d)]⟩ := by
  simp [processNewDirectory, setHas, h, hg, hd, h1, hr]

theorem processNewDirectory_readme_unreadable (cfg : Config) (env : Env) (S : List String)
    (d : String) (h : d ∉ S) (data : Option (List ProjectRecord))
    (hg : env.axiosGet (projectsUrl cfg) (hostPathOf cfg d) = .ok data)
    (hd : dataNonEmpty data = false)
    (h1 : env.fsAccess (conceptPathMd d) = false) (h2 : env.fsAccess (conceptPathReadme d) = true)
    (m : String) (hr : env.fsReadFile (conceptPathReadme d) = .error m) :
    processNewDirectory cfg env S d
      = ⟨setDelete (setAdd S d) d, [Call.axiosGet (projectsUrl cfg) (hostPathOf cfg d),
          Call.fsAccess (conceptPathMd d), Call.fsAccess (conceptPathReadme d),
          Call.fsReadFile (conceptPathReadme d)]⟩ := by
  simp [processNewDirectory, setHas, h, hg, hd, h1, h2, hr]

theorem processNewDirectory_md_read (cfg : Config) (env : Env) (S : List String) (d : String)
    (h : d ∉ S) (data : Option (List ProjectRecord))
    (hg : env.axiosGet (projectsUrl cfg) (hostPathOf cfg d) = .ok data)
    (hd : dataNonEmpty data = false)
    (h1 : env.fsAccess (conceptPathMd d) = true) (c : String)
    (hr : env.fsReadFile (conceptPathMd d) = .ok c) :
    processNewDirectory cfg env S d
      = ⟨if (env.axiosPost (projectsUrl cfg) ⟨path.basename d, hostPathOf cfg d, c⟩).releases
            then setDelete (setAdd S d) d else setAdd S d,
          [Call.axiosGet (projectsUrl cfg) (hostPathOf cfg d),
           Call.fsAccess (conceptPathMd d), Call.fsReadFile (conceptPathMd d),
           Call.axiosPost (projectsUrl cfg) ⟨path.basename d, hostPathOf cfg d, c⟩]⟩ := by
  by_cases hp : (env.axiosPost (projectsUrl cfg) ⟨path.basename d, hostPathOf cfg d, c⟩).releases = true <;>
    simp [processNewDirectory, setHas, h, hg, hd, h1, hr, hp]

theorem processNewDirectory_readme_read (cfg : Config) (env : Env) (S : List String) (d : String)
    (h : d ∉ S) (data : Option (List ProjectRecord))
    (hg : env.axiosGet (projectsUrl cfg) (hostPathOf cfg d) = .ok data)
    (hd : dataNonEmpty data = false)
    (h1 : env.fsAccess (conceptPathMd d) = false) (h2 : env.fsAccess (conceptPathReadme d) = true)
    (c : String) (hr : env.fsReadFile (conceptPathReadme d) = .ok c) :
    processNewDirectory cfg env S d
      = ⟨if (env.axiosPost (projectsUrl cfg) ⟨path.basename d, hostPathOf cfg d, c⟩).releases
            then setDelete (setAdd S d) d else setAdd S d,
          [Call.axiosGet (projectsUrl cfg) (hostPathOf cfg d),
           Call.fsAccess (conceptPathMd d), Call.fsAccess (conceptPathReadme d),
           Call.fsReadFile (conceptPathReadme d),
           Call.axiosPost (projectsUrl cfg) ⟨path.basename d, hostPathOf cfg d, c⟩]⟩ := by
  by_cases hp : (env.axiosPost (projectsUrl cfg) ⟨path.basename d, hostPathOf cfg d, c⟩).releases = true <;>
    simp [processNewDirectory, setHas, h, hg, hd, h1, h2, hr, hp]

theorem dataNonEmpty_iff (data : Option (List ProjectRecord)) :
    dataNonEmpty data = true ↔ ∃ r rs, data = some (r :: rs) := by
  rcases data with _ | ⟨_ | ⟨r, rs⟩⟩ <;> simp [dataNonEmpty]

theorem releases_eq_false_iff (o : PostOutcome) :
    o.releases = false ↔ ((∃ status, o = .ok status) ∨ o = .axiosErrorResponse 409) := by
  cases o <;> simp [PostOutcome.releases]

/-! ## The registrar: claims -/

/-- C1. A run of `processNewDirectory(dirPath)` that starts with `dirPath`
outside `processedDirs` ends, whatever the collaborators answer, with
`dirPath` in `processedDirs` exactly when the existence check returned a
non-empty array, or a creation call was made and resolved, or a creation
call was made and was rejected with HTTP status 409; in every other case
`dirPath` is outside `processedDirs`. The run always returns a state. -/
theorem processNewDirectory_final_state (cfg : Config) (env : Env) (processedDirs : List String)
    (dirPath : String) (h : dirPath ∉ processedDirs) :
    (dirPath ∈ (processNewDirectory cfg env processedDirs dirPath).processedDirs ↔
      ((∃ r rs, env.axiosGet (projectsUrl cfg) (hostPathOf cfg dirPath) = .ok (some (r :: rs))) ∨
       (∃ data, Call.axiosPost (projectsUrl cfg) data
            ∈ (processNewDirectory cfg env processedDirs dirPath).calls ∧
          ((∃ status, env.axiosPost (projectsUrl cfg) data = .ok status) ∨
            env.axiosPost (projectsUrl cfg) data = .axiosErrorResponse 409)))) := by
  rcases hg : env.axiosGet (projectsUrl cfg) (hostPathOf cfg dirPath) with data | m
  · cases hd : dataNonEmpty data
    · have hne : ¬ ∃ r rs, data = some (r :: rs) := by
        rw [← dataNonEmpty_iff, hd]; simp
      have hne2 : ¬ ∃ r rs, GetOutcome.ok data = GetOutcome.ok (some (r :: rs)) := by
        rintro ⟨r, rs, e⟩
        exact hne ⟨r, rs, by injection e⟩
      cases h1 : env.fsAccess (conceptPathMd dirPath)
      · cases h2 : env.fsAccess (conceptPathReadme dirPath)
        · rw [processNewDirectory_noConcept cfg env _ _ h data hg hd h1 h2]
          simp only [hne2, false_or]
          simp [self_not_mem_setDelete]
        · rcases hr : env.fsReadFile (conceptPathReadme dirPath) with c | m
          · rw [processNewDirectory_readme_read cfg env _ _ h data hg hd h1 h2 c hr]
            simp only [hne2, false_or, List.mem_cons, List.mem_singleton, reduceCtorEq,
              Call.axiosPost.injEq, true_and, List.not_mem_nil, or_false, false_or,
              exists_eq_left, ← releases_eq_false_iff]
            cases hp : (env.axiosPost (projectsUrl cfg)
              ⟨path.basename dirPath, hostPathOf cfg dirPath, c⟩).releases <;>
              simp [self_mem_setAdd, self_not_mem_setDelete]
          · rw [processNewDirectory_readme_unreadable cfg env _ _ h data hg hd h1 h2 m hr]
            simp only [hne2, false_or]
            simp [self_not_mem_setDelete]
      · rcases hr : env.fsReadFile (conceptPathMd dirPath) with c | m
        · rw [processNewDirectory_md_read cfg env _ _ h data hg hd h1 c hr]
          simp only [hne2, false_or, List.mem_cons, List.mem_singleton, reduceCtorEq,
            Call.axiosPost.injEq, true_and, List.not_mem_nil, or_false, false_or,
            exists_eq_left, ← releases_eq_false_iff]
          cases hp : (env.axiosPost (projectsUrl cfg)
            ⟨path.basename dirPath, hostPathOf cfg dirPath, c⟩).releases <;>
            simp [self_mem_setAdd, self_not_mem_setDelete]
        · rw [processNewDirectory_md_unreadable cfg env _ _ h data hg hd h1 m hr]
          simp only [hne2, false_or]
          simp [self_not_mem_setDelete]
    · rw [processNewDirectory_exists cfg env _ _ h data hg hd]
      have hex := (dataNonEmpty_iff data).1 hd
      obtain ⟨r, rs, e⟩ := hex
      subst e
      simp [mem_setAdd]
  · rw [processNewDirectory_checkError cfg env _ _ h m hg]
    simp [self_not_mem_setDelete]

/-- The state reached in C1 at a concrete run: no record, both documents
present, creation acknowledged, so `/w/foo` ends in `processedDirs`. -/
theorem processNewDirectory_final_state_witness :
    "/w/foo" ∈ (processNewDirectory exampleConfig envBoth [] "/w/foo").processedDirs :=
  (processNewDirectory_final_state exampleConfig envBoth [] "/w/foo" (by decide)).2
    (Or.inr ⟨⟨"foo", "/srv/projects/foo", "# Concept"⟩, by decide, Or.inl ⟨201, rfl⟩⟩)

/-- C2. The dedup gate: `processNewDirectory(p)` proceeds, marking `p` in
`processedDirs` and issuing the existence check, if and only if `p` was not
in `processedDirs` when it was called; when `p` is already there the call
returns at once, makes no call to any collaborator, and leaves
`processedDirs` unchanged. -/
theorem dedup_gate (cfg : Config) (env : Env) (processedDirs : List String) (p : String) :
    ((invoke cfg processedDirs p).task ≠ Task.done ↔ p ∉ processedDirs) ∧
    ((processNewDirectory cfg env processedDirs p).calls ≠ [] ↔ p ∉ processedDirs) ∧
    (p ∉ processedDirs →
      p ∈ (invoke cfg processedDirs p).processedDirs ∧
      (invoke cfg processedDirs p).calls = [Call.axiosGet (projectsUrl cfg) (hostPathOf cfg p)]) ∧
    (p ∈ processedDirs →
      invoke cfg processedDirs p = ⟨processedDirs, Task.done, []⟩ ∧
      processNewDirectory cfg env processedDirs p = ⟨processedDirs, []⟩) := by
  by_cases h : p ∈ processedDirs
  · have hi : invoke cfg processedDirs p = ⟨processedDirs, Task.done, []⟩ := by
      simp [invoke, setHas, h]
    rw [processNewDirectory_gated cfg env _ _ h, hi]
    simp [h]
  · have hi : invoke cfg processedDirs p = ⟨setAdd processedDirs p,
        .awaitGet p (path.basename p) (hostPathOf cfg p),
        [Call.axiosGet (projectsUrl cfg) (hostPathOf cfg p)]⟩ := by
      simp [invoke, setHas, h]
    have hc : (processNewDirectory cfg env processedDirs p).calls ≠ [] := by
      unfold processNewDirectory
      simp only [setHas, h, decide_False, Bool.false_eq_true, if_false]
      repeat' split
      all_goals simp
    rw [hi]
    simp [h, hc, self_mem_setAdd]

/-- The gate of C2 at a concrete state: `/w/foo` is already processed. -/
theorem dedup_gate_witness :
    invoke exampleConfig ["/w/foo"] "/w/foo" = ⟨["/w/foo"], Task.done, []⟩ ∧
    processNewDirectory exampleConfig envBoth ["/w/foo"] "/w/foo" = ⟨["/w/foo"], []⟩ :=
  (dedup_gate exampleConfig envBoth ["/w/foo"] "/w/foo").2.2.2 (by decide)

/-- C6. Existence check hit: for an acquired candidate, if the existence
check resolves with one or more records, `processNewDirectory` stops after
that single call (no concept file is probed or read, no creation call is
made) and `dirPath` stays in `processedDirs`. -/
theorem existence_check_hit (cfg : Config) (env : Env) (processedDirs : List String)
    (dirPath : String) (h : dirPath ∉ processedDirs) (r : ProjectRecord) (rs : List ProjectRecord)
    (hg : env.axiosGet (projectsUrl cfg) (hostPathOf cfg dirPath) = .ok (some (r :: rs))) :
    (processNewDirectory cfg env processedDirs dirPath).calls
        = [Call.axiosGet (projectsUrl cfg) (hostPathOf cfg dirPath)] ∧
    (∀ c ∈ (processNewDirectory cfg env processedDirs dirPath).calls,
        c.isFile = false ∧ c.isPost = false) ∧
    dirPath ∈ (processNewDirectory cfg env processedDirs dirPath).processedDirs := by
  rw [processNewDirectory_exists cfg env _ _ h _ hg rfl]
  simp [Call.isFile, Call.isPost, mem_setAdd]

/-- The hit of C6 at a concrete run. -/
theorem existence_check_hit_witness :
    (processNewDirectory exampleConfig envExists [] "/w/foo").calls
        = [Call.axiosGet (projectsUrl exampleConfig) (hostPathOf exampleConfig "/w/foo")] ∧
    (∀ c ∈ (processNewDirectory exampleConfig envExists [] "/w/foo").calls,
        c.isFile = false ∧ c.isPost = false) ∧
    "/w/foo" ∈ (processNewDirectory exampleConfig envExists [] "/w/foo").processedDirs :=
  existence_check_hit exampleConfig envExists [] "/w/foo" (by decide) fooRecord [] rfl

/-- C7. Existence check failure: for an acquired candidate, if the existence
check is rejected, `processNewDirectory` removes `dirPath` from
`processedDirs` and stops, with no file access and no creation call. -/
theorem existence_check_failure (cfg : Config) (env : Env) (processedDirs : List String)
    (dirPath : String) (h : dirPath ∉ processedDirs) (m : String)
    (hg : env.axiosGet (projectsUrl cfg) (hostPathOf cfg dirPath) = .error m) :
    (processNewDirectory cfg env processedDirs dirPath).calls
        = [Call.axiosGet (projectsUrl cfg) (hostPathOf cfg dirPath)] ∧
    (∀ c ∈ (processNewDirectory cfg env processedDirs dirPath).calls,
        c.isFile = false ∧ c.isPost = false) ∧
    dirPath ∉ (processNewDirectory cfg env processedDirs dirPath).processedDirs := by
  rw [processNewDirectory_checkError cfg env _ _ h m hg]
  simp [Call.isFile, Call.isPost, self_not_mem_setDelete]

/-- The failure of C7 at a concrete run. -/
theorem existence_check_failure_witness :
    (processNewDirectory exampleConfig envCheckFails [] "/w/foo").calls
        = [Call.axiosGet (projectsUrl exampleConfig) (hostPathOf exampleConfig "/w/foo")] ∧
    (∀ c ∈ (processNewDirectory exampleConfig envCheckFails [] "/w/foo").calls,
        c.isFile = false ∧ c.isPost = false) ∧
    "/w/foo" ∉ (processNewDirectory exampleConfig envCheckFails [] "/w/foo").processedDirs :=
  existence_check_failure exampleConfig envCheckFails [] "/w/foo" (by decide)
    "connect ECONNREFUSED" rfl



namespace path

theorem splitSlash_ne_nil (p : List Char) : splitSlash p ≠ [] := by
  cases p with
  | nil => simp [splitSlash]
  | cons c cs =>
    unfold splitSlash
    split
    · simp
    · split <;> simp

theorem splitSlash_append (a b : List Char) :
    splitSlash (a ++ '/' :: b) = splitSlash a ++ splitSlash b := by
  induction a with
  | nil => simp [splitSlash]
  | cons c cs ih =>
    by_cases hc : c = '/'
    · simp [splitSlash, hc, ih]
    · have hne := splitSlash_ne_nil cs
      rcases hs : splitSlash cs with _ | ⟨s, ss⟩
      · exact absurd hs hne
      · simp [splitSlash, hc, ih, hs]

theorem splitSlash_of_no_slash (s : List Char) (h : '/' ∉ s) : splitSlash s = [s] := by
  induction s with
  | nil => rfl
  | cons c cs ih =>
    have hc : c ≠ '/' := fun e => h (by simp [e])
    have hcs : '/' ∉ cs := fun e => h (by simp [e])
    simp [splitSlash, hc, ih hcs]

theorem splitSlash_joinSlash (segs : List (List Char)) (hne : segs ≠ [])
    (h : ∀ s ∈ segs, '/' ∉ s) : splitSlash (joinSlash segs) = segs := by
  induction segs with
  | nil => exact absurd rfl hne
  | cons s ss ih =>
    cases ss with
    | nil => simpa [joinSlash] using splitSlash_of_no_slash s (h s (by simp))
    | cons t ts =>
      have h1 := splitSlash_of_no_slash s (h s (by simp))
      have h2 := ih (by simp) (fun x hx => h x (by simp [hx]))
      simp only [joinSlash]
      rw [splitSlash_append, h1, h2]
      rfl

end path

theorem normalizeStep_good (b : Bool) (st : List (List Char)) (s : List Char) (h : GoodSegment s) :
    path.normalizeStep b st s = s :: st := by
  obtain ⟨h1, _, h3, h4⟩ := h
  simp [path.normalizeStep, h1, h3, h4]

theorem foldl_normalizeStep_good (b : Bool) (segs st : List (List Char))
    (h : ∀ s ∈ segs, GoodSegment s) :
    segs.foldl (path.normalizeStep b) st = segs.reverse ++ st := by
  induction segs generalizing st with
  | nil => rfl
  | cons s ss ih =>
    simp only [List.foldl_cons, List.reverse_cons, List.append_assoc, List.singleton_append]
    rw [normalizeStep_good b st s (h s (by simp)), ih _ (fun x hx => h x (by simp [hx]))]

theorem normalizeStep_empty (b : Bool) (st : List (List Char)) :
    path.normalizeStep b st [] = st := by
  simp [path.normalizeStep]

/-- The segments of an absolute path with good segments are found again by
`normalizeSegments`, also behind a trailing `/`. -/
theorem normalizeSegments_absolutePath (b : Bool) (segs : List (List Char))
    (h : ∀ s ∈ segs, GoodSegment s) :
    path.normalizeSegments (absolutePath segs).data b = segs ∧
    path.normalizeSegments ((absolutePath segs).data ++ ['/']) b = segs := by
  have hs : path.splitSlash (absolutePath segs).data = [] :: (if segs = [] then [[]] else segs) := by
    by_cases he : segs = []
    · subst he; rfl
    · simp only [absolutePath, path.splitSlash, if_true, he, if_false]
      rw [path.splitSlash_joinSlash segs he (fun s hs => (h s hs).2.1)]
  have hf : (path.splitSlash (absolutePath segs).data).foldl (path.normalizeStep b) []
      = segs.reverse := by
    rw [hs]
    by_cases he : segs = []
    · subst he; simp [normalizeStep_empty]
    · simp only [he, if_false, List.foldl_cons, normalizeStep_empty]
      rw [foldl_normalizeStep_good b segs [] h]; simp
  constructor
  · simp [path.normalizeSegments, hf]
  · have : (absolutePath segs).data ++ ['/'] = (absolutePath segs).data ++ '/' :: [] := rfl
    rw [path.normalizeSegments, this, path.splitSlash_append, List.foldl_append, hf]
    simp [path.splitSlash, normalizeStep_empty]


theorem absolutePath_injective (a b : List (List Char)) (ha : ∀ s ∈ a, GoodSegment s)
    (hb : ∀ s ∈ b, GoodSegment s) (h : absolutePath a = absolutePath b) : a = b := by
  have h1 := (normalizeSegments_absolutePath false a ha).1
  have h2 := (normalizeSegments_absolutePath false b hb).1
  rw [h] at h1
  exact h1.symm.trans h2

theorem resolveSegments_absolutePath (cwd : String) (segs : List (List Char))
    (h : ∀ s ∈ segs, GoodSegment s) :
    path.resolveSegments cwd (absolutePath segs) = (true, segs) := by
  have hd : (absolutePath segs).data = '/' :: path.joinSlash segs := rfl
  have h2 := (normalizeSegments_absolutePath false segs h).2
  rw [hd] at h2
  have h3 : path.normalizeSegments ('/' :: (path.joinSlash segs ++ ['/'])) false = segs := h2
  simp [path.resolveSegments, hd, path.isAbsolute, h3]

theorem dropCommon_append (cs rs : List (List Char)) :
    path.dropCommon cs (cs ++ rs) = ([], rs) := by
  induction cs with
  | nil => cases rs <;> rfl
  | cons c cs ih => simp [path.dropCommon, ih]

/-- The path of `root/rel` relative to `root` is `rel`. -/
theorem relative_absolutePath (cwd : String) (cs rs : List (List Char))
    (hc : ∀ s ∈ cs, GoodSegment s) (hr : ∀ s ∈ rs, GoodSegment s) :
    path.relative cwd (absolutePath cs) (absolutePath (cs ++ rs)) = ⟨path.joinSlash rs⟩ := by
  have hcr : ∀ s ∈ cs ++ rs, GoodSegment s := by
    intro s hs
    rcases List.mem_append.1 hs with h | h
    · exact hc s h
    · exact hr s h
  by_cases he : rs = []
  · subst he
    simp [path.relative, path.joinSlash]
  · have hne : absolutePath cs ≠ absolutePath (cs ++ rs) := by
      intro e
      have := absolutePath_injective _ _ hc hcr e
      exact he (by simpa using this)
    have hres : path.resolve cwd (absolutePath cs) ≠ path.resolve cwd (absolutePath (cs ++ rs)) := by
      simp only [path.resolve, resolveSegments_absolutePath cwd cs hc,
        resolveSegments_absolutePath cwd (cs ++ rs) hcr, if_true]
      exact hne
    simp only [path.relative, hne, hres, if_false, resolveSegments_absolutePath cwd cs hc,
      resolveSegments_absolutePath cwd (cs ++ rs) hcr, dropCommon_append]
    simp


theorem foldl_splitSlash_absolutePath (b : Bool) (segs : List (List Char))
    (h : ∀ s ∈ segs, GoodSegment s) :
    (path.splitSlash (absolutePath segs).data).foldl (path.normalizeStep b) [] = segs.reverse := by
  have h1 := (normalizeSegments_absolutePath b segs h).1
  unfold path.normalizeSegments at h1
  have h2 := congrArg List.reverse h1
  simpa using h2

theorem joinSlash_ne_nil (segs : List (List Char)) (hne : segs ≠ [])
    (h : ∀ s ∈ segs, GoodSegment s) : path.joinSlash segs ≠ [] := by
  cases segs with
  | nil => exact absurd rfl hne
  | cons s ss =>
    have hs := (h s (by simp)).1
    cases ss with
    | nil => simpa [path.joinSlash] using hs
    | cons t ts => simp [path.joinSlash, hs]

theorem getLast?_append_cons_of_ne_nil (a b : List Char) (c : Char) (hb : b ≠ []) :
    (a ++ c :: b).getLast? = b.getLast? := by
  cases b with
  | nil => exact absurd rfl hb
  | cons x xs =>
    rw [List.getLast?_append, List.getLast?_cons_cons]
    cases hx : (x :: xs).getLast? with
    | none => simp at hx
    | some y => simp

theorem getLast?_joinSlash (segs : List (List Char)) (hne : segs ≠ [])
    (h : ∀ s ∈ segs, GoodSegment s) : (path.joinSlash segs).getLast? ≠ some '/' := by
  induction segs with
  | nil => exact absurd rfl hne
  | cons s ss ih =>
    cases ss with
    | nil =>
      intro e
      have hm : '/' ∈ s := List.mem_of_getLast?_eq_some (by simpa [path.joinSlash] using e)
      exact (h s (by simp)).2.1 hm
    | cons t ts =>
      have h2 := ih (by simp) (fun x hx => h x (by simp [hx]))
      have hn := joinSlash_ne_nil (t :: ts) (by simp) (fun x hx => h x (by simp [hx]))
      simp only [path.joinSlash]
      rw [getLast?_append_cons_of_ne_nil _ _ _ hn]
      exact h2

theorem normalize_absolutePath (segs : List (List Char)) (h : ∀ s ∈ segs, GoodSegment s) :
    path.normalize (absolutePath segs) = absolutePath segs := by
  have hd : (absolutePath segs).data = '/' :: path.joinSlash segs := rfl
  have hq : path.normalizeString (absolutePath segs).data false = path.joinSlash segs := by
    rw [path.normalizeString, (normalizeSegments_absolutePath false segs h).1]
  by_cases he : segs = []
  · subst he; rfl
  · have hn := joinSlash_ne_nil segs he h
    have hl : ('/' :: path.joinSlash segs).getLast? ≠ some '/' := by
      have := getLast?_append_cons_of_ne_nil [] (path.joinSlash segs) '/' hn
      simp only [List.nil_append] at this
      rw [this]
      exact getLast?_joinSlash segs he h
    rw [hd] at hq
    unfold path.normalize
    simp [hd, path.isAbsolute, hn, hl, absolutePath, hq]

/-- Joining a host root with a relative path of good segments appends the segments. -/
theorem join_absolutePath (hs rs : List (List Char)) (hh : ∀ s ∈ hs, GoodSegment s)
    (hr : ∀ s ∈ rs, GoodSegment s) :
    path.join [absolutePath hs, ⟨path.joinSlash rs⟩] = absolutePath (hs ++ rs) := by
  have hd : (absolutePath hs).data = '/' :: path.joinSlash hs := rfl
  by_cases he : rs = []
  · subst he
    simp only [path.join, path.joinSlash, List.append_nil]
    simp [hd, path.joinSlash]
    exact normalize_absolutePath hs hh
  · have hn := joinSlash_ne_nil rs he hr
    have hl := getLast?_joinSlash rs he hr
    have hhr : ∀ s ∈ hs ++ rs, GoodSegment s := by
      intro s hs'
      rcases List.mem_append.1 hs' with h | h
      · exact hh s h
      · exact hr s h
    have hne2 : hs ++ rs ≠ [] := by simp [he]
    have hq : path.normalizeSegments ('/' :: (path.joinSlash hs ++ '/' :: path.joinSlash rs)) false
        = hs ++ rs := by
      have e1 : '/' :: (path.joinSlash hs ++ '/' :: path.joinSlash rs)
          = (absolutePath hs).data ++ '/' :: path.joinSlash rs := rfl
      rw [path.normalizeSegments, e1, path.splitSlash_append, List.foldl_append,
        foldl_splitSlash_absolutePath false hs hh,
        path.splitSlash_joinSlash rs he (fun s hs' => (hr s hs').2.1),
        foldl_normalizeStep_good false rs _ hr]
      simp
    have hlast : ('/' :: (path.joinSlash hs ++ '/' :: path.joinSlash rs)).getLast? ≠ some '/' := by
      have := getLast?_append_cons_of_ne_nil ('/' :: path.joinSlash hs) (path.joinSlash rs) '/' hn
      rw [List.cons_append] at this
      rw [this]
      exact hl
    have hjn := joinSlash_ne_nil (hs ++ rs) hne2 hhr
    simp only [path.join]
    simp [hd, hn, path.joinSlash, path.normalize, path.isAbsolute, path.normalizeString, hq,
      hlast, hjn, absolutePath]


theorem joinSlash_cons_of_ne_nil (y : List Char) (l : List (List Char)) (hl : l ≠ []) :
    path.joinSlash (y :: l) = y ++ '/' :: path.joinSlash l := by
  cases l with
  | nil => exact absurd rfl hl
  | cons t ts => rfl

theorem joinSlash_snoc (Y : List (List Char)) (a x : List Char) :
    path.joinSlash (Y ++ [a, x]) = path.joinSlash (Y ++ [a]) ++ '/' :: x := by
  induction Y with
  | nil => rfl
  | cons y Y ih =>
    rw [List.cons_append, List.cons_append, joinSlash_cons_of_ne_nil y _ (by simp),
      joinSlash_cons_of_ne_nil y _ (by simp), ih]
    simp

theorem joinSlash_concat (Y : List (List Char)) (x : List Char) :
    path.joinSlash (Y ++ [x])
      = (if Y = [] then [] else path.joinSlash Y ++ ['/']) ++ x := by
  induction Y with
  | nil => rfl
  | cons y Y ih =>
    rw [List.cons_append, joinSlash_cons_of_ne_nil y _ (by simp), ih]
    by_cases hY : Y = []
    · subst hY; simp [path.joinSlash]
    · rw [joinSlash_cons_of_ne_nil y Y hY]
      simp [hY]

/-- Normalizing `p/x`, for a kept file name `x`, gives a path that ends with
`x` after a part that depends on `p` only. -/
theorem normalize_concat (p : List Char) (hp : p ≠ []) :
    ∃ pre : List Char, ∀ x : List Char, GoodSegment x →
      (path.normalize ⟨p ++ '/' :: x⟩).data = pre ++ x := by
  refine ⟨(if path.isAbsolute p then ['/'] else []) ++
    (if ((path.splitSlash p).foldl (path.normalizeStep (!path.isAbsolute p)) []).reverse = []
      then []
      else path.joinSlash
        ((path.splitSlash p).foldl (path.normalizeStep (!path.isAbsolute p)) []).reverse ++ ['/']),
    ?_⟩
  intro x hx
  have hx1 := hx.1
  have hab : path.isAbsolute (p ++ '/' :: x) = path.isAbsolute p := by
    cases p with
    | nil => exact absurd rfl hp
    | cons c cs => rfl
  have hl : (p ++ '/' :: x).getLast? ≠ some '/' := by
    rw [getLast?_append_cons_of_ne_nil _ _ _ hx1]
    intro e
    exact hx.2.1 (List.mem_of_getLast?_eq_some e)
  have hseg : ∀ b, path.normalizeSegments (p ++ '/' :: x) b
      = ((path.splitSlash p).foldl (path.normalizeStep b) []).reverse ++ [x] := by
    intro b
    rw [path.normalizeSegments, path.splitSlash_append, List.foldl_append,
      path.splitSlash_of_no_slash _ hx.2.1]
    simp [normalizeStep_good b _ x hx]
  have hq : ∀ b, path.normalizeString (p ++ '/' :: x) b ≠ [] := by
    intro b
    rw [path.normalizeString, hseg, joinSlash_concat]
    simp [hx1]
  have hne : p ++ '/' :: x ≠ [] := by simp
  unfold path.normalize
  simp only [hne, if_false, hab, hq, hl, decide_False, Bool.false_eq_true]
  rw [path.normalizeString, hseg, joinSlash_concat]
  cases path.isAbsolute p <;> simp

/-- The path `path.join(d, 'docs', x)` ends with the file name `x`, after a
part that depends on `d` only. -/
theorem join_docs (d : String) :
    ∃ pre : List Char, ∀ x : List Char, GoodSegment x →
      (path.join [d, "docs", ⟨x⟩]).data = pre ++ x := by
  by_cases hd : d.data = []
  · obtain ⟨pre, hpre⟩ := normalize_concat "docs".data (by decide)
    refine ⟨pre, fun x hx => ?_⟩
    rw [← hpre x hx]
    have hx1 := hx.1
    have hdd : ¬ ("docs" : String).data = [] := by decide
    simp [path.join, List.filter, hd, hx1, hdd, path.joinSlash]
  · obtain ⟨pre, hpre⟩ := normalize_concat (d.data ++ '/' :: "docs".data) (by simp)
    refine ⟨pre, fun x hx => ?_⟩
    rw [← hpre x hx]
    have hx1 := hx.1
    have hdd : ¬ ("docs" : String).data = [] := by decide
    simp [path.join, List.filter, hd, hx1, hdd, path.joinSlash]

theorem conceptPathMd_ne_conceptPathReadme (d : String) :
    conceptPathMd d ≠ conceptPathReadme d := by
  obtain ⟨pre, hpre⟩ := join_docs d
  have h1 := hpre "concept.md".data ⟨by decide, by decide, by decide, by decide⟩
  have h2 := hpre "README.md".data ⟨by decide, by decide, by decide, by decide⟩
  intro e
  unfold conceptPathMd conceptPathReadme at e
  have e1 : (path.join [d, "docs", "concept.md"]).data = (path.join [d, "docs", "README.md"]).data :=
    congrArg String.data e
  have e2 : pre ++ "concept.md".data = pre ++ "README.md".data := by
    rw [← h1, ← h2]; exact e1
  have e3 := List.append_cancel_left e2
  exact absurd e3 (by decide)

/-- C5. Path translation: for a directory `dirPath = root/rel` under the
container watch path `root`, the host path computed by `processNewDirectory`
(and sent with the existence check) is `path.join(hostWatchPath,
path.relative(containerWatchPath, dirPath))`, which is the host watch path
followed by `rel`. Paths are given by their segments. -/
theorem host_path_translation (cfg : Config) (env : Env) (processedDirs : List String)
    (dirPath : String) (cs hs rs : List (List Char))
    (hc : ∀ s ∈ cs, GoodSegment s) (hh : ∀ s ∈ hs, GoodSegment s) (hr : ∀ s ∈ rs, GoodSegment s)
    (h1 : cfg.containerWatchPath = absolutePath cs) (h2 : cfg.hostWatchPath = absolutePath hs)
    (h3 : dirPath = absolutePath (cs ++ rs)) (h : dirPath ∉ processedDirs) :
    hostPathOf cfg dirPath
        = path.join [cfg.hostWatchPath, path.relative cfg.cwd cfg.containerWatchPath dirPath] ∧
    hostPathOf cfg dirPath = absolutePath (hs ++ rs) ∧
    (processNewDirectory cfg env processedDirs dirPath).calls.head?
        = some (Call.axiosGet (projectsUrl cfg) (absolutePath (hs ++ rs))) := by
  have hp : hostPathOf cfg dirPath = absolutePath (hs ++ rs) := by
    unfold hostPathOf
    rw [h1, h2, h3, relative_absolutePath cfg.cwd cs rs hc hr, join_absolutePath hs rs hh hr]
  refine ⟨rfl, hp, ?_⟩
  rw [← hp]
  unfold processNewDirectory
  simp only [setHas, h, decide_False, Bool.false_eq_true, if_false]
  repeat' split
  all_goals simp

/-- The translation of C5 for the watch root `/w` on the host at
`/srv/projects`: `/w/foo` is translated to `/srv/projects/foo`. -/
theorem host_path_translation_witness :
    hostPathOf exampleConfig "/w/foo" = "/srv/projects/foo" ∧
    (processNewDirectory exampleConfig envBoth [] "/w/foo").calls.head?
        = some (Call.axiosGet (projectsUrl exampleConfig) "/srv/projects/foo") :=
  (host_path_translation exampleConfig envBoth [] "/w/foo"
    ["w".data] ["srv".data, "projects".data] ["foo".data]
    (by intro s hs; simp at hs; subst hs; exact ⟨by decide, by decide, by decide, by decide⟩)
    (by
      intro s hs; simp at hs
      rcases hs with rfl | rfl <;> exact ⟨by decide, by decide, by decide, by decide⟩)
    (by intro s hs; simp at hs; subst hs; exact ⟨by decide, by decide, by decide, by decide⟩)
    rfl rfl rfl (by decide)).2

/-- C8. Missing content: for an acquired candidate that passed the existence
check, if neither `docs/concept.md` nor `docs/README.md` is accessible, or
reading the chosen file fails, `processNewDirectory` makes no creation call
and removes `dirPath` from `processedDirs`; a creation call is the last call
of a run, made after the chosen document was found accessible and read
successfully, with the text read as its concept. -/
theorem missing_content (cfg : Config) (env : Env) (processedDirs : List String)
    (dirPath : String) (h : dirPath ∉ processedDirs) (data : Option (List ProjectRecord))
    (hg : env.axiosGet (projectsUrl cfg) (hostPathOf cfg dirPath) = .ok data)
    (hd : dataNonEmpty data = false) :
    ((env.fsAccess (conceptPathMd dirPath) = false ∧
        env.fsAccess (conceptPathReadme dirPath) = false) →
      (∀ c ∈ (processNewDirectory cfg env processedDirs dirPath).calls, c.isPost = false) ∧
      dirPath ∉ (processNewDirectory cfg env processedDirs dirPath).processedDirs) ∧
    ((env.fsAccess (conceptPathMd dirPath) = true ∧
        ∃ m, env.fsReadFile (conceptPathMd dirPath) = .error m) →
      (∀ c ∈ (processNewDirectory cfg env processedDirs dirPath).calls, c.isPost = false) ∧
      dirPath ∉ (processNewDirectory cfg env processedDirs dirPath).processedDirs) ∧
    ((env.fsAccess (conceptPathMd dirPath) = false ∧
        env.fsAccess (conceptPathReadme dirPath) = true ∧
        ∃ m, env.fsReadFile (conceptPathReadme dirPath) = .error m) →
      (∀ c ∈ (processNewDirectory cfg env processedDirs dirPath).calls, c.isPost = false) ∧
      dirPath ∉ (processNewDirectory cfg env processedDirs dirPath).processedDirs) ∧
    (∀ u pd, Call.axiosPost u pd ∈ (processNewDirectory cfg env processedDirs dirPath).calls →
      ∃ f pre, (f = conceptPathMd dirPath ∨ f = conceptPathReadme dirPath) ∧
        env.fsAccess f = true ∧ env.fsReadFile f = .ok pd.concept ∧
        (processNewDirectory cfg env processedDirs dirPath).calls = pre ++ [Call.axiosPost u pd] ∧
        Call.fsAccess f ∈ pre ∧ Call.fsReadFile f ∈ pre) := by
  cases h1 : env.fsAccess (conceptPathMd dirPath)
  · cases h2 : env.fsAccess (conceptPathReadme dirPath)
    · rw [processNewDirectory_noConcept cfg env _ _ h data hg hd h1 h2]
      simp [Call.isPost, self_not_mem_setDelete]
    · rcases hr : env.fsReadFile (conceptPathReadme dirPath) with c | m
      · rw [processNewDirectory_readme_read cfg env _ _ h data hg hd h1 h2 c hr]
        refine ⟨by simp, by simp, by simp, ?_⟩
        intro u pd hm
        simp only [List.mem_cons, reduceCtorEq, Call.axiosPost.injEq, List.mem_singleton,
          List.not_mem_nil, or_false, false_or] at hm
        obtain ⟨hu, hpd⟩ := hm
        subst hu hpd
        exact ⟨conceptPathReadme dirPath,
          [Call.axiosGet (projectsUrl cfg) (hostPathOf cfg dirPath),
            Call.fsAccess (conceptPathMd dirPath), Call.fsAccess (conceptPathReadme dirPath),
            Call.fsReadFile (conceptPathReadme dirPath)],
          Or.inr rfl, h2, hr, rfl, by simp, by simp⟩
      · rw [processNewDirectory_readme_unreadable cfg env _ _ h data hg hd h1 h2 m hr]
        simp [Call.isPost, self_not_mem_setDelete]
  · rcases hr : env.fsReadFile (conceptPathMd dirPath) with c | m
    · rw [processNewDirectory_md_read cfg env _ _ h data hg hd h1 c hr]
      refine ⟨by simp, by simp, by simp, ?_⟩
      intro u pd hm
      simp only [List.mem_cons, reduceCtorEq, Call.axiosPost.injEq, List.mem_singleton,
        List.not_mem_nil, or_false, false_or] at hm
      obtain ⟨hu, hpd⟩ := hm
      subst hu hpd
      exact ⟨conceptPathMd dirPath,
        [Call.axiosGet (projectsUrl cfg) (hostPathOf cfg dirPath),
          Call.fsAccess (conceptPathMd dirPath), Call.fsReadFile (conceptPathMd dirPath)],
        Or.inl rfl, h1, hr, rfl, by simp, by simp⟩
    · rw [processNewDirectory_md_unreadable cfg env _ _ h data hg hd h1 m hr]
      simp [Call.isPost, self_not_mem_setDelete]

/-- The skip of C8 at a concrete run: a project directory without `docs/`. -/
theorem missing_content_witness :
    (∀ c ∈ (processNewDirectory exampleConfig envNoDocs [] "/w/foo").calls, c.isPost = false) ∧
    "/w/foo" ∉ (processNewDirectory exampleConfig envNoDocs [] "/w/foo").processedDirs :=
  (missing_content exampleConfig envNoDocs [] "/w/foo" (by decide) (some []) rfl rfl).1
    ⟨by decide, by decide⟩

/-- C9. Precedence: when both `docs/concept.md` and `docs/README.md` are
accessible, `docs/README.md` is never probed nor read, the concept of every creation
request is the content read from `docs/concept.md`, and that request is made
whenever the existence check finds nothing and `docs/concept.md` is read. -/
theorem concept_precedence (cfg : Config) (env : Env) (processedDirs : List String)
    (dirPath : String) (h : dirPath ∉ processedDirs)
    (h1 : env.fsAccess (conceptPathMd dirPath) = true)
    (_h2 : env.fsAccess (conceptPathReadme dirPath) = true) :
    Call.fsReadFile (conceptPathReadme dirPath)
        ∉ (processNewDirectory cfg env processedDirs dirPath).calls ∧
    Call.fsAccess (conceptPathReadme dirPath)
        ∉ (processNewDirectory cfg env processedDirs dirPath).calls ∧
    (∀ u pd, Call.axiosPost u pd ∈ (processNewDirectory cfg env processedDirs dirPath).calls →
      env.fsReadFile (conceptPathMd dirPath) = .ok pd.concept) ∧
    (∀ data c, env.axiosGet (projectsUrl cfg) (hostPathOf cfg dirPath) = .ok data →
      dataNonEmpty data = false → env.fsReadFile (conceptPathMd dirPath) = .ok c →
      Call.axiosPost (projectsUrl cfg) ⟨path.basename dirPath, hostPathOf cfg dirPath, c⟩
        ∈ (processNewDirectory cfg env processedDirs dirPath).calls) := by
  have hne := conceptPathMd_ne_conceptPathReadme dirPath
  rcases hg : env.axiosGet (projectsUrl cfg) (hostPathOf cfg dirPath) with data | m
  · cases hd : dataNonEmpty data
    · rcases hr : env.fsReadFile (conceptPathMd dirPath) with c | m
      · rw [processNewDirectory_md_read cfg env _ _ h data hg hd h1 c hr]
        refine ⟨by simp [Ne.symm hne], by simp [Ne.symm hne], ?_, ?_⟩
        · intro u pd hm
          simp only [List.mem_cons, reduceCtorEq, Call.axiosPost.injEq, List.mem_singleton,
            List.not_mem_nil, or_false, false_or] at hm
          obtain ⟨_, hpd⟩ := hm
          subst hpd
          rfl
        · intro data2 c2 _ _ e
          injection e with e
          subst e
          simp
      · rw [processNewDirectory_md_unreadable cfg env _ _ h data hg hd h1 m hr]
        simp [Ne.symm hne]
    · rw [processNewDirectory_exists cfg env _ _ h data hg hd]
      refine ⟨by simp, by simp, by simp, ?_⟩
      intro data2 c2 e hd2
      injection e with e
      subst e
      rw [hd] at hd2
      exact absurd hd2 (by simp)
  · rw [processNewDirectory_checkError cfg env _ _ h m hg]
    simp

/-- The precedence of C9 at a concrete run with both documents present. -/
theorem concept_precedence_witness :
    Call.fsReadFile "/w/foo/docs/README.md"
        ∉ (processNewDirectory exampleConfig envBoth [] "/w/foo").calls ∧
    Call.axiosPost (projectsUrl exampleConfig) ⟨"foo", "/srv/projects/foo", "# Concept"⟩
        ∈ (processNewDirectory exampleConfig envBoth [] "/w/foo").calls :=
  ⟨(concept_precedence exampleConfig envBoth [] "/w/foo" (by decide) (by decide) (by decide)).1,
   (concept_precedence exampleConfig envBoth [] "/w/foo" (by decide) (by decide) (by decide)).2.2.2
     (some []) "# Concept" rfl rfl (by decide)⟩

/-! ## The registrar as a task -/

/-- Run to completion, the task makes the calls and reaches the state of
`processNewDirectory`: five resumptions are enough. -/
theorem drive_invoke (cfg : Config) (env : Env) (S : List String) (d : String) :
    (drive cfg env 5 (invoke cfg S d)).task = Task.done ∧
    processNewDirectory cfg env S d
      = ⟨(drive cfg env 5 (invoke cfg S d)).processedDirs, (drive cfg env 5 (invoke cfg S d)).calls⟩ := by
  by_cases h : d ∈ S
  · rw [processNewDirectory_gated cfg env _ _ h]
    simp [invoke, setHas, h, drive, resume]
  · rcases hg : env.axiosGet (projectsUrl cfg) (hostPathOf cfg d) with data | m
    · cases hd : dataNonEmpty data
      · cases h1 : env.fsAccess (conceptPathMd d)
        · cases h2 : env.fsAccess (conceptPathReadme d)
          · rw [processNewDirectory_noConcept cfg env _ _ h data hg hd h1 h2]
            simp [invoke, setHas, h, drive, resume, hg, hd, h1, h2]
          · rcases hr : env.fsReadFile (conceptPathReadme d) with c | m
            · rw [processNewDirectory_readme_read cfg env _ _ h data hg hd h1 h2 c hr]
              cases hp : (env.axiosPost (projectsUrl cfg)
                ⟨path.basename d, hostPathOf cfg d, c⟩).releases <;>
                simp [invoke, setHas, h, drive, resume, hg, hd, h1, h2, hr, hp]
            · rw [processNewDirectory_readme_unreadable cfg env _ _ h data hg hd h1 h2 m hr]
              simp [invoke, setHas, h, drive, resume, hg, hd, h1, h2, hr]
        · rcases hr : env.fsReadFile (conceptPathMd d) with c | m
          · rw [processNewDirectory_md_read cfg env _ _ h data hg hd h1 c hr]
            cases hp : (env.axiosPost (projectsUrl cfg)
              ⟨path.basename d, hostPathOf cfg d, c⟩).releases <;>
              simp [invoke, setHas, h, drive, resume, hg, hd, h1, hr, hp]
          · rw [processNewDirectory_md_unreadable cfg env _ _ h data hg hd h1 m hr]
            simp [invoke, setHas, h, drive, resume, hg, hd, h1, hr]
      · rw [processNewDirectory_exists cfg env _ _ h data hg hd]
        simp [invoke, setHas, h, drive, resume, hg, hd]
    · rw [processNewDirectory_checkError cfg env _ _ h m hg]
      simp [invoke, setHas, h, drive, resume, hg]

theorem resume_done (cfg : Config) (env : Env) (S : List String) :
    resume cfg env S Task.done = ⟨S, Task.done, []⟩ := rfl

/-- A resumption issues a creation call only by using up the one the task
still had ahead of it. -/
theorem resume_posts (cfg : Config) (env : Env) (S : List String) (t : Task) :
    (resume cfg env S t).calls.countP Call.isPost + (resume cfg env S t).task.postsAhead
      ≤ t.postsAhead := by
  cases t with
  | awaitGet d n hp =>
    simp only [resume]
    split
    · simp [Task.postsAhead]
    · split <;> simp [Task.postsAhead, Call.isPost]
  | awaitAccessMd d n hp =>
    simp only [resume]
    split <;> simp [Task.postsAhead, Call.isPost]
  | awaitAccessReadme d n hp =>
    simp only [resume]
    split <;> simp [Task.postsAhead, Call.isPost]
  | awaitReadFile d n hp f =>
    simp only [resume]
    split <;> simp [Task.postsAhead, Call.isPost]
  | awaitPost d pd =>
    simp only [resume]
    split <;> simp [Task.postsAhead]
  | done => simp [resume, Task.postsAhead]

/-- Along any schedule, a second invocation that is done stays done without
a call, and the first never issues more creation calls than it had ahead. -/
theorem Pair.run_posts (cfg : Config) (schedule : List (Bool × Env)) (s : Pair)
    (h2 : s.second = Task.done) :
    (Pair.run cfg s schedule).second = Task.done ∧
    (Pair.run cfg s schedule).callsSecond = s.callsSecond ∧
    (Pair.run cfg s schedule).callsFirst.countP Call.isPost
        + (Pair.run cfg s schedule).first.postsAhead
      ≤ s.callsFirst.countP Call.isPost + s.first.postsAhead := by
  induction schedule generalizing s with
  | nil => simp [Pair.run, h2]
  | cons turn rest ih =>
    have hrun : Pair.run cfg s (turn :: rest) = Pair.run cfg (Pair.step cfg s turn) rest := rfl
    rw [hrun]
    cases ht : turn.1
    · have e1 : (Pair.step cfg s turn).second = s.second := by simp [Pair.step, ht]
      have e2 : (Pair.step cfg s turn).callsSecond = s.callsSecond := by simp [Pair.step, ht]
      have e3 : (Pair.step cfg s turn).callsFirst
          = s.callsFirst ++ (resume cfg turn.2 s.processedDirs s.first).calls := by
        simp [Pair.step, ht]
      have e4 : (Pair.step cfg s turn).first = (resume cfg turn.2 s.processedDirs s.first).task := by
        simp [Pair.step, ht]
      obtain ⟨i1, i2, i3⟩ := ih (Pair.step cfg s turn) (by rw [e1]; exact h2)
      refine ⟨i1, by rw [i2, e2], ?_⟩
      have hp := resume_posts cfg turn.2 s.processedDirs s.first
      rw [e3, e4, List.countP_append] at i3
      omega
    · have e1 : (Pair.step cfg s turn).second = Task.done := by
        simp [Pair.step, ht, h2, resume_done]
      have e2 : (Pair.step cfg s turn).callsSecond = s.callsSecond := by
        simp [Pair.step, ht, h2, resume_done]
      have e3 : (Pair.step cfg s turn).callsFirst = s.callsFirst := by simp [Pair.step, ht]
      have e4 : (Pair.step cfg s turn).first = s.first := by simp [Pair.step, ht]
      obtain ⟨i1, i2, i3⟩ := ih (Pair.step cfg s turn) e1
      refine ⟨i1, by rw [i2, e2], ?_⟩
      rw [e3, e4] at i3
      exact i3

/-- C3. Idempotent registration: when `processNewDirectory` is invoked twice
in immediate succession for the same `dirPath`, the second invocation
observes the dedup gate (it is done at once and never makes a call), and
however the event loop then schedules the awaited calls and whatever the
collaborators answer, at most one creation call is made in total. -/
theorem idempotent_registration (cfg : Config) (processedDirs : List String) (dirPath : String)
    (schedule : List (Bool × Env)) :
    (invokeTwice cfg processedDirs dirPath).second = Task.done ∧
    (invokeTwice cfg processedDirs dirPath).callsSecond = [] ∧
    (Pair.run cfg (invokeTwice cfg processedDirs dirPath) schedule).callsSecond = [] ∧
    ((Pair.run cfg (invokeTwice cfg processedDirs dirPath) schedule).callsFirst ++
      (Pair.run cfg (invokeTwice cfg processedDirs dirPath) schedule).callsSecond).countP
        Call.isPost ≤ 1 := by
  have hsecond : (invokeTwice cfg processedDirs dirPath).second = Task.done ∧
      (invokeTwice cfg processedDirs dirPath).callsSecond = [] := by
    by_cases h : dirPath ∈ processedDirs
    · simp [invokeTwice, invoke, setHas, h]
    · simp [invokeTwice, invoke, setHas, h, self_mem_setAdd]
  have hfirst : (invokeTwice cfg processedDirs dirPath).callsFirst.countP Call.isPost
      + (invokeTwice cfg processedDirs dirPath).first.postsAhead ≤ 1 := by
    by_cases h : dirPath ∈ processedDirs
    · simp [invokeTwice, invoke, setHas, h, Task.postsAhead]
    · simp [invokeTwice, invoke, setHas, h, Task.postsAhead, Call.isPost]
  obtain ⟨_, i2, i3⟩ := Pair.run_posts cfg schedule _ hsecond.1
  refine ⟨hsecond.1, hsecond.2, by rw [i2, hsecond.2], ?_⟩
  rw [i2, hsecond.2, List.append_nil]
  omega

/-! ## The tracking API: claims -/

/-- C4. The handler `getAllProjects` does not filter by `local_path`: with one
non-archived project stored under `/srv/projects/foo`, the request with
`local_path = /srv/projects/bar` is answered 200 with that project, although
no stored project has that path; the response never depends on `local_path`. -/
theorem getAllProjects_ignores_local_path :
    getAllProjects (projectsTable [fooRecord]) ⟨none, some "/srv/projects/bar"⟩
      = ⟨200, .rows [fooRecord]⟩ ∧
    matching [fooRecord] "/srv/projects/bar" = [] ∧
    (∀ (query : String → List String → DbOutcome) (archived h1 h2 : Option String),
      getAllProjects query ⟨archived, h1⟩ = getAllProjects query ⟨archived, h2⟩) := by
  refine ⟨by decide, by decide, ?_⟩
  intro query archived h1 h2
  rfl

/-- C10. Concept discovery is case-sensitive: in a project directory whose
only document is `docs/readme.md`, in lower case, `processNewDirectory`
probes `docs/concept.md` and `docs/README.md`, finds neither, makes no
creation call and releases the entry. -/
theorem lowercase_readme_not_found :
    (fileSystem [("/w/foo/docs/readme.md", ReadOutcome.ok "# Foo")]).1 "/w/foo/docs/readme.md"
      = true ∧
    processNewDirectory exampleConfig envLowerReadme [] "/w/foo"
      = ⟨[], [Call.axiosGet "http://api:3001/api/projects" "/srv/projects/foo",
          Call.fsAccess "/w/foo/docs/concept.md", Call.fsAccess "/w/foo/docs/README.md"]⟩ := by
  constructor
  · decide
  · decide

/-! ## The creation step -/

/-- The run depends on the answer of the creation call only through whether
it releases the entry. -/
theorem processNewDirectory_congr_post (cfg : Config) (S : List String) (d : String)
    (g : String → String → GetOutcome) (a : String → Bool) (r : String → ReadOutcome)
    (post1 post2 : String → ProjectData → PostOutcome)
    (hrel : ∀ u pd, (post1 u pd).releases = (post2 u pd).releases) :
    processNewDirectory cfg ⟨g, a, r, post1⟩ S d = processNewDirectory cfg ⟨g, a, r, post2⟩ S d := by
  unfold processNewDirectory
  simp only [hrel]

/-- Whenever a creation call is made, it is the call
`axios.post(url, { name, local_path, concept })` for the base name of
`dirPath`, the translated host path and a text read from a concept document. -/
theorem post_mem_calls (cfg : Config) (env : Env) (S : List String) (d : String) (u : String)
    (pd : ProjectData) (hm : Call.axiosPost u pd ∈ (processNewDirectory cfg env S d).calls) :
    d ∉ S ∧ u = projectsUrl cfg ∧ pd.name = path.basename d ∧ pd.local_path = hostPathOf cfg d ∧
    (∃ data, env.axiosGet (projectsUrl cfg) (hostPathOf cfg d) = .ok data ∧
      dataNonEmpty data = false) ∧
    (∃ f, (f = conceptPathMd d ∨ f = conceptPathReadme d) ∧ env.fsAccess f = true ∧
      env.fsReadFile f = .ok pd.concept ∧
      Call.fsReadFile f ∈ (processNewDirectory cfg env S d).calls) ∧
    (processNewDirectory cfg env S d).processedDirs
      = (if (env.axiosPost u pd).releases then setDelete (setAdd S d) d else setAdd S d) := by
  by_cases h : d ∈ S
  · rw [processNewDirectory_gated cfg env _ _ h] at hm
    simp at hm
  · rcases hg : env.axiosGet (projectsUrl cfg) (hostPathOf cfg d) with data | m
    · cases hd : dataNonEmpty data
      · cases h1 : env.fsAccess (conceptPathMd d)
        · cases h2 : env.fsAccess (conceptPathReadme d)
          · rw [processNewDirectory_noConcept cfg env _ _ h data hg hd h1 h2] at hm
            simp at hm
          · rcases hr : env.fsReadFile (conceptPathReadme d) with c | m
            · rw [processNewDirectory_readme_read cfg env _ _ h data hg hd h1 h2 c hr] at hm ⊢
              simp only [List.mem_cons, reduceCtorEq, Call.axiosPost.injEq, List.mem_singleton,
                List.not_mem_nil, or_false, false_or] at hm
              obtain ⟨hu, hpd⟩ := hm
              subst hu hpd
              exact ⟨h, rfl, rfl, rfl, ⟨data, rfl, hd⟩,
                ⟨conceptPathReadme d, Or.inr rfl, h2, hr, by simp⟩, rfl⟩
            · rw [processNewDirectory_readme_unreadable cfg env _ _ h data hg hd h1 h2 m hr] at hm
              simp at hm
        · rcases hr : env.fsReadFile (conceptPathMd d) with c | m
          · rw [processNewDirectory_md_read cfg env _ _ h data hg hd h1 c hr] at hm ⊢
            simp only [List.mem_cons, reduceCtorEq, Call.axiosPost.injEq, List.mem_singleton,
              List.not_mem_nil, or_false, false_or] at hm
            obtain ⟨hu, hpd⟩ := hm
            subst hu hpd
            exact ⟨h, rfl, rfl, rfl, ⟨data, rfl, hd⟩,
              ⟨conceptPathMd d, Or.inl rfl, h1, hr, by simp⟩, rfl⟩
          · rw [processNewDirectory_md_unreadable cfg env _ _ h data hg hd h1 m hr] at hm
            simp at hm
      · rw [processNewDirectory_exists cfg env _ _ h data hg hd] at hm
        simp at hm
    · rw [processNewDirectory_checkError cfg env _ _ h m hg] at hm
      simp at hm

/-- The absolute path with a last segment has that segment as its base name. -/
theorem basename_absolutePath (segs : List (List Char)) (n : List Char)
    (h : ∀ s ∈ segs ++ [n], GoodSegment s) :
    path.basename (absolutePath (segs ++ [n])) = ⟨n⟩ := by
  have hne : segs ++ [n] ≠ [] := by simp
  have hs : path.splitSlash (absolutePath (segs ++ [n])).data = [] :: (segs ++ [n]) := by
    simp only [absolutePath, path.splitSlash, if_true]
    rw [path.splitSlash_joinSlash _ hne (fun s hs => (h s hs).2.1)]
  have hf : (segs ++ [n]).filter (fun s => decide (s ≠ [])) = segs ++ [n] := by
    apply List.filter_eq_self.2
    intro s hs
    simpa using (h s hs).1
  unfold path.basename
  rw [hs]
  simp only [List.filter, ne_eq, not_true_eq_false, decide_False]
  rw [hf]
  simp

/-- The creation call of `envOf get files post` settles as `post`. -/
theorem envOf_post (get : GetOutcome) (files : List (String × ReadOutcome)) (post : PostOutcome)
    (u : String) (pd : ProjectData) : (envOf get files post).axiosPost u pd = post := rfl

/-- A run that passes the gate makes the existence check for the translated host path. -/
theorem get_mem_calls (cfg : Config) (env : Env) (S : List String) (d : String) (h : d ∉ S) :
    Call.axiosGet (projectsUrl cfg) (hostPathOf cfg d) ∈ (processNewDirectory cfg env S d).calls := by
  unfold processNewDirectory
  simp only [setHas, h, decide_False, Bool.false_eq_true, if_false]
  repeat' split
  all_goals simp

/-- C11. Conflict handling: for an acquired candidate that reaches the
creation step, a creation call rejected with HTTP status 409 leaves the same
final state, after the same calls, as a creation call that resolves:
`dirPath` stays in `processedDirs`. The run returns a state in both cases
and has no access to the timers, so nothing is retried. -/
theorem conflict_as_success (cfg : Config) (processedDirs : List String) (dirPath : String)
    (g : String → String → GetOutcome) (a : String → Bool) (r : String → ReadOutcome)
    (status : Nat) (_h : dirPath ∉ processedDirs)
    (hreach : ∃ u pd, Call.axiosPost u pd
      ∈ (processNewDirectory cfg ⟨g, a, r, fun _ _ => .ok status⟩ processedDirs dirPath).calls) :
    processNewDirectory cfg ⟨g, a, r, fun _ _ => .axiosErrorResponse 409⟩ processedDirs dirPath
      = processNewDirectory cfg ⟨g, a, r, fun _ _ => .ok status⟩ processedDirs dirPath ∧
    dirPath ∈ (processNewDirectory cfg ⟨g, a, r, fun _ _ => .axiosErrorResponse 409⟩
      processedDirs dirPath).processedDirs := by
  have e := processNewDirectory_congr_post cfg processedDirs dirPath g a r
    (fun _ _ => PostOutcome.axiosErrorResponse 409) (fun _ _ => PostOutcome.ok status)
    (fun _ _ => rfl)
  refine ⟨e, ?_⟩
  rw [e]
  obtain ⟨u, pd, hm⟩ := hreach
  have hp := (post_mem_calls cfg _ processedDirs dirPath u pd hm).2.2.2.2.2.2
  rw [hp]
  simp [PostOutcome.releases, self_mem_setAdd]

/-- The conflict of C11 at a concrete run with both documents present. -/
theorem conflict_as_success_witness :
    processNewDirectory exampleConfig
        ⟨envBoth.axiosGet, envBoth.fsAccess, envBoth.fsReadFile, fun _ _ => .axiosErrorResponse 409⟩
        [] "/w/foo"
      = processNewDirectory exampleConfig
        ⟨envBoth.axiosGet, envBoth.fsAccess, envBoth.fsReadFile, fun _ _ => .ok 201⟩ [] "/w/foo" ∧
    "/w/foo" ∈ (processNewDirectory exampleConfig
        ⟨envBoth.axiosGet, envBoth.fsAccess, envBoth.fsReadFile, fun _ _ => .axiosErrorResponse 409⟩
        [] "/w/foo").processedDirs :=
  conflict_as_success exampleConfig [] "/w/foo" envBoth.axiosGet envBoth.fsAccess
    envBoth.fsReadFile 201 (by decide)
    ⟨projectsUrl exampleConfig, ⟨"foo", "/srv/projects/foo", "# Concept"⟩, by decide⟩

/-- C12. Transient creation failure: when the creation call is rejected
with anything but an HTTP 409 response (another HTTP status, an axios error
without response, or an error that is not an axios error),
`processNewDirectory` removes `dirPath` from `processedDirs`, and a later
call for the same path passes the gate and makes the existence check again. -/
theorem transient_creation_failure (cfg : Config) (env : Env) (processedDirs : List String)
    (dirPath : String) (u : String) (pd : ProjectData)
    (hm : Call.axiosPost u pd ∈ (processNewDirectory cfg env processedDirs dirPath).calls)
    (hfail : (∃ status, status ≠ 409 ∧ env.axiosPost u pd = .axiosErrorResponse status) ∨
      (∃ m, env.axiosPost u pd = .axiosErrorNoResponse m) ∨
      (∃ m, env.axiosPost u pd = .otherError m)) :
    dirPath ∉ (processNewDirectory cfg env processedDirs dirPath).processedDirs ∧
    (invoke cfg (processNewDirectory cfg env processedDirs dirPath).processedDirs dirPath).task
      ≠ Task.done ∧
    (∀ env2, Call.axiosGet (projectsUrl cfg) (hostPathOf cfg dirPath)
      ∈ (processNewDirectory cfg env2
          (processNewDirectory cfg env processedDirs dirPath).processedDirs dirPath).calls) := by
  have hrel : (env.axiosPost u pd).releases = true := by
    rcases hfail with ⟨st, hst, e⟩ | ⟨m, e⟩ | ⟨m, e⟩
    · rw [e]; simp [PostOutcome.releases, hst]
    · rw [e]; rfl
    · rw [e]; rfl
  have hp := (post_mem_calls cfg env processedDirs dirPath u pd hm).2.2.2.2.2.2
  rw [hrel] at hp
  have hout : dirPath ∉ (processNewDirectory cfg env processedDirs dirPath).processedDirs := by
    rw [hp]; simp [self_not_mem_setDelete]
  refine ⟨hout, ?_, fun env2 => get_mem_calls cfg env2 _ _ hout⟩
  simp [invoke, setHas, hout]

/-- The failure of C12 at a concrete run: the creation call is answered 500. -/
theorem transient_creation_failure_witness :
    "/w/foo" ∉ (processNewDirectory exampleConfig
      (envOf (.ok (some [])) [("/w/foo/docs/concept.md", .ok "# Concept")]
        (.axiosErrorResponse 500)) [] "/w/foo").processedDirs :=
  (transient_creation_failure exampleConfig
    (envOf (.ok (some [])) [("/w/foo/docs/concept.md", .ok "# Concept")] (.axiosErrorResponse 500))
    [] "/w/foo" (projectsUrl exampleConfig) ⟨"foo", "/srv/projects/foo", "# Concept"⟩
    (by decide) (Or.inl ⟨500, by decide, rfl⟩)).1

/-- C13. Creation payload: whenever `processNewDirectory(dirPath)` makes a
creation call, its body has `name` equal to `path.basename(dirPath)` (the last
segment of `dirPath`), `local_path` equal to the translated host path, which
is the value sent as `local_path` with the existence check of the same run,
and `concept` equal to the text read from the chosen concept document. -/
theorem creation_payload (cfg : Config) (env : Env) (processedDirs : List String)
    (dirPath : String) (u : String) (pd : ProjectData)
    (hm : Call.axiosPost u pd ∈ (processNewDirectory cfg env processedDirs dirPath).calls) :
    u = projectsUrl cfg ∧
    pd.name = path.basename dirPath ∧
    (∀ segs n, (∀ s ∈ segs ++ [n], GoodSegment s) → dirPath = absolutePath (segs ++ [n]) →
      pd.name = ⟨n⟩) ∧
    pd.local_path = hostPathOf cfg dirPath ∧
    Call.axiosGet (projectsUrl cfg) pd.local_path
      ∈ (processNewDirectory cfg env processedDirs dirPath).calls ∧
    (∃ f, (f = conceptPathMd dirPath ∨ f = conceptPathReadme dirPath) ∧
      Call.fsReadFile f ∈ (processNewDirectory cfg env processedDirs dirPath).calls ∧
      env.fsReadFile f = .ok pd.concept) := by
  obtain ⟨h, hu, hn, hl, _, ⟨f, hf, _, hr, hfm⟩, _⟩ :=
    post_mem_calls cfg env processedDirs dirPath u pd hm
  refine ⟨hu, hn, ?_, hl, ?_, ⟨f, hf, hfm, hr⟩⟩
  · intro segs n hgood hd
    rw [hn, hd, basename_absolutePath segs n hgood]
  · rw [hl]
    exact get_mem_calls cfg env _ _ h

/-- The payload of C13 at a concrete run. -/
theorem creation_payload_witness :
    ("foo" : String) = path.basename "/w/foo" ∧
    ("/srv/projects/foo" : String) = hostPathOf exampleConfig "/w/foo" ∧
    Call.axiosGet (projectsUrl exampleConfig) "/srv/projects/foo"
      ∈ (processNewDirectory exampleConfig envBoth [] "/w/foo").calls :=
  ⟨(creation_payload exampleConfig envBoth [] "/w/foo" (projectsUrl exampleConfig)
      ⟨"foo", "/srv/projects/foo", "# Concept"⟩ (by decide)).2.1,
   (creation_payload exampleConfig envBoth [] "/w/foo" (projectsUrl exampleConfig)
      ⟨"foo", "/srv/projects/foo", "# Concept"⟩ (by decide)).2.2.2.1,
   (creation_payload exampleConfig envBoth [] "/w/foo" (projectsUrl exampleConfig)
      ⟨"foo", "/srv/projects/foo", "# Concept"⟩ (by decide)).2.2.2.2.1⟩

/-! ## Node's `path.dirname` -/

theorem dropWhile_append_of_all {α : Type} (f : α → Bool) (l1 l2 : List α)
    (h : ∀ x ∈ l1, f x = true) : (l1 ++ l2).dropWhile f = l2.dropWhile f := by
  induction l1 with
  | nil => rfl
  | cons x xs ih =>
    have hx := h x (by simp)
    simp only [List.cons_append, List.dropWhile_cons, hx, if_true]
    exact ih (fun y hy => h y (by simp [hy]))

/-- The characters of `p` before its last segment, as `dirname` computes them. -/
theorem dirname_rest (pre a : List Char) (ha : a ≠ []) (hs : '/' ∉ a)
    (hpre : pre.getLast? = some '/') :
    (((pre ++ a).reverse.dropWhile (fun c => decide (c = '/'))).dropWhile
      (fun c => decide (c ≠ '/'))).reverse = pre := by
  have h1 : (pre ++ a).reverse = a.reverse ++ pre.reverse := List.reverse_append _ _
  have hne : a.reverse ≠ [] := by simpa using ha
  obtain ⟨c, cs, hc⟩ := List.exists_cons_of_ne_nil hne
  have hcm : c ∈ a := by
    have : c ∈ a.reverse := by rw [hc]; simp
    simpa using this
  have hc1 : c ≠ '/' := fun e => hs (e ▸ hcm)
  have h2 : (a.reverse ++ pre.reverse).dropWhile (fun c => decide (c = '/'))
      = a.reverse ++ pre.reverse := by
    rw [hc]
    simp [List.dropWhile_cons, hc1]
  have h3 : (a.reverse ++ pre.reverse).dropWhile (fun c => decide (c ≠ '/'))
      = pre.reverse.dropWhile (fun c => decide (c ≠ '/')) := by
    apply dropWhile_append_of_all
    intro x hx
    have hx' : x ∈ a := by simpa using hx
    have : x ≠ '/' := fun e => hs (e ▸ hx')
    simpa using this
  obtain ⟨ys, hys⟩ := List.getLast?_eq_some_iff.1 hpre
  have h4 : pre.reverse.dropWhile (fun c => decide (c ≠ '/')) = pre.reverse := by
    rw [hys]
    simp [List.dropWhile_cons]
  rw [h1, h2, h3, h4, List.reverse_reverse]

/-- The directory of `root/a` is `root`. -/
theorem dirname_absolutePath (segs : List (List Char)) (a : List Char)
    (h : ∀ s ∈ segs ++ [a], GoodSegment s) :
    path.dirname (absolutePath (segs ++ [a])) = absolutePath segs := by
  have ha := h a (by simp)
  have hsegs : ∀ s ∈ segs, GoodSegment s := fun s hs => h s (by simp [hs])
  have hd : (absolutePath (segs ++ [a])).data
      = ('/' :: (if segs = [] then [] else path.joinSlash segs ++ ['/'])) ++ a := by
    simp only [absolutePath, joinSlash_concat, List.cons_append]
  have hlast : ('/' :: (if segs = [] then [] else path.joinSlash segs ++ ['/'])).getLast?
      = some '/' := by
    by_cases he : segs = []
    · simp [he]
    · simp [he, List.getLast?_cons, List.getLast?_append]
  have hrest := dirname_rest _ a ha.1 ha.2.1 hlast
  have hne : (absolutePath (segs ++ [a])).data ≠ [] := by simp [absolutePath]
  have hroot : path.isAbsolute (absolutePath (segs ++ [a])).data = true := rfl
  unfold path.dirname
  simp only [hne, if_false, hroot]
  rw [hd, hrest]
  by_cases he : segs = []
  · subst he; rfl
  · have hj := joinSlash_ne_nil segs he hsegs
    obtain ⟨c, cs, hc⟩ := List.exists_cons_of_ne_nil hj
    simp only [he, if_false, hc]
    simp [absolutePath, hc, List.dropLast]

theorem length_mem_splitSlash (p : List Char) : ∀ s ∈ path.splitSlash p, s.length ≤ p.length := by
  induction p with
  | nil => intro s hs; simp [path.splitSlash] at hs; simp [hs]
  | cons c cs ih =>
    intro s hs
    unfold path.splitSlash at hs
    split at hs
    · rcases List.mem_cons.1 hs with h | h
      · simp [h]
      · have := ih s h
        simp only [List.length_cons]
        omega
    · rcases hsp : path.splitSlash cs with _ | ⟨t, ts⟩
      · simp [hsp] at hs
        simp [hs]
      · simp only [hsp, List.mem_cons] at hs
        rcases hs with h | h
        · have := ih t (by simp [hsp])
          simp only [h, List.length_cons]
          omega
        · have := ih s (by simp [hsp, h])
          simp only [List.length_cons]
          omega

theorem length_basename_le (x : String) :
    (path.basename x).data.length ≤ x.data.length := by
  unfold path.basename
  split
  · simp
  · rename_i s hs
    have hm : s ∈ (path.splitSlash x.data).filter (fun s => decide (s ≠ [])) :=
      List.mem_of_getLast?_eq_some hs
    exact length_mem_splitSlash x.data s (List.mem_filter.1 hm).1

/-- The characters `dirname` keeps are no more than the characters of the path. -/
theorem length_dirname_rest (l : List Char) :
    ((l.reverse.dropWhile (fun c => decide (c = '/'))).dropWhile
      (fun c => decide (c ≠ '/'))).reverse.length ≤ l.length := by
  rw [List.length_reverse]
  calc ((l.reverse.dropWhile (fun c => decide (c = '/'))).dropWhile
          (fun c => decide (c ≠ '/'))).length
      ≤ (l.reverse.dropWhile (fun c => decide (c = '/'))).length :=
        (List.dropWhile_sublist _).length_le
    _ ≤ l.reverse.length := (List.dropWhile_sublist _).length_le
    _ = l.length := List.length_reverse l

theorem length_dirname_le (x : String) :
    (path.dirname x).data.length ≤ max x.data.length 1 := by
  have hr := length_dirname_rest x.data
  unfold path.dirname
  split
  · simp
  · simp only []
    split
    · split <;> simp
    · split
      · rename_i h2
        have : ("//" : String).data.length = 2 := rfl
        rw [this]
        omega
      · simp only [List.length_dropLast]
        omega

theorem length_dirname_lt (x : String) (h : 3 ≤ x.data.length) :
    (path.dirname x).data.length < x.data.length := by
  have hr := length_dirname_rest x.data
  unfold path.dirname
  split
  · rename_i he
    rw [he] at h
    simp at h
  · simp only []
    split
    · split
      · have : ("/" : String).data.length = 1 := rfl
        omega
      · have : ("." : String).data.length = 1 := rfl
        omega
    · split
      · have : ("//" : String).data.length = 2 := rfl
        omega
      · simp only [List.length_dropLast]
        omega

/-- No path named `docs` is the directory of its own directory. -/
theorem dirname_dirname_ne (x : String) (h : path.basename x = "docs") :
    path.dirname (path.dirname x) ≠ x := by
  have h4 : 4 ≤ x.data.length := by
    have := length_basename_le x
    rw [h] at this
    exact this
  have h1 := length_dirname_lt x (by omega)
  have h2 := length_dirname_le (path.dirname x)
  intro e
  rw [e] at h2
  omega

/-- For an item directly in the watch path, the file branch of the timer
callback never calls `processNewDirectory`: the callback hands over the item
itself when it is a directory, and nothing otherwise. -/
theorem classify_accepted (cfg : Config) (stat : String → StatOutcome) (p : String)
    (hp : path.dirname p = cfg.containerWatchPath) :
    classify cfg stat p = if stat p = .directory then some p else none := by
  unfold classify
  cases hs : stat p
  · simp
  · simp only [reduceCtorEq, if_false]
    rw [if_neg]
    rintro ⟨h1, _, h3⟩
    rw [hp] at h1 h3
    exact dirname_dirname_ne _ h1 h3
  · simp

/-! ## The debounce timers -/

/-- The result of firing a list of timers, one after the other. -/
theorem foldl_fire (cfg : Config) (stat : String → StatOutcome) (L : List Timer) (s : Watcher) :
    (L.foldl (fire cfg stat) s).now = s.now ∧
    (L.foldl (fire cfg stat) s).nextId = s.nextId ∧
    (L.foldl (fire cfg stat) s).timers
      = s.timers.filter (fun u => decide (u.id ∉ L.map (fun t => t.id))) ∧
    (∀ q, (L.foldl (fire cfg stat) s).debounceTimers q
      = if q ∈ L.map (fun t => t.itemPath) then none else s.debounceTimers q) ∧
    (L.foldl (fire cfg stat) s).fired
      = s.fired ++ L.map (fun t => ⟨t.itemPath, s.now, classify cfg stat t.itemPath⟩) := by
  induction L generalizing s with
  | nil => simp
  | cons t ts ih =>
    obtain ⟨h1, h2, h3, h4, h5⟩ := ih (fire cfg stat s t)
    simp only [List.foldl_cons]
    refine ⟨h1, h2, ?_, ?_, ?_⟩
    · rw [h3]
      simp only [fire, List.filter_filter, List.map_cons, List.mem_cons, not_or]
      apply List.filter_congr
      intro u _
      by_cases hu : u.id = t.id <;> simp [hu]
    · intro q
      rw [h4]
      simp only [fire, List.map_cons, List.mem_cons]
      by_cases hq : q = t.itemPath
      · simp [hq]
      · simp [hq]
    · rw [h5]
      simp [fire]

/-- Two armed timers with the same identity are the same timer. -/
theorem Watcher.Inv.eq_of_id {s : Watcher} (hI : s.Inv) {t u : Timer} (ht : t ∈ s.timers)
    (hu : u ∈ s.timers) (h : t.id = u.id) : t = u :=
  List.inj_on_of_nodup_map hI.distinct ht hu h

/-- Two armed timers for the same path are the same timer. -/
theorem Watcher.Inv.eq_of_itemPath {s : Watcher} (hI : s.Inv) {t u : Timer} (ht : t ∈ s.timers)
    (hu : u ∈ s.timers) (h : t.itemPath = u.itemPath) : t = u := by
  apply hI.eq_of_id ht hu
  have h1 := hI.recorded t ht
  have h2 := hI.recorded u hu
  rw [h, h2] at h1
  injection h1 with h1
  exact h1.symm

/-- After the due timers have fired, the armed timers are those not yet due. -/
theorem timers_fireDue (cfg : Config) (stat : String → StatOutcome) (s : Watcher) (hI : s.Inv) :
    (fireDue cfg stat s).timers = s.timers.filter (fun t => decide (¬ t.deadline ≤ s.now)) := by
  unfold fireDue
  rw [(foldl_fire cfg stat _ s).2.2.1]
  apply List.filter_congr
  intro u hu
  by_cases hd : u.deadline ≤ s.now
  · have : u.id ∈ (s.timers.filter (fun t => decide (t.deadline ≤ s.now))).map (fun t => t.id) :=
      List.mem_map.2 ⟨u, List.mem_filter.2 ⟨hu, by simpa using hd⟩, rfl⟩
    simp [hd, this]
  · have : u.id ∉ (s.timers.filter (fun t => decide (t.deadline ≤ s.now))).map (fun t => t.id) := by
      intro hm
      obtain ⟨t, ht, hid⟩ := List.mem_map.1 hm
      obtain ⟨ht1, ht2⟩ := List.mem_filter.1 ht
      have := hI.eq_of_id ht1 hu hid
      subst this
      exact hd (by simpa using ht2)
    simp [hd, this]

theorem Watcher.inv_init (t0 : Nat) : (Watcher.init t0).Inv := by
  constructor <;> simp [Watcher.init]

theorem Watcher.inv_handle (cfg : Config) (p : String) (s : Watcher) (hI : s.Inv) :
    (handlePotentialProject cfg p s).Inv := by
  unfold handlePotentialProject
  split
  · exact hI
  · dsimp only
    have hsub : ∀ t, t ∈ (match s.debounceTimers p with
          | some id => clearTimeout s.timers id
          | none => s.timers) → t ∈ s.timers ∧ t.itemPath ≠ p := by
      intro t ht
      cases hdt : s.debounceTimers p with
      | none =>
        rw [hdt] at ht
        refine ⟨ht, fun e => ?_⟩
        have := hI.recorded t ht
        rw [e, hdt] at this
        exact absurd this (by simp)
      | some id =>
        rw [hdt] at ht
        simp only [clearTimeout, List.mem_filter, decide_eq_true_eq] at ht
        refine ⟨ht.1, fun e => ?_⟩
        have := hI.recorded t ht.1
        rw [e, hdt] at this
        injection this with this
        exact ht.2 this.symm
    have hsl : (match s.debounceTimers p with
          | some id => clearTimeout s.timers id
          | none => s.timers).Sublist s.timers := by
      cases s.debounceTimers p with
      | none => exact List.Sublist.refl _
      | some id => exact List.filter_sublist _
    constructor
    · intro t ht
      simp only [List.mem_append, List.mem_singleton] at ht
      rcases ht with ht | ht
      · have := hsub t ht
        simp only [this.2, if_false]
        exact hI.recorded t this.1
      · subst ht
        simp
    · intro t ht
      simp only [List.mem_append, List.mem_singleton] at ht
      rcases ht with ht | ht
      · have := hI.fresh t (hsub t ht).1
        dsimp only
        omega
      · subst ht
        simp
    · simp only [List.map_append, List.map_cons, List.map_nil]
      rw [List.nodup_append]
      refine ⟨(hsl.map _).nodup hI.distinct, by simp, ?_⟩
      intro a ha hb
      simp only [List.mem_singleton] at hb
      obtain ⟨t, ht, hid⟩ := List.mem_map.1 ha
      have := hI.fresh t (hsub t ht).1
      omega
    · intro q id hq
      dsimp only at hq ⊢
      split at hq
      · injection hq with hq
        omega
      · have := hI.freshKey q id hq
        omega
    · intro q1 q2 id h1 h2
      dsimp only at h1 h2
      split at h1
      · split at h2
        · rename_i e1 e2
          rw [e1, e2]
        · injection h1 with h1
          have := hI.freshKey q2 id h2
          omega
      · split at h2
        · injection h2 with h2
          have := hI.freshKey q1 id h1
          omega
        · exact hI.oneKey q1 q2 id h1 h2
    · intro t ht
      simp only [List.mem_append, List.mem_singleton] at ht
      rcases ht with ht | ht
      · exact hI.notOverdue t (hsub t ht).1
      · subst ht
        simp

theorem Watcher.inv_tick (cfg : Config) (stat : String → StatOutcome) (s : Watcher) (hI : s.Inv) :
    (tick cfg stat s).Inv := by
  have ht := timers_fireDue cfg stat s hI
  obtain ⟨h1, h2, _, h4, _⟩ := foldl_fire cfg stat
    (s.timers.filter (fun t => decide (t.deadline ≤ s.now))) s
  have hnow : (fireDue cfg stat s).now = s.now := h1
  have hid : (fireDue cfg stat s).nextId = s.nextId := h2
  have hdt : ∀ q, (fireDue cfg stat s).debounceTimers q
      = if q ∈ (s.timers.filter (fun t => decide (t.deadline ≤ s.now))).map (fun t => t.itemPath)
        then none else s.debounceTimers q := h4
  have hmem : ∀ t, t ∈ (fireDue cfg stat s).timers → t ∈ s.timers ∧ s.now < t.deadline := by
    intro t h
    rw [ht] at h
    have := List.mem_filter.1 h
    exact ⟨this.1, by simpa using this.2⟩
  constructor
  · intro t h
    obtain ⟨hm, hd⟩ := hmem t h
    simp only [tick, hdt]
    rw [if_neg]
    · exact hI.recorded t hm
    · intro hin
      obtain ⟨u, hu, hpu⟩ := List.mem_map.1 hin
      obtain ⟨hu1, hu2⟩ := List.mem_filter.1 hu
      have := hI.eq_of_itemPath hu1 hm hpu
      subst this
      have : u.deadline ≤ s.now := by simpa using hu2
      omega
  · intro t h
    simp only [tick, hid]
    exact hI.fresh t (hmem t h).1
  · simp only [tick, ht]
    exact ((List.filter_sublist _).map _).nodup hI.distinct
  · intro q id hq
    simp only [tick, hdt, hid] at hq ⊢
    split at hq
    · exact absurd hq (by simp)
    · exact hI.freshKey q id hq
  · intro q1 q2 id e1 e2
    simp only [tick, hdt] at e1 e2
    split at e1
    · exact absurd e1 (by simp)
    · split at e2
      · exact absurd e2 (by simp)
      · exact hI.oneKey q1 q2 id e1 e2
  · intro t h
    have := (hmem t h).2
    simp only [tick, hnow]
    omega

theorem Watcher.inv_step (cfg : Config) (s : Watcher) (a : Action) (hI : s.Inv) :
    (Watcher.step cfg s a).Inv := by
  cases a with
  | event p => exact Watcher.inv_handle cfg p s hI
  | tick stat => exact Watcher.inv_tick cfg stat s hI

theorem Watcher.inv_run (cfg : Config) (acts : List Action) (s : Watcher) (hI : s.Inv) :
    (Watcher.run cfg acts s).Inv := by
  induction acts generalizing s with
  | nil => exact hI
  | cons a as ih => exact ih _ (Watcher.inv_step cfg s a hI)

/-! ### One path at a time -/

theorem now_handle (cfg : Config) (q : String) (s : Watcher) :
    (handlePotentialProject cfg q s).now = s.now := by
  unfold handlePotentialProject
  split <;> rfl

theorem fired_handle (cfg : Config) (q : String) (s : Watcher) :
    (handlePotentialProject cfg q s).fired = s.fired := by
  unfold handlePotentialProject
  split <;> rfl

theorem debounceTimers_handle_other (cfg : Config) (q p : String) (s : Watcher) (h : p ≠ q) :
    (handlePotentialProject cfg q s).debounceTimers p = s.debounceTimers p := by
  unfold handlePotentialProject
  split
  · rfl
  · simp [h]

/-- An event on `q` leaves the armed timers of every other path armed. -/
theorem timersFor_handle_other (cfg : Config) (q p : String) (s : Watcher) (hI : s.Inv)
    (h : p ≠ q) : (handlePotentialProject cfg q s).timersFor p = s.timersFor p := by
  unfold handlePotentialProject
  split
  · rfl
  · dsimp only [Watcher.timersFor]
    rw [List.filter_append]
    have h1 : List.filter (fun t => decide (t.itemPath = p))
        [(⟨s.nextId, q, s.now + timeoutDelay cfg.debounceMs⟩ : Timer)] = [] := by
      simp [List.filter, Ne.symm h]
    rw [h1, List.append_nil]
    cases hdt : s.debounceTimers q with
    | none => rfl
    | some id =>
      dsimp only [clearTimeout]
      rw [List.filter_filter]
      apply List.filter_congr
      intro u hu
      by_cases hup : u.itemPath = p
      · have hne : u.id ≠ id := by
          intro e
          have h2 := hI.recorded u hu
          rw [hup, e] at h2
          exact h (hI.oneKey p q id h2 hdt)
        simp [hup, hne]
      · simp [hup]

/-- An accepted event on `p` leaves exactly the new timer armed for `p`. -/
theorem timersFor_handle_self (cfg : Config) (p : String) (s : Watcher) (hI : s.Inv)
    (hp : path.dirname p = cfg.containerWatchPath) :
    (handlePotentialProject cfg p s).timersFor p = [⟨s.nextId, p, s.now + timeoutDelay cfg.debounceMs⟩] ∧
    (handlePotentialProject cfg p s).debounceTimers p = some s.nextId := by
  unfold handlePotentialProject
  rw [if_neg (by simp [hp])]
  dsimp only [Watcher.timersFor]
  refine ⟨?_, by simp⟩
  rw [List.filter_append]
  have h1 : List.filter (fun t => decide (t.itemPath = p))
      [(⟨s.nextId, p, s.now + timeoutDelay cfg.debounceMs⟩ : Timer)]
      = [⟨s.nextId, p, s.now + timeoutDelay cfg.debounceMs⟩] := by
    simp [List.filter]
  rw [h1]
  have h2 : List.filter (fun t => decide (t.itemPath = p))
      (match s.debounceTimers p with
        | some id => clearTimeout s.timers id
        | none => s.timers) = [] := by
    rw [List.filter_eq_nil_iff]
    intro u hu
    cases hdt : s.debounceTimers p with
    | none =>
      rw [hdt] at hu
      have := hI.recorded u hu
      intro e
      simp only [decide_eq_true_eq] at e
      rw [e, hdt] at this
      exact absurd this (by simp)
    | some id =>
      rw [hdt] at hu
      simp only [clearTimeout, List.mem_filter, decide_eq_true_eq] at hu
      have := hI.recorded u hu.1
      intro e
      simp only [decide_eq_true_eq] at e
      rw [e, hdt] at this
      injection this with this
      exact hu.2 this.symm
  rw [h2, List.nil_append]

theorem now_tick (cfg : Config) (stat : String → StatOutcome) (s : Watcher) :
    (tick cfg stat s).now = s.now + 1 := by
  simp only [tick, fireDue, (foldl_fire cfg stat _ s).1]

/-- After a millisecond, the timers of a path that were not due are still armed. -/
theorem timersFor_tick (cfg : Config) (stat : String → StatOutcome) (s : Watcher) (hI : s.Inv)
    (p : String) :
    (tick cfg stat s).timersFor p
      = (s.timersFor p).filter (fun t => decide (¬ t.deadline ≤ s.now)) := by
  simp only [Watcher.timersFor, tick, timers_fireDue cfg stat s hI, List.filter_filter]
  apply List.filter_congr
  intro u _
  exact Bool.and_comm _ _

theorem filter_map_fired (cfg : Config) (stat : String → StatOutcome) (now : Nat) (p : String)
    (l : List Timer) :
    (l.map (fun t => (⟨t.itemPath, now, classify cfg stat t.itemPath⟩ : Fired))).filter
        (fun f => decide (f.itemPath = p))
      = (l.filter (fun t => decide (t.itemPath = p))).map
          (fun _ => (⟨p, now, classify cfg stat p⟩ : Fired)) := by
  induction l with
  | nil => rfl
  | cons t ts ih =>
    by_cases ht : t.itemPath = p
    · simp only [List.map_cons, List.filter_cons, ht, decide_True, if_true, ih]
    · simp only [List.map_cons, List.filter_cons, ht, decide_False, Bool.false_eq_true, if_false, ih]

/-- After a millisecond, the callbacks of the due timers of a path have run. -/
theorem firedFor_tick (cfg : Config) (stat : String → StatOutcome) (s : Watcher) (p : String) :
    (tick cfg stat s).firedFor p
      = s.firedFor p ++ ((s.timersFor p).filter (fun t => decide (t.deadline ≤ s.now))).map
          (fun _ => ⟨p, s.now, classify cfg stat p⟩) := by
  simp only [Watcher.firedFor, tick, fireDue, (foldl_fire cfg stat _ s).2.2.2.2, List.filter_append,
    Watcher.timersFor, filter_map_fired]
  congr 2
  rw [List.filter_filter, List.filter_filter]
  apply List.filter_congr
  intro u _
  exact Bool.and_comm _ _

theorem Watcher.run_append (cfg : Config) (a b : List Action) (s : Watcher) :
    Watcher.run cfg (a ++ b) s = Watcher.run cfg b (Watcher.run cfg a s) := by
  simp [Watcher.run, List.foldl_append]

theorem Watcher.run_cons (cfg : Config) (a : Action) (as : List Action) (s : Watcher) :
    Watcher.run cfg (a :: as) s = Watcher.run cfg as (Watcher.step cfg s a) := rfl

theorem countTicks_cons (a : Action) (as : List Action) :
    countTicks (a :: as) = (if a.isTick then 1 else 0) + countTicks as := by
  unfold countTicks
  rw [List.countP_cons]
  omega

theorem now_step (cfg : Config) (s : Watcher) (a : Action) :
    (Watcher.step cfg s a).now = s.now + (if a.isTick then 1 else 0) := by
  cases a with
  | event q => simp [Watcher.step, now_handle, Action.isTick]
  | tick stat => simp [Watcher.step, now_tick, Action.isTick]

/-- The clock after a list of actions. -/
theorem now_run (cfg : Config) (acts : List Action) (s : Watcher) :
    (Watcher.run cfg acts s).now = s.now + countTicks acts := by
  induction acts generalizing s with
  | nil => simp [Watcher.run, countTicks]
  | cons a as ih =>
    rw [Watcher.run_cons, ih, now_step, countTicks_cons]
    omega

/-- While no timer is armed for `p`, actions other than events on `p` arm
none and run no callback for `p`. -/
theorem step_idle (cfg : Config) (s : Watcher) (hI : s.Inv) (p : String) (a : Action)
    (ha : a.isEventOn p = false) (h0 : s.timersFor p = []) :
    (Watcher.step cfg s a).timersFor p = [] ∧ (Watcher.step cfg s a).firedFor p = s.firedFor p := by
  cases a with
  | event q =>
    have hq : p ≠ q := by
      intro e
      simp [Action.isEventOn, e] at ha
    simp only [Watcher.step]
    rw [timersFor_handle_other cfg q p s hI hq]
    exact ⟨h0, by simp [Watcher.firedFor, fired_handle]⟩
  | tick stat =>
    simp only [Watcher.step]
    rw [timersFor_tick cfg stat s hI, firedFor_tick, h0]
    simp

theorem run_idle (cfg : Config) (p : String) (acts : List Action)
    (ha : ∀ a ∈ acts, a.isEventOn p = false) (s : Watcher) (hI : s.Inv)
    (h0 : s.timersFor p = []) :
    (Watcher.run cfg acts s).timersFor p = [] ∧
    (Watcher.run cfg acts s).firedFor p = s.firedFor p := by
  induction acts generalizing s with
  | nil => exact ⟨h0, rfl⟩
  | cons a as ih =>
    obtain ⟨h1, h2⟩ := step_idle cfg s hI p a (ha a (by simp)) h0
    obtain ⟨h3, h4⟩ := ih (fun b hb => ha b (by simp [hb])) _ (Watcher.inv_step cfg s a hI) h1
    exact ⟨h3, by rw [Watcher.run_cons, h4, h2]⟩

/-- While the timer of `p` is not due, actions other than events on `p` leave
it armed and run no callback for `p`. -/
theorem step_pending_quiet (cfg : Config) (s : Watcher) (hI : s.Inv) (p : String) (a : Action)
    (ha : a.isEventOn p = false) (t : Timer) (h1 : s.timersFor p = [t])
    (hq : a.isTick = true → s.now < t.deadline) :
    (Watcher.step cfg s a).timersFor p = [t] ∧
    (Watcher.step cfg s a).firedFor p = s.firedFor p := by
  cases a with
  | event q =>
    have hq : p ≠ q := by
      intro e
      simp [Action.isEventOn, e] at ha
    simp only [Watcher.step]
    rw [timersFor_handle_other cfg q p s hI hq]
    exact ⟨h1, by simp [Watcher.firedFor, fired_handle]⟩
  | tick stat =>
    have hlt := hq rfl
    have hnd : ¬ t.deadline ≤ s.now := by omega
    simp only [Watcher.step]
    rw [timersFor_tick cfg stat s hI, firedFor_tick, h1]
    simp [hnd, hlt]

/-- When the timer of `p` is due, the passing millisecond runs its callback
once, at that time and with the metadata of that time, and leaves no timer
armed for `p`. -/
theorem step_pending_fire (cfg : Config) (s : Watcher) (hI : s.Inv) (p : String)
    (stat : String → StatOutcome) (t : Timer) (h1 : s.timersFor p = [t])
    (hd : t.deadline ≤ s.now) :
    (tick cfg stat s).timersFor p = [] ∧
    (tick cfg stat s).firedFor p = s.firedFor p ++ [⟨p, s.now, classify cfg stat p⟩] := by
  rw [timersFor_tick cfg stat s hI, firedFor_tick, h1]
  simp [hd]

theorem run_pending_quiet (cfg : Config) (p : String) (acts : List Action)
    (ha : ∀ a ∈ acts, a.isEventOn p = false) (s : Watcher) (hI : s.Inv) (t : Timer)
    (h1 : s.timersFor p = [t]) (hq : s.now + countTicks acts ≤ t.deadline) :
    (Watcher.run cfg acts s).timersFor p = [t] ∧
    (Watcher.run cfg acts s).firedFor p = s.firedFor p := by
  induction acts generalizing s with
  | nil => exact ⟨h1, rfl⟩
  | cons a as ih =>
    rw [countTicks_cons] at hq
    obtain ⟨h2, h3⟩ := step_pending_quiet cfg s hI p a (ha a (by simp)) t h1
      (by intro hta; rw [hta] at hq; simp at hq; omega)
    obtain ⟨h4, h5⟩ := ih (fun b hb => ha b (by simp [hb])) _ (Watcher.inv_step cfg s a hI) h2
      (by rw [now_step]; omega)
    exact ⟨h4, by rw [Watcher.run_cons, h5, h3]⟩

theorem mem_timersFor {s : Watcher} {p : String} {t : Timer} (h : s.timersFor p = [t]) :
    t ∈ s.timers ∧ t.itemPath = p := by
  have : t ∈ s.timersFor p := by rw [h]; simp
  simpa [Watcher.timersFor] using this

/-- Once more milliseconds have passed than the timer of `p` had left, its
callback has run exactly once, at its deadline. -/
theorem run_pending_fire (cfg : Config) (p : String) (acts : List Action)
    (ha : ∀ a ∈ acts, a.isEventOn p = false) (s : Watcher) (hI : s.Inv) (t : Timer)
    (h1 : s.timersFor p = [t]) (hq : t.deadline < s.now + countTicks acts) :
    (Watcher.run cfg acts s).timersFor p = [] ∧
    ∃ cand, (Watcher.run cfg acts s).firedFor p = s.firedFor p ++ [⟨p, t.deadline, cand⟩] := by
  induction acts generalizing s with
  | nil =>
    have := hI.notOverdue t (mem_timersFor h1).1
    simp [countTicks] at hq
    omega
  | cons a as ih =>
    rw [countTicks_cons] at hq
    have hno := hI.notOverdue t (mem_timersFor h1).1
    have has : ∀ b ∈ as, b.isEventOn p = false := fun b hb => ha b (by simp [hb])
    by_cases hfire : a.isTick = true ∧ t.deadline ≤ s.now
    · cases a with
      | event q => simp [Action.isTick] at hfire
      | tick stat =>
        obtain ⟨h2, h3⟩ := step_pending_fire cfg s hI p stat t h1 hfire.2
        obtain ⟨h4, h5⟩ := run_idle cfg p as has _ (Watcher.inv_tick cfg stat s hI) h2
        have hd : t.deadline = s.now := by omega
        refine ⟨h4, classify cfg stat p, ?_⟩
        rw [Watcher.run_cons]
        simp only [Watcher.step]
        rw [h5, h3, hd]
    · obtain ⟨h2, h3⟩ := step_pending_quiet cfg s hI p a (ha a (by simp)) t h1
        (by intro hta; by_contra hc; exact hfire ⟨hta, by omega⟩)
      obtain ⟨h4, cand, h5⟩ := ih has _ (Watcher.inv_step cfg s a hI) h2
        (by
          rw [now_step]
          by_cases hta : a.isTick = true
          · simp only [hta, if_true] at hq ⊢
            omega
          · simp only [hta] at hq ⊢
            omega)
      exact ⟨h4, cand, by rw [Watcher.run_cons, h5, h3]⟩

/-- A burst of events on `p`, each arriving before the timer armed by the
previous one is due, leaves the timer of the last event armed and runs no
callback for `p`. -/
theorem run_burst (cfg : Config) (p : String) (hp : path.dirname p = cfg.containerWatchPath)
    (segments : List (List Action))
    (hseg : ∀ seg ∈ segments, (∀ a ∈ seg, a.isEventOn p = false) ∧
      countTicks seg < timeoutDelay cfg.debounceMs)
    (s : Watcher) (hI : s.Inv) (t : Timer) (h1 : s.timersFor p = [t])
    (hd : t.deadline = s.now + timeoutDelay cfg.debounceMs) :
    (Watcher.run cfg (burst p segments) s).Inv ∧
    (Watcher.run cfg (burst p segments) s).now = s.now + (segments.map countTicks).sum ∧
    (∃ u, (Watcher.run cfg (burst p segments) s).timersFor p = [u] ∧
      u.deadline = s.now + (segments.map countTicks).sum + timeoutDelay cfg.debounceMs) ∧
    (Watcher.run cfg (burst p segments) s).firedFor p = s.firedFor p := by
  induction segments generalizing s t with
  | nil => exact ⟨hI, by simp [burst, Watcher.run], ⟨t, h1, by simpa using hd⟩, rfl⟩
  | cons seg segs ih =>
    obtain ⟨hs1, hs2⟩ := hseg seg (by simp)
    have hrun : Watcher.run cfg (burst p (seg :: segs)) s
        = Watcher.run cfg (burst p segs)
            (handlePotentialProject cfg p (Watcher.run cfg seg s)) := by
      simp only [burst]
      rw [Watcher.run_append, Watcher.run_cons]
      rfl
    have hI1 := Watcher.inv_run cfg seg s hI
    obtain ⟨_, q2⟩ := run_pending_quiet cfg p seg hs1 s hI t h1 (by omega)
    have hn1 := now_run cfg seg s
    obtain ⟨e1, _⟩ := timersFor_handle_self cfg p _ hI1 hp
    have hI2 := Watcher.inv_handle cfg p _ hI1
    obtain ⟨i1, i2, ⟨u, i3, i4⟩, i5⟩ := ih (fun sg hsg => hseg sg (by simp [hsg]))
      (handlePotentialProject cfg p (Watcher.run cfg seg s)) hI2 _ e1
      (by simp [now_handle])
    rw [hrun]
    simp only [now_handle, hn1] at i2 i4
    refine ⟨i1, ?_, ⟨u, i3, ?_⟩, ?_⟩
    · rw [i2]; simp only [List.map_cons, List.sum_cons]; omega
    · rw [i4]; simp only [List.map_cons, List.sum_cons]; omega
    · rw [i5]
      simp only [Watcher.firedFor, fired_handle]
      exact q2

theorem countTicks_map_tick (sts : List (String → StatOutcome)) :
    countTicks (sts.map Action.tick) = sts.length := by
  induction sts with
  | nil => rfl
  | cons x xs ih => rw [List.map_cons, countTicks_cons, ih]; simp [Action.isTick]; omega

theorem isEventOn_map_tick (p : String) (sts : List (String → StatOutcome)) :
    ∀ a ∈ sts.map Action.tick, a.isEventOn p = false := by
  intro a ha
  obtain ⟨x, _, hx⟩ := List.mem_map.1 ha
  rw [← hx]
  rfl

/-- An accepted event on `p` followed by as many quiet milliseconds as the
delay of the timer and one more: the callback for `p` runs once, that delay
after the event, and classifies `p` by the metadata of that moment. -/
theorem fired_after_event (cfg : Config) (s : Watcher) (hI : s.Inv) (p : String)
    (hp : path.dirname p = cfg.containerWatchPath) (sts : List (String → StatOutcome))
    (hlen : sts.length = timeoutDelay cfg.debounceMs) (stat : String → StatOutcome) :
    (Watcher.run cfg (Action.event p :: sts.map Action.tick ++ [Action.tick stat]) s).firedFor p
      = s.firedFor p ++ [⟨p, s.now + timeoutDelay cfg.debounceMs, classify cfg stat p⟩] := by
  have hI1 := Watcher.inv_handle cfg p s hI
  obtain ⟨e1, _⟩ := timersFor_handle_self cfg p s hI hp
  have hc := countTicks_map_tick sts
  obtain ⟨q1, q2⟩ := run_pending_quiet cfg p (sts.map Action.tick) (isEventOn_map_tick p sts)
    (handlePotentialProject cfg p s) hI1 _ e1 (by simp only [now_handle, hc, hlen]; omega)
  have hI2 := Watcher.inv_run cfg (sts.map Action.tick) _ hI1
  have hn := now_run cfg (sts.map Action.tick) (handlePotentialProject cfg p s)
  rw [now_handle, hc, hlen] at hn
  obtain ⟨_, f2⟩ := step_pending_fire cfg _ hI2 p stat _ q1 (by simp only [hn]; omega)
  have hrun : Watcher.run cfg (Action.event p :: sts.map Action.tick ++ [Action.tick stat]) s
      = tick cfg stat (Watcher.run cfg (sts.map Action.tick) (handlePotentialProject cfg p s)) := by
    rw [List.cons_append, Watcher.run_cons, Watcher.run_append]
    rfl
  rw [hrun, f2, q2, hn]
  simp only [Watcher.firedFor, fired_handle]

/-- An event that the depth guard rejects changes nothing, now or later. -/
theorem handle_rejected (cfg : Config) (itemPath : String) (s : Watcher)
    (h : path.dirname itemPath ≠ cfg.containerWatchPath) :
    handlePotentialProject cfg itemPath s = s ∧
    ∀ post, Watcher.run cfg (Action.event itemPath :: post) s = Watcher.run cfg post s := by
  have h1 : handlePotentialProject cfg itemPath s = s := by
    unfold handlePotentialProject
    rw [if_pos h]
  refine ⟨h1, fun post => ?_⟩
  rw [Watcher.run_cons]
  simp only [Watcher.step, h1]

/-- With no timer armed, the passing of time runs no callback. -/
theorem run_ticks_no_timers (cfg : Config) (sts : List (String → StatOutcome)) (s : Watcher)
    (h : s.timers = []) :
    (Watcher.run cfg (sts.map Action.tick) s).timers = [] ∧
    (Watcher.run cfg (sts.map Action.tick) s).fired = s.fired := by
  induction sts generalizing s with
  | nil => exact ⟨h, rfl⟩
  | cons x xs ih =>
    have h1 : (tick cfg x s).timers = [] ∧ (tick cfg x s).fired = s.fired := by
      simp [tick, fireDue, h]
    obtain ⟨i1, i2⟩ := ih (tick cfg x s) h1.1
    rw [List.map_cons, Watcher.run_cons]
    exact ⟨i1, by rw [show Watcher.step cfg s (Action.tick x) = tick cfg x s from rfl, i2, h1.2]⟩

/-- A path two or more levels below the watch root is not directly in it. -/
theorem dirname_deep_ne (cs mid : List (List Char)) (z : List Char) (hmid : mid ≠ [])
    (hc : ∀ s ∈ cs, GoodSegment s) (hm : ∀ s ∈ mid ++ [z], GoodSegment s) :
    path.dirname (absolutePath (cs ++ mid ++ [z])) ≠ absolutePath cs := by
  have hall : ∀ s ∈ (cs ++ mid) ++ [z], GoodSegment s := by
    intro s hs
    simp only [List.mem_append, List.mem_singleton] at hs
    rcases hs with (h | h) | h
    · exact hc s h
    · exact hm s (by simp [h])
    · exact hm s (by simp [h])
  rw [dirname_absolutePath (cs ++ mid) z hall]
  intro e
  have h1 := absolutePath_injective (cs ++ mid) cs
    (fun s hs => hall s (by simp only [List.mem_append] at hs ⊢; exact Or.inl hs)) hc e
  have h2 : (cs ++ mid).length = cs.length := by rw [h1]
  rw [List.length_append] at h2
  have : mid.length = 0 := by omega
  exact hmid (List.length_eq_zero.1 this)

/-- The delay of a timer is at least one millisecond. -/
theorem timeoutDelay_pos (after : JsNumber) : 1 ≤ timeoutDelay after := by
  unfold timeoutDelay
  split
  · split
    · omega
    · exact Nat.le_refl 1
  · exact Nat.le_refl 1

/-- The delay of a timer is `after` itself for an integer from 1 to `TIMEOUT_MAX`. -/
theorem timeoutDelay_of_range (n : Nat) (h1 : 1 ≤ n) (h2 : n ≤ 2147483647) :
    timeoutDelay (.finite n) = n := by
  simp only [timeoutDelay, TIMEOUT_MAX]
  rw [if_pos (by omega)]
  simp

/-- The delay of a timer is one millisecond for every other value of `after`. -/
theorem timeoutDelay_of_not_range (after : JsNumber)
    (h : ¬ ∃ n : Nat, 1 ≤ n ∧ n ≤ 2147483647 ∧ after = .finite n) : timeoutDelay after = 1 := by
  unfold timeoutDelay
  split
  · rename_i v
    split
    · rename_i hv
      exfalso
      apply h
      refine ⟨v.toNat, by omega, by simp only [TIMEOUT_MAX] at hv; omega, ?_⟩
      congr 1
      omega
    · rfl
  · rfl

/-! ## The event handler: claims -/

/-- C14. Depth restriction: an event whose parent directory is not exactly
the watch root leaves the watcher as it was (no timer is armed, and whatever
follows runs as if the event had not occurred), in particular every event two
or more levels below the root; an event for `root/a` that is a directory when
its timer fires, after the delay `setTimeout` makes of `debounceMs`, hands
`root/a` to `processNewDirectory`. -/
theorem depth_restriction (cfg : Config) (cs : List (List Char))
    (hc : ∀ s ∈ cs, GoodSegment s) (hroot : cfg.containerWatchPath = absolutePath cs) :
    (∀ itemPath s, path.dirname itemPath ≠ cfg.containerWatchPath →
      handlePotentialProject cfg itemPath s = s ∧
      ∀ post, Watcher.run cfg (Action.event itemPath :: post) s = Watcher.run cfg post s) ∧
    (∀ (mid : List (List Char)) (z : List Char) (s : Watcher), mid ≠ [] →
        (∀ x ∈ mid ++ [z], GoodSegment x) →
      handlePotentialProject cfg (absolutePath (cs ++ mid ++ [z])) s = s ∧
      ∀ post, Watcher.run cfg (Action.event (absolutePath (cs ++ mid ++ [z])) :: post) s
        = Watcher.run cfg post s) ∧
    (∀ (a : List Char) (t0 : Nat) (pre : List Action) (sts : List (String → StatOutcome))
        (stat : String → StatOutcome), GoodSegment a → sts.length = timeoutDelay cfg.debounceMs →
      stat (absolutePath (cs ++ [a])) = StatOutcome.directory →
      (Watcher.run cfg (pre ++ (Action.event (absolutePath (cs ++ [a])) ::
          sts.map Action.tick ++ [Action.tick stat])) (Watcher.init t0)).firedFor
          (absolutePath (cs ++ [a]))
        = (Watcher.run cfg pre (Watcher.init t0)).firedFor (absolutePath (cs ++ [a])) ++
          [⟨absolutePath (cs ++ [a]),
            (Watcher.run cfg pre (Watcher.init t0)).now + timeoutDelay cfg.debounceMs,
            some (absolutePath (cs ++ [a]))⟩]) := by
  refine ⟨fun itemPath s h => handle_rejected cfg itemPath s h, ?_, ?_⟩
  · intro mid z s hmid hm
    apply handle_rejected
    rw [hroot]
    exact dirname_deep_ne cs mid z hmid hc hm
  · intro a t0 pre sts stat ha hlen hdir
    have hall : ∀ s ∈ cs ++ [a], GoodSegment s := by
      intro s hs
      simp only [List.mem_append, List.mem_singleton] at hs
      rcases hs with h | h
      · exact hc s h
      · rw [h]; exact ha
    have hp : path.dirname (absolutePath (cs ++ [a])) = cfg.containerWatchPath := by
      rw [hroot, dirname_absolutePath cs a hall]
    rw [Watcher.run_append,
      fired_after_event cfg _ (Watcher.inv_run cfg pre _ (Watcher.inv_init t0)) _ hp sts hlen stat,
      classify_accepted cfg stat _ hp, hdir]
    simp

/-- The depth restriction of C14 under the watch root `/w`: an event in
`/w/foo/node_modules` changes nothing, and `/w/foo`, a directory when its
timer fires three milliseconds after the event, is handed over. -/
theorem depth_restriction_witness :
    handlePotentialProject quickConfig "/w/foo/node_modules/left-pad" (Watcher.init 10)
      = Watcher.init 10 ∧
    (Watcher.run quickConfig ([] ++ (Action.event "/w/foo" ::
        [allFiles, allFiles, allFiles].map Action.tick ++ [Action.tick allDirectories]))
        (Watcher.init 10)).firedFor "/w/foo"
      = (Watcher.run quickConfig [] (Watcher.init 10)).firedFor "/w/foo" ++
        [⟨"/w/foo",
          (Watcher.run quickConfig [] (Watcher.init 10)).now + timeoutDelay quickConfig.debounceMs,
          some "/w/foo"⟩] :=
  ⟨((depth_restriction quickConfig ["w".data]
      (by intro s hs; simp at hs; subst hs; exact ⟨by decide, by decide, by decide, by decide⟩)
      rfl).2.1 ["foo".data, "node_modules".data] "left-pad".data (Watcher.init 10) (by simp)
      (by
        intro s hs; simp at hs
        rcases hs with rfl | rfl | rfl <;>
          exact ⟨by decide, by decide, by decide, by decide⟩)).1,
   (depth_restriction quickConfig ["w".data]
      (by intro s hs; simp at hs; subst hs; exact ⟨by decide, by decide, by decide, by decide⟩)
      rfl).2.2 "foo".data 10 [] [allFiles, allFiles, allFiles] allDirectories
      ⟨by decide, by decide, by decide, by decide⟩ rfl rfl⟩

/-- C15. The event for `root/proj/docs/concept.md` is dropped: the file
branch of the timer callback would hand `/w/foo` to `processNewDirectory`
for the file `/w/foo/docs/concept.md`, but the depth guard at the head of
`handlePotentialProject` returns before any timer is armed, so the watcher
is unchanged and whatever follows runs as if the event had not occurred. -/
theorem docs_file_event_dropped :
    classify exampleConfig allFiles "/w/foo/docs/concept.md" = some "/w/foo" ∧
    (∀ s, handlePotentialProject exampleConfig "/w/foo/docs/concept.md" s = s) ∧
    (∀ s post, Watcher.run exampleConfig (Action.event "/w/foo/docs/concept.md" :: post) s
      = Watcher.run exampleConfig post s) := by
  have h : path.dirname "/w/foo/docs/concept.md" ≠ exampleConfig.containerWatchPath := by decide
  exact ⟨by decide, fun s => (handle_rejected _ _ s h).1, fun s post => (handle_rejected _ _ s h).2 post⟩

/-- C16. No retry after missing content: `/w/foo` without `docs/` is skipped
and released, and a registrar run with the document present would register
it; but the later event for `/w/foo/docs/concept.md` arms no timer, so that
however much time passes no callback runs and `processNewDirectory` is not
called again. -/
theorem no_retry_after_missing_content :
    (processNewDirectory exampleConfig envNoDocs [] "/w/foo").processedDirs = [] ∧
    (processNewDirectory exampleConfig envBoth [] "/w/foo").processedDirs = ["/w/foo"] ∧
    (∀ sts : List (String → StatOutcome),
      (Watcher.run exampleConfig (Action.event "/w/foo/docs/concept.md" :: sts.map Action.tick)
        (Watcher.init 0)).fired = []) := by
  have h : path.dirname "/w/foo/docs/concept.md" ≠ exampleConfig.containerWatchPath := by decide
  refine ⟨by decide, by decide, fun sts => ?_⟩
  rw [(handle_rejected _ _ _ h).2]
  exact (run_ticks_no_timers exampleConfig sts (Watcher.init 0) rfl).2

/-- C17. Classifier rule 1 with re-stat: for an event path `p` directly in
the watch root, the callback that runs when the timer of the event fires,
after the delay `setTimeout` makes of `debounceMs`, decides by the metadata
of `p` at that moment, whatever it was before:
`processNewDirectory` is called, with `p` itself, if and only if `p` is then
a directory; when `fs.stat` is rejected nothing is processed. -/
theorem restat_at_firing (cfg : Config) (p : String)
    (hp : path.dirname p = cfg.containerWatchPath) (t0 : Nat) (pre : List Action)
    (sts : List (String → StatOutcome)) (hlen : sts.length = timeoutDelay cfg.debounceMs)
    (stat : String → StatOutcome) :
    (Watcher.run cfg (pre ++ (Action.event p :: sts.map Action.tick ++ [Action.tick stat]))
        (Watcher.init t0)).firedFor p
      = (Watcher.run cfg pre (Watcher.init t0)).firedFor p ++
        [⟨p, (Watcher.run cfg pre (Watcher.init t0)).now + timeoutDelay cfg.debounceMs,
          if stat p = StatOutcome.directory then some p else none⟩] ∧
    (classify cfg stat p = some p ↔ stat p = StatOutcome.directory) ∧
    (stat p ≠ StatOutcome.directory → classify cfg stat p = none) ∧
    (stat p = StatOutcome.error → classify cfg stat p = none) := by
  have hc := classify_accepted cfg stat p hp
  refine ⟨?_, ?_, ?_, ?_⟩
  · rw [Watcher.run_append,
      fired_after_event cfg _ (Watcher.inv_run cfg pre _ (Watcher.inv_init t0)) _ hp sts hlen stat,
      hc]
  · rw [hc]
    by_cases h : stat p = StatOutcome.directory <;> simp [h]
  · intro h
    rw [hc, if_neg h]
  · intro h
    rw [hc, h]
    simp

/-- The re-stat of C17 at a concrete run: `/w/foo` is a directory while the
timer is pending and a file when it fires, and nothing is handed over. -/
theorem restat_at_firing_witness :
    (Watcher.run quickConfig ([] ++ (Action.event "/w/foo" ::
        [allDirectories, allDirectories, allDirectories].map Action.tick ++ [Action.tick allFiles]))
        (Watcher.init 10)).firedFor "/w/foo"
      = (Watcher.run quickConfig [] (Watcher.init 10)).firedFor "/w/foo" ++
        [⟨"/w/foo",
          (Watcher.run quickConfig [] (Watcher.init 10)).now + timeoutDelay quickConfig.debounceMs,
          if allFiles "/w/foo" = StatOutcome.directory then some "/w/foo" else none⟩] :=
  (restat_at_firing quickConfig "/w/foo" (by decide) 10 []
    [allDirectories, allDirectories, allDirectories] rfl allFiles).1

/-- C18, as stated, fails: with `debounceMs = 2147483648` the timer of each
event is due one millisecond later, so three events on `/w/foo` five
milliseconds apart, gaps far below `debounceMs`, run the callback three
times, at times 1, 6 and 11, and none at the last event plus `debounceMs`. -/
theorem debounce_beyond_TIMEOUT_MAX :
    path.dirname "/w/foo" = longConfig.containerWatchPath ∧
    longConfig.debounceMs = JsNumber.finite 2147483648 ∧
    ((Watcher.run longConfig
        (Action.event "/w/foo" :: List.replicate 5 (Action.tick allDirectories) ++
          Action.event "/w/foo" :: List.replicate 5 (Action.tick allDirectories) ++
          Action.event "/w/foo" :: List.replicate 5 (Action.tick allDirectories))
        (Watcher.init 0)).firedFor "/w/foo")
      = [⟨"/w/foo", 1, some "/w/foo"⟩, ⟨"/w/foo", 6, some "/w/foo"⟩,
          ⟨"/w/foo", 11, some "/w/foo"⟩] ∧
    ((Watcher.run longConfig
        (Action.event "/w/foo" :: List.replicate 5 (Action.tick allDirectories) ++
          Action.event "/w/foo" :: List.replicate 5 (Action.tick allDirectories) ++
          Action.event "/w/foo" :: List.replicate 5 (Action.tick allDirectories))
        (Watcher.init 0)).firedFor "/w/foo").length ≠ 1 := by
  have h : ((Watcher.run longConfig
        (Action.event "/w/foo" :: List.replicate 5 (Action.tick allDirectories) ++
          Action.event "/w/foo" :: List.replicate 5 (Action.tick allDirectories) ++
          Action.event "/w/foo" :: List.replicate 5 (Action.tick allDirectories))
        (Watcher.init 0)).firedFor "/w/foo")
      = [⟨"/w/foo", 1, some "/w/foo"⟩, ⟨"/w/foo", 6, some "/w/foo"⟩,
          ⟨"/w/foo", 11, some "/w/foo"⟩] := rfl
  refine ⟨by decide, rfl, h, ?_⟩
  rw [h]
  decide

/-- C18, amended. Debounce collapsing: let `D` be the delay of the timers,
which is `debounceMs` when that is an integer from 1 to 2147483647 and one
millisecond for every other `debounceMs`. From any reachable state, `k ≥ 1`
events on an accepted path `p`, each arriving fewer than `D` milliseconds
after the previous one (other paths may have events in between), run the
callback for `p` exactly once, at the time of the last event plus `D`: not
while at most `D` milliseconds have passed since the last event, and once as
soon as more have. Timers are a table of deadlines; each millisecond the
timers then due fire. -/
theorem debounce_collapsing (cfg : Config) (p : String)
    (hp : path.dirname p = cfg.containerWatchPath) (t0 : Nat) (pre : List Action)
    (segments : List (List Action)) (fin : List Action)
    (hseg : ∀ seg ∈ segments, (∀ a ∈ seg, a.isEventOn p = false) ∧
      countTicks seg < timeoutDelay cfg.debounceMs)
    (hfin : ∀ a ∈ fin, a.isEventOn p = false) :
    (∀ n : Nat, 1 ≤ n → n ≤ 2147483647 → cfg.debounceMs = JsNumber.finite n →
      timeoutDelay cfg.debounceMs = n) ∧
    ((¬ ∃ n : Nat, 1 ≤ n ∧ n ≤ 2147483647 ∧ cfg.debounceMs = JsNumber.finite n) →
      timeoutDelay cfg.debounceMs = 1) ∧
    (countTicks fin ≤ timeoutDelay cfg.debounceMs →
      (Watcher.run cfg (pre ++ (Action.event p :: burst p segments ++ fin))
          (Watcher.init t0)).firedFor p
        = (Watcher.run cfg pre (Watcher.init t0)).firedFor p) ∧
    (timeoutDelay cfg.debounceMs < countTicks fin →
      ∃ cand, (Watcher.run cfg (pre ++ (Action.event p :: burst p segments ++ fin))
          (Watcher.init t0)).firedFor p
        = (Watcher.run cfg pre (Watcher.init t0)).firedFor p ++
          [⟨p, (Watcher.run cfg pre (Watcher.init t0)).now + (segments.map countTicks).sum
            + timeoutDelay cfg.debounceMs, cand⟩]) := by
  refine ⟨fun n h1 h2 e => by rw [e]; exact timeoutDelay_of_range n h1 h2,
    timeoutDelay_of_not_range cfg.debounceMs, ?_⟩
  have hI0 := Watcher.inv_run cfg pre _ (Watcher.inv_init t0)
  have hI1 := Watcher.inv_handle cfg p _ hI0
  obtain ⟨e1, _⟩ := timersFor_handle_self cfg p _ hI0 hp
  obtain ⟨b1, b2, ⟨u, b3, b4⟩, b5⟩ := run_burst cfg p hp segments hseg
    (handlePotentialProject cfg p (Watcher.run cfg pre (Watcher.init t0))) hI1 _ e1
    (by simp [now_handle])
  have hrun : Watcher.run cfg (pre ++ (Action.event p :: burst p segments ++ fin))
        (Watcher.init t0)
      = Watcher.run cfg fin (Watcher.run cfg (burst p segments)
          (handlePotentialProject cfg p (Watcher.run cfg pre (Watcher.init t0)))) := by
    rw [Watcher.run_append, List.cons_append, Watcher.run_cons, Watcher.run_append]
    rfl
  have hf : (handlePotentialProject cfg p (Watcher.run cfg pre (Watcher.init t0))).firedFor p
      = (Watcher.run cfg pre (Watcher.init t0)).firedFor p := by
    simp only [Watcher.firedFor, fired_handle]
  rw [now_handle] at b2 b4
  constructor
  · intro hle
    obtain ⟨_, q2⟩ := run_pending_quiet cfg p fin hfin _ b1 u b3 (by rw [b2, b4]; omega)
    rw [hrun, q2, b5, hf]
  · intro hlt
    obtain ⟨_, cand, q2⟩ := run_pending_fire cfg p fin hfin _ b1 u b3 (by rw [b2, b4]; omega)
    exact ⟨cand, by rw [hrun, q2, b5, hf, b4]⟩

/-- The collapsing of C18 at a concrete run with `debounceMs = 3`, a delay
of three milliseconds: events on `/w/foo` at times 10, 12 and 13, then five
milliseconds; the callback runs once, at time 16. -/
theorem debounce_collapsing_witness :
    ∃ cand, (Watcher.run quickConfig ([] ++ (Action.event "/w/foo" ::
          burst "/w/foo" [[Action.tick allFiles, Action.tick allFiles], [Action.tick allFiles]] ++
          [Action.tick allFiles, Action.tick allFiles, Action.tick allFiles,
            Action.tick allDirectories, Action.tick allFiles]))
        (Watcher.init 10)).firedFor "/w/foo"
      = (Watcher.run quickConfig [] (Watcher.init 10)).firedFor "/w/foo" ++
        [⟨"/w/foo", (Watcher.run quickConfig [] (Watcher.init 10)).now
          + ([[Action.tick allFiles, Action.tick allFiles], [Action.tick allFiles]].map
              countTicks).sum
          + timeoutDelay quickConfig.debounceMs, cand⟩] :=
  (debounce_collapsing quickConfig "/w/foo" (by decide) 10 []
    [[Action.tick allFiles, Action.tick allFiles], [Action.tick allFiles]]
    [Action.tick allFiles, Action.tick allFiles, Action.tick allFiles,
      Action.tick allDirectories, Action.tick allFiles]
    (by
      intro seg hseg
      simp only [List.mem_cons, List.mem_singleton, List.not_mem_nil, or_false] at hseg
      rcases hseg with rfl | rfl
      · exact ⟨by intro a ha; simp at ha; subst ha; rfl, by decide⟩
      · exact ⟨by intro a ha; simp at ha; subst ha; rfl, by decide⟩)
    (by
      intro a ha
      simp only [List.mem_cons, List.mem_singleton, List.not_mem_nil, or_false] at ha
      rcases ha with rfl | rfl | rfl | rfl | rfl <;> rfl)).2.2.2 (by decide)

/-- At most one timer is armed for a path. -/
theorem Watcher.Inv.length_timersFor {s : Watcher} (hI : s.Inv) (p : String) :
    (s.timersFor p).length ≤ 1 := by
  have hnd : ((s.timersFor p).map (fun t => t.id)).Nodup :=
    ((List.filter_sublist _).map _).nodup hI.distinct
  have hmem : ∀ t ∈ s.timersFor p, t ∈ s.timers ∧ t.itemPath = p := by
    intro t ht
    simpa [Watcher.timersFor] using ht
  rcases hl : s.timersFor p with _ | ⟨a, _ | ⟨b, l⟩⟩
  · simp
  · simp
  · exfalso
    have ha := hmem a (by rw [hl]; simp)
    have hb := hmem b (by rw [hl]; simp)
    have hab := hI.eq_of_itemPath ha.1 hb.1 (ha.2.trans hb.2.symm)
    rw [hl, hab] at hnd
    simp at hnd

/-- C19. Pending-timer invariant: in every state reachable from startup,
every armed timer is the one recorded in `debounceTimers` under its own path,
so at most one timer is armed per path; an accepted event on a path arms a
new timer and records it, after cancelling the timer armed for that path (if
any), so that exactly the new one is armed for the path while the timers of
the other paths stay armed; and a timer that fires is no longer armed and its
entry is removed from `debounceTimers`. -/
theorem pending_timer_invariant (cfg : Config) (t0 : Nat) (acts : List Action) :
    (∀ t ∈ (Watcher.run cfg acts (Watcher.init t0)).timers,
      (Watcher.run cfg acts (Watcher.init t0)).debounceTimers t.itemPath = some t.id) ∧
    (∀ p, ((Watcher.run cfg acts (Watcher.init t0)).timersFor p).length ≤ 1) ∧
    (∀ p, path.dirname p = cfg.containerWatchPath →
      (handlePotentialProject cfg p (Watcher.run cfg acts (Watcher.init t0))).timersFor p
        = [⟨(Watcher.run cfg acts (Watcher.init t0)).nextId, p,
            (Watcher.run cfg acts (Watcher.init t0)).now + timeoutDelay cfg.debounceMs⟩] ∧
      (handlePotentialProject cfg p (Watcher.run cfg acts (Watcher.init t0))).debounceTimers p
        = some (Watcher.run cfg acts (Watcher.init t0)).nextId ∧
      (∀ t ∈ (Watcher.run cfg acts (Watcher.init t0)).timers, t.itemPath = p →
        t ∉ (handlePotentialProject cfg p (Watcher.run cfg acts (Watcher.init t0))).timers) ∧
      (∀ t ∈ (Watcher.run cfg acts (Watcher.init t0)).timers, t.itemPath ≠ p →
        t ∈ (handlePotentialProject cfg p (Watcher.run cfg acts (Watcher.init t0))).timers)) ∧
    (∀ stat t, t ∈ (Watcher.run cfg acts (Watcher.init t0)).timers →
      t ∉ (fire cfg stat (Watcher.run cfg acts (Watcher.init t0)) t).timers ∧
      (fire cfg stat (Watcher.run cfg acts (Watcher.init t0)) t).timersFor t.itemPath = [] ∧
      (fire cfg stat (Watcher.run cfg acts (Watcher.init t0)) t).debounceTimers t.itemPath
        = none) ∧
    (∀ stat t, t ∈ (Watcher.run cfg acts (Watcher.init t0)).timers →
      t.deadline ≤ (Watcher.run cfg acts (Watcher.init t0)).now →
      t ∉ (tick cfg stat (Watcher.run cfg acts (Watcher.init t0))).timers ∧
      (tick cfg stat (Watcher.run cfg acts (Watcher.init t0))).debounceTimers t.itemPath
        = none) := by
  have hI := Watcher.inv_run cfg acts _ (Watcher.inv_init t0)
  generalize Watcher.run cfg acts (Watcher.init t0) = s at hI
  refine ⟨hI.recorded, fun p => hI.length_timersFor p, ?_, ?_, ?_⟩
  · intro p hp
    obtain ⟨e1, e2⟩ := timersFor_handle_self cfg p s hI hp
    refine ⟨e1, e2, ?_, ?_⟩
    · intro t ht htp hin
      have hm : t ∈ (handlePotentialProject cfg p s).timersFor p := by
        simp only [Watcher.timersFor, List.mem_filter, decide_eq_true_eq]
        exact ⟨hin, htp⟩
      rw [e1, List.mem_singleton] at hm
      have := hI.fresh t ht
      rw [hm] at this
      simp at this
    · intro t ht htp
      have hm : t ∈ s.timersFor t.itemPath := by
        simp only [Watcher.timersFor, List.mem_filter, decide_True, and_true]
        exact ht
      rw [← timersFor_handle_other cfg p t.itemPath s hI htp] at hm
      simp only [Watcher.timersFor, List.mem_filter, decide_eq_true_eq] at hm
      exact hm.1
  · intro stat t ht
    refine ⟨by simp [fire], ?_, by simp [fire]⟩
    simp only [Watcher.timersFor, fire, List.filter_filter, List.filter_eq_nil_iff,
      Bool.and_eq_true, decide_eq_true_eq, not_and]
    intro u hu hpath hne
    exact hne (congrArg Timer.id (hI.eq_of_itemPath hu ht hpath))
  · intro stat t ht hd
    constructor
    · simp only [tick, timers_fireDue cfg stat s hI, List.mem_filter, decide_eq_true_eq]
      intro h
      exact h.2 hd
    · have hdt := (foldl_fire cfg stat (s.timers.filter (fun t => decide (t.deadline ≤ s.now)))
        s).2.2.2.1 t.itemPath
      simp only [tick, fireDue, hdt]
      rw [if_pos]
      exact List.mem_map.2 ⟨t, List.mem_filter.2 ⟨ht, by simpa using hd⟩, rfl⟩

/-- The invariant of C19 at concrete reachable states with a delay of three
milliseconds. One millisecond after an event on `/w/foo` its timer, due at
time 3, is armed; a second event then cancels it and arms and records the
timer with identity 1, due at time 4, the only one armed for `/w/foo`. And
three milliseconds after a single event the timer is due: the next
millisecond it is no longer armed and the entry of `/w/foo` is removed. -/
theorem pending_timer_invariant_witness :
    (⟨0, "/w/foo", 3⟩ : Timer)
      ∈ (Watcher.run quickConfig [Action.event "/w/foo", Action.tick allFiles]
          (Watcher.init 0)).timers ∧
    (handlePotentialProject quickConfig "/w/foo"
        (Watcher.run quickConfig [Action.event "/w/foo", Action.tick allFiles]
          (Watcher.init 0))).timersFor "/w/foo" = [⟨1, "/w/foo", 4⟩] ∧
    (handlePotentialProject quickConfig "/w/foo"
        (Watcher.run quickConfig [Action.event "/w/foo", Action.tick allFiles]
          (Watcher.init 0))).debounceTimers "/w/foo" = some 1 ∧
    (⟨0, "/w/foo", 3⟩ : Timer)
      ∉ (handlePotentialProject quickConfig "/w/foo"
          (Watcher.run quickConfig [Action.event "/w/foo", Action.tick allFiles]
            (Watcher.init 0))).timers ∧
    ((⟨0, "/w/foo", 3⟩ : Timer)
      ∉ (tick quickConfig allDirectories
          (Watcher.run quickConfig [Action.event "/w/foo", Action.tick allFiles,
            Action.tick allFiles, Action.tick allFiles] (Watcher.init 0))).timers ∧
     (tick quickConfig allDirectories
          (Watcher.run quickConfig [Action.event "/w/foo", Action.tick allFiles,
            Action.tick allFiles, Action.tick allFiles] (Watcher.init 0))).debounceTimers "/w/foo"
        = none) :=
  ⟨by decide,
   ((pending_timer_invariant quickConfig 0 [Action.event "/w/foo", Action.tick allFiles]).2.2.1
      "/w/foo" (by decide)).1,
   ((pending_timer_invariant quickConfig 0 [Action.event "/w/foo", Action.tick allFiles]).2.2.1
      "/w/foo" (by decide)).2.1,
   ((pending_timer_invariant quickConfig 0 [Action.event "/w/foo", Action.tick allFiles]).2.2.1
      "/w/foo" (by decide)).2.2.1 ⟨0, "/w/foo", 3⟩ (by decide) rfl,
   (pending_timer_invariant quickConfig 0 [Action.event "/w/foo", Action.tick allFiles,
      Action.tick allFiles, Action.tick allFiles]).2.2.2.2 allDirectories ⟨0, "/w/foo", 3⟩
      (by decide) (by decide)⟩

/-- C20. Debounce independence across paths: in every reachable state and
for distinct paths `p` and `q`, an event on `p` leaves the armed timer of `q`
(its identity and deadline) and `q`'s entry in `debounceTimers` as they
were, and so does the firing of `p`'s timer. -/
theorem debounce_independence (cfg : Config) (t0 : Nat) (acts : List Action) (p q : String)
    (hpq : p ≠ q) :
    (handlePotentialProject cfg p (Watcher.run cfg acts (Watcher.init t0))).timersFor q
      = (Watcher.run cfg acts (Watcher.init t0)).timersFor q ∧
    (handlePotentialProject cfg p (Watcher.run cfg acts (Watcher.init t0))).debounceTimers q
      = (Watcher.run cfg acts (Watcher.init t0)).debounceTimers q ∧
    (∀ stat t, t ∈ (Watcher.run cfg acts (Watcher.init t0)).timers → t.itemPath = p →
      (fire cfg stat (Watcher.run cfg acts (Watcher.init t0)) t).timersFor q
        = (Watcher.run cfg acts (Watcher.init t0)).timersFor q ∧
      (fire cfg stat (Watcher.run cfg acts (Watcher.init t0)) t).debounceTimers q
        = (Watcher.run cfg acts (Watcher.init t0)).debounceTimers q) := by
  have hI := Watcher.inv_run cfg acts _ (Watcher.inv_init t0)
  generalize Watcher.run cfg acts (Watcher.init t0) = s at hI
  refine ⟨timersFor_handle_other cfg p q s hI (Ne.symm hpq),
    debounceTimers_handle_other cfg p q s (Ne.symm hpq), ?_⟩
  intro stat t ht htp
  constructor
  · simp only [Watcher.timersFor, fire, List.filter_filter]
    apply List.filter_congr
    intro u hu
    by_cases huq : u.itemPath = q
    · have hne : u.id ≠ t.id := by
        intro e
        have := hI.eq_of_id hu ht e
        rw [this, htp] at huq
        exact hpq huq
      simp [huq, hne]
    · simp [huq]
  · simp only [fire]
    rw [if_neg]
    rw [htp]
    exact Ne.symm hpq

/-- The independence of C20 at a concrete state with timers armed for
`/w/a` and `/w/b`. -/
theorem debounce_independence_witness :
    (handlePotentialProject quickConfig "/w/a"
        (Watcher.run quickConfig [Action.event "/w/a", Action.event "/w/b"]
          (Watcher.init 0))).timersFor "/w/b"
      = (Watcher.run quickConfig [Action.event "/w/a", Action.event "/w/b"]
          (Watcher.init 0)).timersFor "/w/b" :=
  (debounce_independence quickConfig 0 [Action.event "/w/a", Action.event "/w/b"]
    "/w/a" "/w/b" (by decide)).1

/-! ## The registrar among other invocations -/

/-- What a resumption does to the set and to the directory of its task. -/
theorem resume_cases (cfg : Config) (env : Env) (S : List String) (t : Task) :
    ((resume cfg env S t).task.dirPath = t.dirPath ∧ (resume cfg env S t).processedDirs = S) ∨
    ((resume cfg env S t).task = Task.done ∧
      ((resume cfg env S t).processedDirs = S ∨
        (∃ d, t.dirPath = some d ∧ (resume cfg env S t).processedDirs = setAdd S d) ∨
        (∃ d, t.dirPath = some d ∧ releaseOutcome cfg env t = true ∧
          (resume cfg env S t).processedDirs = setDelete S d))) := by
  cases t with
  | awaitGet d n h =>
    simp only [resume, releaseOutcome, Task.dirPath]
    rcases env.axiosGet (projectsUrl cfg) h with data | m
    · by_cases hd : dataNonEmpty data = true
      · simp [hd]
      · simp [hd, Task.dirPath]
    · simp
  | awaitAccessMd d n h =>
    simp only [resume, Task.dirPath]
    by_cases ha : env.fsAccess (conceptPathMd d) = true <;> simp [ha, Task.dirPath]
  | awaitAccessReadme d n h =>
    simp only [resume, releaseOutcome, Task.dirPath]
    by_cases ha : env.fsAccess (conceptPathReadme d) = true <;> simp [ha, Task.dirPath]
  | awaitReadFile d n h f =>
    simp only [resume, releaseOutcome, Task.dirPath]
    rcases env.fsReadFile f with c | m <;> simp [Task.dirPath]
  | awaitPost d pd =>
    simp only [resume, releaseOutcome, Task.dirPath]
    by_cases hp : (env.axiosPost (projectsUrl cfg) pd).releases = true <;> simp [hp]
  | done => simp [resume, Task.dirPath]

/-- What the start of an invocation does. -/
theorem invoke_cases (cfg : Config) (S : List String) (d : String) :
    (d ∈ S ∧ (invoke cfg S d).task = Task.done ∧ (invoke cfg S d).processedDirs = S) ∨
    (d ∉ S ∧ (invoke cfg S d).task.dirPath = some d ∧
      (invoke cfg S d).processedDirs = setAdd S d) := by
  by_cases h : d ∈ S
  · left; simp [invoke, setHas, h]
  · right; simp [invoke, setHas, h, Task.dirPath]

theorem Pool.exclusive_init (S : List String) : (Pool.init S).Inv := by
  constructor <;> simp [Pool.init, Task.dirPath]

theorem Pool.exclusive_start (cfg : Config) (s : Pool) (d : String) (hI : s.Inv) :
    (Pool.start cfg s d).Inv := by
  rcases invoke_cases cfg s.processedDirs d with ⟨_, ht, hs⟩ | ⟨hd, ht, hs⟩
  · constructor
    · intro i x hx
      simp only [Pool.start, hs, ht] at hx ⊢
      split at hx
      · simp [Task.dirPath] at hx
      · exact hI.marked i x hx
    · intro i j x hi hj
      simp only [Pool.start, ht] at hi hj
      split at hi
      · simp [Task.dirPath] at hi
      · split at hj
        · simp [Task.dirPath] at hj
        · exact hI.single i j x hi hj
  · constructor
    · intro i x hx
      simp only [Pool.start, hs] at hx ⊢
      split at hx
      · rw [ht] at hx
        injection hx with hx
        rw [← hx]
        exact self_mem_setAdd _ _
      · exact (mem_setAdd _ _ _).2 (Or.inl (hI.marked i x hx))
    · intro i j x hi hj
      simp only [Pool.start] at hi hj
      split at hi
      · split at hj
        · rename_i e1 e2
          rw [e1, e2]
        · rw [ht] at hi
          injection hi with hi
          exact absurd (hI.marked j x hj) (hi ▸ hd)
      · split at hj
        · rw [ht] at hj
          injection hj with hj
          exact absurd (hI.marked i x hi) (hj ▸ hd)
        · exact hI.single i j x hi hj

theorem Pool.exclusive_settle (cfg : Config) (s : Pool) (i : Nat) (env : Env) (hI : s.Inv) :
    (Pool.settle cfg s i env).Inv := by
  have hc := resume_cases cfg env s.processedDirs (s.tasks i)
  constructor
  · intro k x hx
    simp only [Pool.settle] at hx ⊢
    split at hx
    · rcases hc with ⟨h1, h2⟩ | ⟨h1, _⟩
      · rw [h1] at hx
        rw [h2]
        exact hI.marked i x hx
      · rw [h1] at hx
        simp [Task.dirPath] at hx
    · rename_i hki
      have hm := hI.marked k x hx
      rcases hc with ⟨_, h2⟩ | ⟨_, h2 | ⟨d, _, h2⟩ | ⟨d, hd, _, h2⟩⟩
      · rw [h2]; exact hm
      · rw [h2]; exact hm
      · rw [h2]; exact (mem_setAdd _ _ _).2 (Or.inl hm)
      · rw [h2]
        refine (mem_setDelete _ _ _).2 ⟨hm, fun e => ?_⟩
        rw [e] at hx
        exact hki (hI.single k i d hx hd)
  · intro k j x hk hj
    simp only [Pool.settle] at hk hj
    have hres : ∀ y, (resume cfg env s.processedDirs (s.tasks i)).task.dirPath = some y →
        (s.tasks i).dirPath = some y := by
      intro y hy
      rcases hc with ⟨h1, _⟩ | ⟨h1, _⟩
      · rw [h1] at hy; exact hy
      · rw [h1] at hy; simp [Task.dirPath] at hy
    split at hk
    · split at hj
      · rename_i e1 e2
        rw [e1, e2]
      · rename_i e1 _
        rw [e1]
        exact hI.single i j x (hres x hk) hj
    · split at hj
      · rename_i _ e2
        rw [e2]
        exact hI.single k i x hk (hres x hj)
      · exact hI.single k j x hk hj

theorem Pool.exclusive_run (cfg : Config) (acts : List PoolAction) (s : Pool) (hI : s.Inv) :
    (Pool.run cfg acts s).Inv := by
  induction acts generalizing s with
  | nil => exact hI
  | cons a as ih =>
    apply ih
    cases a with
    | start d => exact Pool.exclusive_start cfg s d hI
    | settle i env => exact Pool.exclusive_settle cfg s i env hI
theorem mem_start (cfg : Config) (s : Pool) (d p : String) (h : p ∈ s.processedDirs) :
    p ∈ (Pool.start cfg s d).processedDirs := by
  rcases invoke_cases cfg s.processedDirs d with ⟨_, _, hs⟩ | ⟨_, _, hs⟩
  · simp only [Pool.start, hs]; exact h
  · simp only [Pool.start, hs]; exact (mem_setAdd _ _ _).2 (Or.inl h)

theorem mem_foldl_start (cfg : Config) (ds : List String) (s : Pool) (p : String)
    (h : p ∈ s.processedDirs) : p ∈ (ds.foldl (Pool.start cfg) s).processedDirs := by
  induction ds generalizing s with
  | nil => exact h
  | cons d ds ih => exact ih _ (mem_start cfg s d p h)

/-- A resumption removes a directory from the set only when it is the
directory of the resumed task and the task releases its entry. -/
theorem resume_removes (cfg : Config) (env : Env) (S : List String) (t : Task) (p : String)
    (h : p ∈ S) (hn : p ∉ (resume cfg env S t).processedDirs) :
    t.dirPath = some p ∧ releaseOutcome cfg env t = true ∧
    (resume cfg env S t).task = Task.done := by
  rcases resume_cases cfg env S t with ⟨_, h2⟩ | ⟨h1, h2 | ⟨d, _, h2⟩ | ⟨d, hd, hr, h2⟩⟩
  · rw [h2] at hn; exact absurd h hn
  · rw [h2] at hn; exact absurd h hn
  · rw [h2] at hn; exact absurd ((mem_setAdd _ _ _).2 (Or.inl h)) hn
  · rw [h2] at hn
    have : p = d := by
      by_contra hne
      exact hn ((mem_setDelete _ _ _).2 ⟨h, hne⟩)
    exact ⟨this ▸ hd, hr, h1⟩

/-- The set after a run of `processNewDirectory(q)` is the set before it,
possibly with `q` added or, after having been added, deleted. -/
theorem processNewDirectory_processedDirs (cfg : Config) (env : Env) (S : List String)
    (q : String) :
    (processNewDirectory cfg env S q).processedDirs = S ∨
    (processNewDirectory cfg env S q).processedDirs = setAdd S q ∨
    (processNewDirectory cfg env S q).processedDirs = setAdd (setAdd S q) q ∨
    (processNewDirectory cfg env S q).processedDirs = setDelete (setAdd S q) q := by
  by_cases h : q ∈ S
  · rw [processNewDirectory_gated cfg env _ _ h]; simp
  · rcases hg : env.axiosGet (projectsUrl cfg) (hostPathOf cfg q) with data | m
    · cases hd : dataNonEmpty data
      · cases h1 : env.fsAccess (conceptPathMd q)
        · cases h2 : env.fsAccess (conceptPathReadme q)
          · rw [processNewDirectory_noConcept cfg env _ _ h data hg hd h1 h2]; simp
          · rcases hr : env.fsReadFile (conceptPathReadme q) with c | m
            · rw [processNewDirectory_readme_read cfg env _ _ h data hg hd h1 h2 c hr]
              by_cases hp : (env.axiosPost (projectsUrl cfg)
                ⟨path.basename q, hostPathOf cfg q, c⟩).releases = true <;> simp [hp]
            · rw [processNewDirectory_readme_unreadable cfg env _ _ h data hg hd h1 h2 m hr]
              simp
        · rcases hr : env.fsReadFile (conceptPathMd q) with c | m
          · rw [processNewDirectory_md_read cfg env _ _ h data hg hd h1 c hr]
            by_cases hp : (env.axiosPost (projectsUrl cfg)
              ⟨path.basename q, hostPathOf cfg q, c⟩).releases = true <;> simp [hp]
          · rw [processNewDirectory_md_unreadable cfg env _ _ h data hg hd h1 m hr]; simp
      · rw [processNewDirectory_exists cfg env _ _ h data hg hd]; simp
    · rw [processNewDirectory_checkError cfg env _ _ h m hg]; simp

/-- A run of `processNewDirectory(q)` leaves every other path as it was. -/
theorem processNewDirectory_frame (cfg : Config) (env : Env) (S : List String) (q p : String)
    (hpq : p ≠ q) : p ∈ (processNewDirectory cfg env S q).processedDirs ↔ p ∈ S := by
  rcases processNewDirectory_processedDirs cfg env S q with h | h | h | h <;>
    rw [h] <;> simp [mem_setAdd, mem_setDelete, hpq]

/-- C21. Processed records are removed only by a failed attempt on the same
path. A complete run of `processNewDirectory(q)` removes no path that was in
`processedDirs` before it and leaves the membership of every path other
than `q` unchanged; a single resumption of a suspended invocation removes
`p` only if the invocation is working on `p` and the settled call is a
release outcome (existence-check error, missing or unreadable concept,
non-409 creation failure); and in the whole daemon an action removes `p`
only if it is such a settling: no event and no timer firing removes an entry. -/
theorem removed_only_by_failed_attempt (cfg : Config) :
    (∀ (env : Env) (S : List String) (q p : String), p ∈ S →
      p ∈ (processNewDirectory cfg env S q).processedDirs) ∧
    (∀ (env : Env) (S : List String) (q p : String), p ≠ q →
      (p ∈ (processNewDirectory cfg env S q).processedDirs ↔ p ∈ S)) ∧
    (∀ (env : Env) (S : List String) (t : Task) (p : String), p ∈ S →
      p ∉ (resume cfg env S t).processedDirs →
      t.dirPath = some p ∧ releaseOutcome cfg env t = true) ∧
    (∀ (s : Daemon) (a : DaemonAction) (p : String), p ∈ s.pool.processedDirs →
      p ∉ (Daemon.step cfg s a).pool.processedDirs →
      ∃ i env, a = DaemonAction.settle i env ∧ (s.pool.tasks i).dirPath = some p ∧
        releaseOutcome cfg env (s.pool.tasks i) = true) := by
  refine ⟨?_, fun env S q p hpq => processNewDirectory_frame cfg env S q p hpq, ?_, ?_⟩
  · intro env S q p hp
    by_cases hpq : p = q
    · subst hpq
      rw [processNewDirectory_gated cfg env S p hp]
      exact hp
    · exact (processNewDirectory_frame cfg env S q p hpq).2 hp
  · intro env S t p hp hn
    obtain ⟨h1, h2, _⟩ := resume_removes cfg env S t p hp hn
    exact ⟨h1, h2⟩
  · intro s a p hp hn
    cases a with
    | event itemPath => exact absurd hp hn
    | tick stat => exact absurd (mem_foldl_start cfg _ s.pool p hp) hn
    | settle i env =>
      obtain ⟨h1, h2, _⟩ := resume_removes cfg env s.pool.processedDirs (s.pool.tasks i) p hp hn
      exact ⟨i, env, rfl, h1, h2⟩

/-- The removal of C21 at a concrete state: the invocation for `/w/foo`
awaits its existence check, the check is rejected, and `/w/foo` is removed
by a task working on `/w/foo` with a release outcome. -/
theorem removed_only_by_failed_attempt_witness :
    (Task.awaitGet "/w/foo" "foo" "/srv/projects/foo").dirPath = some "/w/foo" ∧
    releaseOutcome exampleConfig envCheckFails (Task.awaitGet "/w/foo" "foo" "/srv/projects/foo")
      = true :=
  (removed_only_by_failed_attempt exampleConfig).2.2.1 envCheckFails ["/w/foo"]
    (Task.awaitGet "/w/foo" "foo" "/srv/projects/foo") "/w/foo" (by decide) (by decide)

/-- C22. In every interleaving of invocations of `processNewDirectory` and
of the settling of their awaited calls, two different invocations are never
both past the dedup gate and unfinished for the same directory; every
unfinished invocation has its directory marked in `processedDirs`. -/
theorem one_invocation_in_progress (cfg : Config) (processedDirs : List String)
    (acts : List PoolAction) (i j : Nat) (d : String) (hij : i ≠ j)
    (hi : ((Pool.run cfg acts (Pool.init processedDirs)).tasks i).dirPath = some d) :
    ((Pool.run cfg acts (Pool.init processedDirs)).tasks j).dirPath ≠ some d ∧
    d ∈ (Pool.run cfg acts (Pool.init processedDirs)).processedDirs := by
  have hI := Pool.exclusive_run cfg acts _ (Pool.exclusive_init processedDirs)
  exact ⟨fun hj => hij (hI.single i j d hi hj), hI.marked i d hi⟩

/-- The exclusion of C22 at a concrete interleaving: two calls for `/w/foo`,
the second while the first awaits its existence check. -/
theorem one_invocation_in_progress_witness :
    ((Pool.run exampleConfig [PoolAction.start "/w/foo", PoolAction.start "/w/foo"]
      (Pool.init [])).tasks 1).dirPath ≠ some "/w/foo" ∧
    "/w/foo" ∈ (Pool.run exampleConfig [PoolAction.start "/w/foo", PoolAction.start "/w/foo"]
      (Pool.init [])).processedDirs :=
  one_invocation_in_progress exampleConfig []
    [PoolAction.start "/w/foo", PoolAction.start "/w/foo"] 0 1 "/w/foo" (by decide) (by decide)
/-! ## The dead file branch -/

theorem Watcher.sound_init (cfg : Config) (t0 : Nat) : (Watcher.init t0).Sound cfg := by
  constructor <;> simp [Watcher.init]

theorem Watcher.sound_handle (cfg : Config) (p : String) (s : Watcher) (hS : s.Sound cfg) :
    (handlePotentialProject cfg p s).Sound cfg := by
  unfold handlePotentialProject
  split
  · exact hS
  · rename_i hp
    have hp' : path.dirname p = cfg.containerWatchPath := by
      by_contra h
      exact hp h
    dsimp only
    constructor
    · intro t ht
      simp only [List.mem_append, List.mem_singleton] at ht
      rcases ht with ht | ht
      · apply hS.armed
        cases hdt : s.debounceTimers p with
        | none => rw [hdt] at ht; exact ht
        | some id =>
          rw [hdt] at ht
          exact (List.mem_filter.1 ht).1
      · rw [ht]; exact hp'
    · exact hS.ran

theorem Watcher.sound_tick (cfg : Config) (stat : String → StatOutcome) (s : Watcher)
    (hS : s.Sound cfg) : (tick cfg stat s).Sound cfg := by
  obtain ⟨_, _, h3, _, h5⟩ := foldl_fire cfg stat
    (s.timers.filter (fun t => decide (t.deadline ≤ s.now))) s
  constructor
  · intro t ht
    simp only [tick, fireDue, h3] at ht
    exact hS.armed t (List.mem_filter.1 ht).1
  · intro f hf
    simp only [tick, fireDue, h5, List.mem_append, List.mem_map] at hf
    rcases hf with hf | ⟨t, ht, rfl⟩
    · exact hS.ran f hf
    · have hp := hS.armed t (List.mem_filter.1 ht).1
      refine ⟨hp, ?_⟩
      dsimp only
      rw [classify_accepted cfg stat t.itemPath hp]
      by_cases hd : stat t.itemPath = StatOutcome.directory <;> simp [hd]

theorem Watcher.sound_run (cfg : Config) (acts : List Action) (s : Watcher) (hS : s.Sound cfg) :
    (Watcher.run cfg acts s).Sound cfg := by
  induction acts generalizing s with
  | nil => exact hS
  | cons a as ih =>
    apply ih
    cases a with
    | event p => exact Watcher.sound_handle cfg p s hS
    | tick stat => exact Watcher.sound_tick cfg stat s hS

/-- C28. For an event path accepted by `handlePotentialProject` (its parent
is exactly the watch root), the three conditions of the file branch cannot
hold together, so a path that is not a directory when its timer fires
produces no candidate; `processNewDirectory` is called only from the
directory branch, with the event path itself, in every callback the watcher
ever runs. -/
theorem file_branch_dead (cfg : Config) :
    (∀ (p : String) (stat : String → StatOutcome),
      path.dirname p = cfg.containerWatchPath →
      ¬ (path.basename (path.dirname p) = "docs" ∧
          (toLowerCase (path.basename p) = "concept.md" ∨
            toLowerCase (path.basename p) = "readme.md") ∧
          path.dirname (path.dirname (path.dirname p)) = cfg.containerWatchPath) ∧
      (stat p ≠ StatOutcome.directory → classify cfg stat p = none) ∧
      (∀ c, classify cfg stat p = some c → c = p ∧ stat p = StatOutcome.directory)) ∧
    (∀ (t0 : Nat) (acts : List Action),
      ∀ f ∈ (Watcher.run cfg acts (Watcher.init t0)).fired,
        path.dirname f.itemPath = cfg.containerWatchPath ∧
        (f.candidate = none ∨ f.candidate = some f.itemPath)) := by
  constructor
  · intro p stat hp
    have hc := classify_accepted cfg stat p hp
    refine ⟨?_, ?_, ?_⟩
    · rintro ⟨h1, _, h3⟩
      rw [hp] at h1 h3
      exact dirname_dirname_ne _ h1 h3
    · intro h
      rw [hc, if_neg h]
    · intro c h
      rw [hc] at h
      by_cases hd : stat p = StatOutcome.directory
      · rw [if_pos hd] at h
        injection h with h
        exact ⟨h.symm, hd⟩
      · rw [if_neg hd] at h
        exact absurd h (by simp)
  · intro t0 acts
    exact (Watcher.sound_run cfg acts _ (Watcher.sound_init cfg t0)).ran

/-- The dead branch of C28 at a concrete path: `/w/concept.md`, a file
directly in the watch root, produces no candidate. -/
theorem file_branch_dead_witness :
    classify exampleConfig allFiles "/w/concept.md" = none :=
  ((file_branch_dead exampleConfig).1 "/w/concept.md" allFiles (by decide)).2.1 (by decide)

/-! ## `parseInt` -/

theorem digitChar_spec (d : Nat) (h : d < 10) :
    (Nat.digitChar d).isDigit = true ∧ (Nat.digitChar d).toNat - 48 = d := by
  interval_cases d <;> exact ⟨by decide, by decide⟩

theorem digitsValue_concat (xs : List Char) (c : Char) :
    digitsValue (xs ++ [c]) = digitsValue xs * 10 + (c.toNat - 48) := by
  simp [digitsValue, List.foldl_append]

/-- The digits written by `Nat.toDigitsCore` are decimal digits whose value
is the number written. -/
theorem toDigitsCore_digits (fuel : Nat) :
    ∀ (n : Nat) (ds : List Char), n < fuel →
      ∃ xs, Nat.toDigitsCore 10 fuel n ds = xs ++ ds ∧ xs ≠ [] ∧
        (∀ c ∈ xs, c.isDigit = true) ∧ digitsValue xs = n := by
  induction fuel with
  | zero => intro n ds h; omega
  | succ fuel ih =>
    intro n ds h
    obtain ⟨hd1, hd2⟩ := digitChar_spec (n % 10) (Nat.mod_lt _ (by decide))
    unfold Nat.toDigitsCore
    by_cases h0 : n / 10 = 0
    · refine ⟨[Nat.digitChar (n % 10)], by simp [h0], by simp, by simpa using hd1, ?_⟩
      simp only [digitsValue, List.foldl_cons, List.foldl_nil, hd2]
      omega
    · obtain ⟨xs, e1, _, e3, e4⟩ := ih (n / 10) (Nat.digitChar (n % 10) :: ds) (by omega)
      refine ⟨xs ++ [Nat.digitChar (n % 10)], by simp [h0, e1], by simp, ?_, ?_⟩
      · intro c hc
        simp only [List.mem_append, List.mem_singleton] at hc
        rcases hc with hc | hc
        · exact e3 c hc
        · rw [hc]; exact hd1
      · rw [digitsValue_concat, e4, hd2]
        omega

theorem isDigit_range (c : Char) (h : c.isDigit = true) : 48 ≤ c.toNat ∧ c.toNat ≤ 57 := by
  simp only [Char.isDigit, Bool.and_eq_true, decide_eq_true_eq] at h
  obtain ⟨h1, h2⟩ := h
  have h1' : (48 : UInt32).toNat ≤ c.val.toNat := h1
  have h2' : c.val.toNat ≤ (57 : UInt32).toNat := h2
  exact ⟨h1', h2'⟩

theorem isWhiteSpace_of_isDigit (c : Char) (h : c.isDigit = true) : isWhiteSpace c = false := by
  obtain ⟨h1, h2⟩ := isDigit_range c h
  simp only [isWhiteSpace, List.mem_cons, List.mem_singleton, List.not_mem_nil, or_false,
    Bool.or_eq_false_iff, decide_eq_false_iff_not, Bool.and_eq_false_imp, decide_eq_true_eq]
  omega

theorem ne_sign_of_isDigit (c : Char) (h : c.isDigit = true) : c ≠ '-' ∧ c ≠ '+' := by
  obtain ⟨h1, _⟩ := isDigit_range c h
  constructor
  · intro e; rw [e] at h1; exact absurd h1 (by decide)
  · intro e; rw [e] at h1; exact absurd h1 (by decide)

theorem integerPart_of_digit (c : Char) (cs : List Char) (h : c.isDigit = true) :
    integerPart ⟨c :: cs⟩ = (c :: cs).takeWhile Char.isDigit ∧
    ((String.mk (c :: cs)).data.dropWhile isWhiteSpace).head? = some c := by
  have hw := isWhiteSpace_of_isDigit c h
  obtain ⟨hm, hp⟩ := ne_sign_of_isDigit c h
  have ht : (c :: cs).dropWhile isWhiteSpace = c :: cs := by
    simp [List.dropWhile_cons, hw]
  simp only [integerPart, ht, skipSign, List.head?_cons, Option.some.injEq, hm, hp, or_self,
    if_false, and_self]

/-- A string that starts with a decimal digit is parsed from its first
character: the integer is the longest run of digits at its start. -/
theorem parseInt_of_digit (c : Char) (cs : List Char) (h : c.isDigit = true) :
    parseInt ⟨c :: cs⟩ =
      match nearestDouble (4 * ((c :: cs).takeWhile Char.isDigit).length)
          (digitsValue ((c :: cs).takeWhile Char.isDigit)) with
      | none => JsNumber.infinity false
      | some v => JsNumber.finite (v : Int) := by
  obtain ⟨hi, hh⟩ := integerPart_of_digit c cs h
  obtain ⟨hm, _⟩ := ne_sign_of_isDigit c h
  have hne : (c :: cs).takeWhile Char.isDigit ≠ [] := by
    simp [List.takeWhile_cons, h]
  unfold parseInt
  simp only [hi, hh, Option.some.injEq, hm, hne, if_false, decide_False]
  split <;> simp_all

/-- The result of `parseInt` is `NaN` exactly when the string has no leading
decimal integer. -/
theorem parseInt_nan_iff (s : String) : parseInt s = JsNumber.nan ↔ integerPart s = [] := by
  unfold parseInt
  by_cases h : integerPart s = []
  · simp [h]
  · simp only [h, if_false, iff_false]
    split <;> simp

/-- A string with a leading run of digits is not parsed to `NaN`, whatever follows. -/
theorem parseInt_ne_nan (ds rest : List Char) (hne : ds ≠ []) (hd : ∀ c ∈ ds, c.isDigit = true) :
    parseInt ⟨ds ++ rest⟩ ≠ JsNumber.nan := by
  obtain ⟨c, cs, hc⟩ := List.exists_cons_of_ne_nil hne
  have hcd := hd c (by rw [hc]; simp)
  intro e
  rw [parseInt_nan_iff, hc, List.cons_append, (integerPart_of_digit c (cs ++ rest) hcd).1] at e
  simp [List.takeWhile_cons, hcd] at e

theorem nearestDouble_small (fuel n : Nat) (h : n < 2 ^ 53) (hf : 0 < fuel) :
    nearestDouble fuel n = some n := by
  obtain ⟨f, rfl⟩ := Nat.exists_eq_succ_of_ne_zero (Nat.pos_iff_ne_zero.1 hf)
  have h' : n < 9007199254740992 := by norm_num at h; exact h
  have hk : excessBits (f + 1) n = 0 := by
    simp [excessBits, h']
  simp [nearestDouble, hk, Nat.mod_one]

/-- The decimal representation of a number below `2 ^ 53` is parsed to it. -/
theorem parseInt_toString (n : Nat) (h : n < 2 ^ 53) : parseInt (toString n) = .finite n := by
  obtain ⟨xs, e1, e2, e3, e4⟩ := toDigitsCore_digits (n + 1) n [] (by omega)
  have hs : toString n = ⟨xs⟩ := by
    have : (toString n).data = Nat.toDigits 10 n := rfl
    apply String.ext
    rw [this, Nat.toDigits, e1, List.append_nil]
  obtain ⟨c, cs, hc⟩ := List.exists_cons_of_ne_nil e2
  have hall : (c :: cs).takeWhile Char.isDigit = c :: cs := by
    rw [List.takeWhile_eq_self_iff]
    intro x hx
    exact e3 x (hc ▸ hx)
  rw [hs, hc, parseInt_of_digit c cs (e3 c (by rw [hc]; simp)), hall, ← hc, e4,
    nearestDouble_small _ n h (by rw [hc]; simp)]

/-! ## The startup of the watcher: claims -/

/-- The test `!x` holds for an unset variable and for the empty string only. -/
theorem unsetOrEmpty_iff (x : Option String) : unsetOrEmpty x = true ↔ x = none ∨ x = some "" := by
  cases x with
  | none => simp [unsetOrEmpty]
  | some s => simp [unsetOrEmpty]

/-- C24. Startup configuration check: the watcher exits with status 1, before
the filesystem watch is created, if and only if at least one of
`CONTAINER_WATCH_PATH`, `HOST_WATCH_PATH` and `NAUTMANAGER_API_URL` is unset
or empty; when all three are non-empty the startup goes on to create the
watch with the values read. -/
theorem startup_check (env : Environment) :
    (startup env = Startup.exit 1 ↔
      ((env.CONTAINER_WATCH_PATH = none ∨ env.CONTAINER_WATCH_PATH = some "") ∨
       (env.HOST_WATCH_PATH = none ∨ env.HOST_WATCH_PATH = some "") ∨
       (env.NAUTMANAGER_API_URL = none ∨ env.NAUTMANAGER_API_URL = some ""))) ∧
    (∀ c h a, env.CONTAINER_WATCH_PATH = some c → env.HOST_WATCH_PATH = some h →
      env.NAUTMANAGER_API_URL = some a → c ≠ "" → h ≠ "" → a ≠ "" →
      startup env = Startup.watching c h a (debounceMs env)) ∧
    (∀ code, startup env = Startup.exit code → code = 1) := by
  refine ⟨?_, ?_, ?_⟩
  · rw [← unsetOrEmpty_iff, ← unsetOrEmpty_iff, ← unsetOrEmpty_iff]
    unfold startup
    split
    · simpa using ‹_›
    · rename_i h
      simp only [reduceCtorEq, false_iff]
      exact h
  · intro c h a hc hh ha hc1 hh1 ha1
    simp [startup, hc, hh, ha, unsetOrEmpty, hc1, hh1, ha1]
  · intro code h
    unfold startup at h
    split at h
    · injection h with h; exact h.symm
    · exact absurd h (by simp)

/-- The check of C24 at an environment with the three variables set. -/
theorem startup_check_witness :
    startup ⟨some "/w", some "/srv/projects", some "http://api:3001/api", none⟩
      = Startup.watching "/w" "/srv/projects" "http://api:3001/api"
          (debounceMs ⟨some "/w", some "/srv/projects", some "http://api:3001/api", none⟩) :=
  (startup_check ⟨some "/w", some "/srv/projects", some "http://api:3001/api", none⟩).2.1
    "/w" "/srv/projects" "http://api:3001/api" rfl rfl rfl (by decide) (by decide) (by decide)

/-- C25, as stated, fails: for `DEBOUNCE_MS = "9007199254740993"`, the
decimal representation of `2 ^ 53 + 1`, `debounceMs` is the nearest double
`9007199254740992`. -/
theorem debounceMs_rounds :
    toString 9007199254740993 = "9007199254740993" ∧
    debounceMs ⟨none, none, none, some "9007199254740993"⟩ = JsNumber.finite 9007199254740992 ∧
    debounceMs ⟨none, none, none, some (toString 9007199254740993)⟩
      ≠ JsNumber.finite 9007199254740993 := by
  refine ⟨by decide, by decide, by decide⟩

/-- The decimal representation of a natural number is not empty. -/
theorem toString_ne_empty (n : Nat) : toString n ≠ "" := by
  obtain ⟨xs, e1, e2, _, _⟩ := toDigitsCore_digits (n + 1) n [] (by omega)
  intro e
  have : (toString n).data = Nat.toDigits 10 n := rfl
  rw [e, Nat.toDigits, e1, List.append_nil] at this
  exact e2 this.symm

/-- C25, amended. The delay `debounceMs` is 5000 when `DEBOUNCE_MS` is unset
or empty, and is `n` for every `DEBOUNCE_MS` that is the decimal
representation of a non-negative integer `n` up to `2 ^ 53`, `"0"` included. -/
theorem debounceMs_value (env : Environment) :
    ((env.DEBOUNCE_MS = none ∨ env.DEBOUNCE_MS = some "") →
      debounceMs env = JsNumber.finite 5000) ∧
    (∀ n : Nat, n ≤ 2 ^ 53 → env.DEBOUNCE_MS = some (toString n) →
      debounceMs env = JsNumber.finite n) := by
  constructor
  · intro h
    have := (unsetOrEmpty_iff env.DEBOUNCE_MS).2 h
    simp only [debounceMs, this, if_true]
    decide
  · intro n hn he
    have hu : unsetOrEmpty (some (toString n)) = false := by
      simp [unsetOrEmpty, toString_ne_empty n]
    simp only [debounceMs, he, hu, Option.getD_some, Bool.false_eq_true, if_false]
    rcases Nat.lt_or_eq_of_le hn with h | h
    · exact parseInt_toString n h
    · rw [h]
      decide

/-- The value of C25 for `DEBOUNCE_MS = "0"`. -/
theorem debounceMs_value_witness :
    debounceMs ⟨none, none, none, some (toString 0)⟩ = JsNumber.finite (0 : Nat) :=
  (debounceMs_value ⟨none, none, none, some (toString 0)⟩).2 0 (by decide) rfl

/-! ## The tracking API: further claims -/

/-- C26. The handler `getAllProjects` selects the archived projects if and
only if the `archived` query parameter is exactly the string `true`, and the
non-archived ones for every other value or none; in both cases the statement
ends with `ORDER BY last_updated_at DESC` and is issued without bound
parameters, so that the table answers with the selected rows, latest first. -/
theorem archived_selection (q : Query) :
    ((selectQuery q).1
        = "SELECT * FROM projects WHERE is_archived = true ORDER BY last_updated_at DESC" ↔
      q.archived = some "true") ∧
    ((selectQuery q).1
        = "SELECT * FROM projects WHERE is_archived = false ORDER BY last_updated_at DESC" ↔
      q.archived ≠ some "true") ∧
    (selectQuery q).2 = [] ∧
    (∀ table, getAllProjects (projectsTable table) q
      = ⟨200, .rows ((table.filter
            (fun r => r.is_archived == decide (q.archived = some "true"))).insertionSort
          (fun a b => b.last_updated_at ≤ a.last_updated_at))⟩) := by
  by_cases h : q.archived = some "true"
  · have e : (selectQuery q).1
        = "SELECT * FROM projects WHERE is_archived = true ORDER BY last_updated_at DESC" := by
      simp [selectQuery, h]
    refine ⟨by simp [e, h], ?_, rfl, ?_⟩
    · rw [e]
      simp only [h, ne_eq, not_true_eq_false, iff_false]
      decide
    · intro table
      simp only [getAllProjects, e, projectsTable, if_true, h, decide_True]
      congr 3
      apply List.filter_congr
      intro r _
      cases r.is_archived <;> rfl
  · have e : (selectQuery q).1
        = "SELECT * FROM projects WHERE is_archived = false ORDER BY last_updated_at DESC" := by
      simp [selectQuery, h]
    have hne : ("SELECT * FROM projects WHERE is_archived = false ORDER BY last_updated_at DESC"
        : String) ≠ "SELECT * FROM projects WHERE is_archived = true ORDER BY last_updated_at DESC" := by
      decide
    refine ⟨?_, by simp [e, h], rfl, ?_⟩
    · rw [e]
      simp only [h, iff_false]
      exact hne
    · intro table
      simp only [getAllProjects, e, projectsTable, hne, if_false, if_true, h, decide_False]
      congr 3
      apply List.filter_congr
      intro r _
      cases r.is_archived <;> rfl

/-- C23. For a request that passes validation, `createProject` responds 201
with the first row returned by the insert when the insert succeeds, 409
exactly when the insert fails with error code `23505` and constraint
`projects_local_path_key`, and 500 for every other failure of the insert. -/
theorem createProject_status (query : String → List JsValue → QueryOutcome) (body : ProjectBody)
    (hname : body.name.truthy = true)
    (hpath : body.local_path.truthy = true → body.local_path.isString = true) :
    (∀ rows, query insertQuery (insertValues body) = .rows rows →
      (createProject query body).reply = ⟨201, .record rows.head?⟩) ∧
    (∀ e, query insertQuery (insertValues body) = .error e →
      ((createProject query body).reply.status = 409 ↔
        (e.code = some "23505" ∧ e.constraint = some "projects_local_path_key")) ∧
      ((createProject query body).reply.status = 500 ↔
        ¬ (e.code = some "23505" ∧ e.constraint = some "projects_local_path_key"))) ∧
    ((createProject query body).reply.status = 409 ↔
      ∃ e, query insertQuery (insertValues body) = .error e ∧
        e.code = some "23505" ∧ e.constraint = some "projects_local_path_key") := by
  have hv : (body.local_path.truthy && !body.local_path.isString) = false := by
    cases ht : body.local_path.truthy
    · rfl
    · simp [hpath ht]
  have hc : ∀ e : DbError, e.isLocalPathConflict = true ↔
      (e.code = some "23505" ∧ e.constraint = some "projects_local_path_key") := by
    intro e
    simp [DbError.isLocalPathConflict]
  refine ⟨?_, ?_, ?_⟩
  · intro rows hq
    simp [createProject, hname, hv, hq]
  · intro e hq
    by_cases he : e.isLocalPathConflict = true
    · have := (hc e).1 he
      simp [createProject, hname, hv, hq, he, this]
    · have hn : ¬ (e.code = some "23505" ∧ e.constraint = some "projects_local_path_key") :=
        fun h => he ((hc e).2 h)
      simp only [createProject, hname, hv, hq, he]
      simp [hn]
  · rcases hq : query insertQuery (insertValues body) with rows | e
    · simp [createProject, hname, hv, hq]
    · by_cases he : e.isLocalPathConflict = true
      · have := (hc e).1 he
        simp [createProject, hname, hv, hq, he, this]
      · have hn : ¬ (e.code = some "23505" ∧ e.constraint = some "projects_local_path_key") :=
          fun h => he ((hc e).2 h)
        simp only [createProject, hname, hv, hq, he]
        simp [hn]

/-- The statuses of C23 at a concrete request whose insert violates the
unique constraint on `local_path`. -/
theorem createProject_status_witness :
    (createProject (failing ⟨some "23505", some "projects_local_path_key", "duplicate key"⟩)
      (bodyNamed (.string "foo"))).reply.status = 409 :=
  ((createProject_status (failing ⟨some "23505", some "projects_local_path_key", "duplicate key"⟩)
    (bodyNamed (.string "foo")) rfl (by decide)).2.1
      ⟨some "23505", some "projects_local_path_key", "duplicate key"⟩ rfl).1.2 ⟨rfl, rfl⟩

/-- The request `{ name: 'x' }`, C27: the body passes validation, the insert
is issued once, and the value bound to the column `local_path` is `undefined`,
the field having no default in the destructuring of lines 63-78; it is not `null`. -/
theorem createProject_omitted_local_path :
    (createProject oneRow (bodyNamed (.string "x"))).reply.status = 201 ∧
    (createProject oneRow (bodyNamed (.string "x"))).queries
      = [(insertQuery,
          [.string "x", .null, .null, .undefined, .null, .null, .null, .null, .array [], .null,
            .string "Private", .number 0, .string "Medium"])] ∧
    (bodyNamed (.string "x")).local_path = .undefined ∧
    (insertValues (bodyNamed (.string "x")))[3]? = some JsValue.undefined ∧
    (insertValues (bodyNamed (.string "x")))[3]? ≠ some JsValue.null := by
  refine ⟨rfl, rfl, rfl, rfl, ?_⟩
  decide

set_option maxRecDepth 20000 in
/-- The text of the insert: thirteen columns and the placeholders `$1` to `$13`. -/
theorem insertQuery_text :
    insertQuery = "\n    INSERT INTO projects (" ++ ", ".intercalate
        ["name", "summary", "concept", "local_path", "git_repo", "website_url",
          "project_category", "start_commands", "tags", "deadline", "type",
          "completion_percentage", "urgency"] ++ ")\n    VALUES (" ++
      ", ".intercalate ((List.range 13).map (fun i => "$" ++ toString (i + 1))) ++
      ")\n    RETURNING *; \n  " := by
  decide

/-- C27, amended. The handler `createProject` responds 400 and issues no
query if and only if `name` is falsy or `local_path` is truthy and not a
string. In every other case it issues exactly one query, the insert, whose
text lists thirteen columns and the placeholders `$1` to `$13`, with thirteen
values in the order of the columns: `name` and `local_path` as received (so
`undefined` for an omitted `local_path`), and every other field as received
unless it is omitted, when it is `[]` for `tags`, `Private` for `type`, `0` for
`completion_percentage`, `Medium` for `urgency` and `null` for `summary`,
`concept`, `git_repo`, `website_url`, `project_category`, `start_commands` and
`deadline`. -/
theorem createProject_validation (query : String → List JsValue → QueryOutcome)
    (body : ProjectBody) :
    (((createProject query body).reply.status = 400 ∧ (createProject query body).queries = []) ↔
      (body.name.truthy = false ∨
        (body.local_path.truthy = true ∧ body.local_path.isString = false))) ∧
    (¬ (body.name.truthy = false ∨
        (body.local_path.truthy = true ∧ body.local_path.isString = false)) →
      (createProject query body).queries = [(insertQuery, insertValues body)] ∧
      (insertValues body).length = 13 ∧
      (∀ (i : Nat) (column : String) (v : JsValue), (i, column, v) ∈
          [(0, "name", body.name), (3, "local_path", body.local_path)] →
        ["name", "summary", "concept", "local_path", "git_repo", "website_url",
          "project_category", "start_commands", "tags", "deadline", "type",
          "completion_percentage", "urgency"][i]? = some column ∧
        (insertValues body)[i]? = some v) ∧
      (∀ (i : Nat) (column : String) (v d : JsValue), (i, column, v, d) ∈
          [(1, "summary", body.summary, .null), (2, "concept", body.concept, .null),
           (4, "git_repo", body.git_repo, .null), (5, "website_url", body.website_url, .null),
           (6, "project_category", body.project_category, .null),
           (7, "start_commands", body.start_commands, .null),
           (8, "tags", body.tags, .array []), (9, "deadline", body.deadline, .null),
           (10, "type", body.type, .string "Private"),
           (11, "completion_percentage", body.completion_percentage, .number 0),
           (12, "urgency", body.urgency, .string "Medium")] →
        ["name", "summary", "concept", "local_path", "git_repo", "website_url",
          "project_category", "start_commands", "tags", "deadline", "type",
          "completion_percentage", "urgency"][i]? = some column ∧
        (insertValues body)[i]? = some (if v = .undefined then d else v))) ∧
    insertQuery = "\n    INSERT INTO projects (" ++ ", ".intercalate
        ["name", "summary", "concept", "local_path", "git_repo", "website_url",
          "project_category", "start_commands", "tags", "deadline", "type",
          "completion_percentage", "urgency"] ++ ")\n    VALUES (" ++
      ", ".intercalate ((List.range 13).map (fun i => "$" ++ toString (i + 1))) ++
      ")\n    RETURNING *; \n  " := by
  refine ⟨?_, ?_, insertQuery_text⟩
  · cases hn : body.name.truthy
    · simp [createProject, hn]
    · cases ht : body.local_path.truthy
      · rcases hq : query insertQuery (insertValues body) with rows | e
        · simp [createProject, hn, ht, hq]
        · by_cases he : e.isLocalPathConflict = true <;> simp [createProject, hn, ht, hq, he]
      · cases hs : body.local_path.isString
        · simp [createProject, hn, ht, hs]
        · rcases hq : query insertQuery (insertValues body) with rows | e
          · simp [createProject, hn, ht, hs, hq]
          · by_cases he : e.isLocalPathConflict = true <;>
              simp [createProject, hn, ht, hs, hq, he]
  · intro h
    have hn : body.name.truthy = true := by
      cases hn : body.name.truthy
      · exact absurd (Or.inl hn) h
      · rfl
    have hv : (body.local_path.truthy && !body.local_path.isString) = false := by
      cases ht : body.local_path.truthy
      · rfl
      · cases hs : body.local_path.isString
        · exact absurd (Or.inr ⟨ht, hs⟩) h
        · rfl
    refine ⟨?_, rfl, ?_, ?_⟩
    · rcases hq : query insertQuery (insertValues body) with rows | e
      · simp [createProject, hn, hv, hq]
      · by_cases he : e.isLocalPathConflict = true <;> simp [createProject, hn, hv, hq, he]
    · intro i column v hm
      simp only [List.mem_cons, Prod.mk.injEq, List.mem_singleton, List.not_mem_nil,
        or_false] at hm
      rcases hm with ⟨rfl, rfl, rfl⟩ | ⟨rfl, rfl, rfl⟩ <;> exact ⟨rfl, rfl⟩
    · intro i column v d hm
      simp only [List.mem_cons, Prod.mk.injEq, List.mem_singleton, List.not_mem_nil,
        or_false] at hm
      rcases hm with ⟨rfl, rfl, rfl, rfl⟩ | ⟨rfl, rfl, rfl, rfl⟩ | ⟨rfl, rfl, rfl, rfl⟩ |
        ⟨rfl, rfl, rfl, rfl⟩ | ⟨rfl, rfl, rfl, rfl⟩ | ⟨rfl, rfl, rfl, rfl⟩ | ⟨rfl, rfl, rfl, rfl⟩ |
        ⟨rfl, rfl, rfl, rfl⟩ | ⟨rfl, rfl, rfl, rfl⟩ | ⟨rfl, rfl, rfl, rfl⟩ | ⟨rfl, rfl, rfl, rfl⟩ <;>
        exact ⟨rfl, rfl⟩

/-- The amended C27 at the request `{ name: 'foo' }`: one insert is issued,
and the value bound to `type` is the default `Private`. -/
theorem createProject_validation_witness :
    (createProject oneRow (bodyNamed (.string "foo"))).queries
        = [(insertQuery, insertValues (bodyNamed (.string "foo")))] ∧
    (insertValues (bodyNamed (.string "foo")))[10]? = some (JsValue.string "Private") :=
  ⟨((createProject_validation oneRow (bodyNamed (.string "foo"))).2.1 (by decide)).1,
   (((createProject_validation oneRow (bodyNamed (.string "foo"))).2.1 (by decide)).2.2.2
      10 "type" .undefined (.string "Private") (by simp [bodyNamed])).2⟩

/-- The statements of lines 160-172 run over a list of fields: the defined
ones are pushed in order, numbered from the current `paramIndex`. -/
theorem foldl_pushField (l : List (String × JsValue)) :
    ∀ st : UpdateState, l.foldl pushField st =
      ⟨st.fields ++ ((l.filter (fun cv => decide (cv.2 ≠ .undefined))).enumFrom st.paramIndex).map
          (fun p => p.2.1 ++ " = $" ++ toString p.1),
        st.values ++ (l.filter (fun cv => decide (cv.2 ≠ .undefined))).map Prod.snd,
        st.paramIndex + (l.filter (fun cv => decide (cv.2 ≠ .undefined))).length⟩ := by
  induction l with
  | nil => intro st; simp
  | cons cv l ih =>
    intro st
    rw [List.foldl_cons, ih]
    by_cases h : cv.2 = .undefined
    · simp [pushField, h]
    · simp [pushField, h, List.enumFrom_cons]
      omega

/-- The state after the thirteen statements, in terms of the defined fields. -/
theorem updateState_eq (body : ProjectBody) :
    updateState body =
      ⟨(((updatable body).filter (fun cv => decide (cv.2 ≠ .undefined))).enumFrom 1).map
          (fun p => p.2.1 ++ " = $" ++ toString p.1),
        ((updatable body).filter (fun cv => decide (cv.2 ≠ .undefined))).map Prod.snd,
        ((updatable body).filter (fun cv => decide (cv.2 ≠ .undefined))).length + 1⟩ := by
  unfold updateState
  rw [foldl_pushField]
  simp [Nat.add_comm]

/-- The database calls of `updateProject`: none when a validation fails, one otherwise. -/
theorem updateProject_queries (query : String → List JsValue → QueryOutcome) (id : String)
    (body : ProjectBody) :
    (updateProject query id body).queries =
      if isNaN (parseInt id) = true ∨ body.name = .string "" ∨
          (updateState body).fields.length = 0 then []
      else [(updateQuery (updateState body), (updateState body).values ++ [JsValue.string id])] := by
  unfold updateProject
  by_cases h1 : isNaN (parseInt id) = true
  · simp [h1]
  · by_cases h2 : body.name = .string ""
    · simp [h1, h2]
    · by_cases h3 : (updateState body).fields.length = 0
      · simp [h1, h2, h3]
      · simp only [h1, h2, h3, if_false, false_or]
        rcases query (updateQuery (updateState body))
          ((updateState body).values ++ [JsValue.string id]) with rows | e
        · by_cases hr : rows.length = 0 <;> simp [hr]
        · by_cases he : e.isLocalPathConflict = true <;> simp [he]

/-- C29. For every request body, with `defined` the updatable fields that are
not `undefined`, taken in the fixed order of the thirteen columns, and `n`
their number: the SET clause built by `updateProject` holds exactly the
defined fields in that order with the placeholders `$1` to `$n`, the WHERE
clause uses the placeholder numbered `n + 1`, and the values are those of the
defined fields in the same order followed by the id, `n + 1` in all. When
`n = 0` the handler responds 400 and issues no query; when `n ≥ 1` and the
validations of the id and of the name pass, that statement with those values
is the one query issued. -/
theorem updateProject_construction (query : String → List JsValue → QueryOutcome) (id : String)
    (body : ProjectBody) :
    (updatable body).map Prod.fst
      = ["name", "summary", "concept", "local_path", "git_repo", "website_url",
          "project_category", "start_commands", "tags", "deadline", "type",
          "completion_percentage", "urgency"] ∧
    (updateState body).fields
      = (((updatable body).filter (fun cv => decide (cv.2 ≠ .undefined))).enumFrom 1).map
          (fun p => p.2.1 ++ " = $" ++ toString p.1) ∧
    (updateState body).values
      = ((updatable body).filter (fun cv => decide (cv.2 ≠ .undefined))).map Prod.snd ∧
    (updateState body).paramIndex
      = ((updatable body).filter (fun cv => decide (cv.2 ≠ .undefined))).length + 1 ∧
    updateQuery (updateState body)
      = "\n    UPDATE projects\n    SET " ++ ", ".intercalate
          ((((updatable body).filter (fun cv => decide (cv.2 ≠ .undefined))).enumFrom 1).map
            (fun p => p.2.1 ++ " = $" ++ toString p.1)) ++
        "\n    WHERE id = $" ++
        toString (((updatable body).filter (fun cv => decide (cv.2 ≠ .undefined))).length + 1) ++
        "\n    RETURNING *; \n  " ∧
    ((updateState body).values ++ [JsValue.string id]).length
      = ((updatable body).filter (fun cv => decide (cv.2 ≠ .undefined))).length + 1 ∧
    (∀ (i : Nat) (cv : String × JsValue),
      ((updatable body).filter (fun cv => decide (cv.2 ≠ .undefined)))[i]? = some cv →
        (updateState body).fields[i]? = some (cv.1 ++ " = $" ++ toString (i + 1)) ∧
        ((updateState body).values ++ [JsValue.string id])[i]? = some cv.2) ∧
    ((updateState body).values ++ [JsValue.string id])[
        ((updatable body).filter (fun cv => decide (cv.2 ≠ .undefined))).length]?
      = some (JsValue.string id) ∧
    (((updatable body).filter (fun cv => decide (cv.2 ≠ .undefined))).length = 0 →
      (updateProject query id body).reply.status = 400 ∧
      (updateProject query id body).queries = []) ∧
    (1 ≤ ((updatable body).filter (fun cv => decide (cv.2 ≠ .undefined))).length →
      isNaN (parseInt id) = false → body.name ≠ .string "" →
      (updateProject query id body).queries
        = [(updateQuery (updateState body), (updateState body).values ++ [JsValue.string id])]) := by
  have hs := updateState_eq body
  have hf : (updateState body).fields
      = (((updatable body).filter (fun cv => decide (cv.2 ≠ .undefined))).enumFrom 1).map
          (fun p => p.2.1 ++ " = $" ++ toString p.1) := by rw [hs]
  have hv : (updateState body).values
      = ((updatable body).filter (fun cv => decide (cv.2 ≠ .undefined))).map Prod.snd := by rw [hs]
  have hp : (updateState body).paramIndex
      = ((updatable body).filter (fun cv => decide (cv.2 ≠ .undefined))).length + 1 := by rw [hs]
  refine ⟨rfl, hf, hv, hp, ?_, ?_, ?_, ?_, ?_, ?_⟩
  · simp only [updateQuery, hf, hp]
  · rw [hv]; simp
  · intro i cv hi
    have hlt : i < ((updatable body).filter (fun cv => decide (cv.2 ≠ .undefined))).length := by
      by_contra hge
      rw [List.getElem?_eq_none (by omega)] at hi
      exact absurd hi (by simp)
    constructor
    · rw [hf, List.getElem?_map, List.getElem?_enumFrom, hi]
      simp [Nat.add_comm]
    · rw [hv, List.getElem?_append_left (by simpa using hlt), List.getElem?_map, hi]
      rfl
  · rw [hv, List.getElem?_append_right (by simp)]
    simp
  · intro h0
    have hl : (updateState body).fields.length = 0 := by
      rw [hf, List.length_map, List.enumFrom_length]; exact h0
    constructor
    · unfold updateProject
      by_cases h1 : isNaN (parseInt id) = true
      · simp [h1]
      · by_cases h2 : body.name = .string ""
        · simp [h1, h2]
        · simp [h1, h2, hl]
    · rw [updateProject_queries]
      simp [hl]
  · intro h1 hid hname
    have hl : (updateState body).fields.length ≠ 0 := by
      rw [hf, List.length_map, List.enumFrom_length]; omega
    rw [updateProject_queries]
    simp [hid, hname, hl]

/-- The construction of C29 at the request `PUT /projects/12abc` with the body
`{ name: 'x' }`: one field is defined and the one query issued binds the name
to `$1` and the id to `$2`. -/
theorem updateProject_construction_witness :
    (updateProject oneRow "12abc" (bodyNamed (.string "x"))).queries
      = [("\n    UPDATE projects\n    SET name = $1\n    WHERE id = $2\n    RETURNING *; \n  ",
          [.string "x", .string "12abc"])] :=
  (updateProject_construction oneRow "12abc" (bodyNamed (.string "x"))).2.2.2.2.2.2.2.2.2
    (by decide) (by decide) (by decide)

/-- The test `isNaN(parseInt(id, 10))` holds exactly when the id has no
leading decimal integer. -/
theorem isNaN_parseInt_iff (id : String) : isNaN (parseInt id) = true ↔ integerPart id = [] := by
  rw [← parseInt_nan_iff]
  cases parseInt id <;> simp [isNaN]

/-- C30. Each of `getProjectById`, `updateProject`, `deleteProject` and
`toggleArchiveStatus` responds 400 with `Invalid project ID format` exactly
when `parseInt(id, 10)` is `NaN`, that is, when no decimal digit follows the
leading white space and optional sign of the id; it then issues no query. An
id that starts with decimal digits followed by any other characters passes
this validation, and every query the four handlers issue binds the received
string itself as its last value. -/
theorem id_validation (query : String → List JsValue → QueryOutcome) (id : String)
    (body : ProjectBody) :
    (isNaN (parseInt id) = true ↔ integerPart id = []) ∧
    ((getProjectById query id).reply = ⟨400, .message "Invalid project ID format"⟩ ↔
      isNaN (parseInt id) = true) ∧
    ((updateProject query id body).reply = ⟨400, .message "Invalid project ID format"⟩ ↔
      isNaN (parseInt id) = true) ∧
    ((deleteProject query id).reply = ⟨400, .message "Invalid project ID format"⟩ ↔
      isNaN (parseInt id) = true) ∧
    ((toggleArchiveStatus query id).reply = ⟨400, .message "Invalid project ID format"⟩ ↔
      isNaN (parseInt id) = true) ∧
    (isNaN (parseInt id) = true →
      (getProjectById query id).queries = [] ∧ (updateProject query id body).queries = [] ∧
      (deleteProject query id).queries = [] ∧ (toggleArchiveStatus query id).queries = []) ∧
    (∀ (ds rest : List Char), ds ≠ [] → (∀ c ∈ ds, c.isDigit = true) → id = ⟨ds ++ rest⟩ →
      isNaN (parseInt id) = false ∧
      (getProjectById query id).queries = [("SELECT * FROM projects WHERE id = $1", [.string id])] ∧
      (deleteProject query id).queries
        = [("DELETE FROM projects WHERE id = $1 RETURNING id;", [.string id])] ∧
      (toggleArchiveStatus query id).queries.head?
        = some ("SELECT is_archived FROM projects WHERE id = $1", [.string id]) ∧
      (body.name ≠ .string "" → (updateState body).fields.length ≠ 0 →
        (updateProject query id body).queries
          = [(updateQuery (updateState body), (updateState body).values ++ [.string id])])) ∧
    (∀ q ∈ (getProjectById query id).queries ++ (updateProject query id body).queries ++
        (deleteProject query id).queries ++ (toggleArchiveStatus query id).queries,
      q.2.getLast? = some (JsValue.string id)) := by
  have hget : (getProjectById query id).queries
      = if isNaN (parseInt id) = true then []
        else [("SELECT * FROM projects WHERE id = $1", [.string id])] := by
    unfold getProjectById
    by_cases h : isNaN (parseInt id) = true
    · simp [h]
    · simp only [h, if_false]
      rcases query "SELECT * FROM projects WHERE id = $1" [.string id] with rows | e
      · by_cases hr : rows.length = 0 <;> simp [hr]
      · simp
  have hdel : (deleteProject query id).queries
      = if isNaN (parseInt id) = true then []
        else [("DELETE FROM projects WHERE id = $1 RETURNING id;", [.string id])] := by
    unfold deleteProject
    by_cases h : isNaN (parseInt id) = true
    · simp [h]
    · simp only [h, if_false]
      rcases query "DELETE FROM projects WHERE id = $1 RETURNING id;" [.string id] with rows | e
      · by_cases hr : rows.length = 0 <;> simp [hr]
      · simp
  have htog : (toggleArchiveStatus query id).queries = [] ∧ isNaN (parseInt id) = true ∨
      isNaN (parseInt id) = false ∧
      ((toggleArchiveStatus query id).queries
          = [("SELECT is_archived FROM projects WHERE id = $1", [.string id])] ∨
        ∃ b, (toggleArchiveStatus query id).queries
          = [("SELECT is_archived FROM projects WHERE id = $1", [.string id]),
             ("UPDATE projects SET is_archived = $1, last_updated_at = NOW() WHERE id = $2 RETURNING *",
               [.bool b, .string id])]) := by
    unfold toggleArchiveStatus
    by_cases h : isNaN (parseInt id) = true
    · simp [h]
    · right
      simp only [h, if_false]
      refine ⟨by simp, ?_⟩
      rcases query "SELECT is_archived FROM projects WHERE id = $1" [.string id] with rows | e
      · cases rows with
        | nil => simp
        | cons r rs =>
          right
          refine ⟨!r.is_archived, ?_⟩
          dsimp only
          rcases query
            "UPDATE projects SET is_archived = $1, last_updated_at = NOW() WHERE id = $2 RETURNING *"
            [.bool (!r.is_archived), .string id] with rows2 | e2 <;> rfl
      · simp
  have hupd := updateProject_queries query id body
  refine ⟨isNaN_parseInt_iff id, ?_, ?_, ?_, ?_, ?_, ?_, ?_⟩
  · unfold getProjectById
    by_cases h : isNaN (parseInt id) = true
    · simp [h]
    · simp only [h, if_false, iff_false]
      rcases query "SELECT * FROM projects WHERE id = $1" [.string id] with rows | e
      · by_cases hr : rows.length = 0 <;> simp [hr]
      · simp
  · unfold updateProject
    by_cases h : isNaN (parseInt id) = true
    · simp [h]
    · simp only [h, if_false, iff_false]
      by_cases h2 : body.name = .string ""
      · simp [h2]
      · by_cases h3 : (updateState body).fields.length = 0
        · simp [h2, h3]
        · simp only [h2, h3, if_false]
          rcases query (updateQuery (updateState body))
            ((updateState body).values ++ [JsValue.string id]) with rows | e
          · by_cases hr : rows.length = 0 <;> simp [hr]
          · by_cases he : e.isLocalPathConflict = true <;> simp [he]
  · unfold deleteProject
    by_cases h : isNaN (parseInt id) = true
    · simp [h]
    · simp only [h, if_false, iff_false]
      rcases query "DELETE FROM projects WHERE id = $1 RETURNING id;" [.string id] with rows | e
      · by_cases hr : rows.length = 0 <;> simp [hr]
      · simp
  · unfold toggleArchiveStatus
    by_cases h : isNaN (parseInt id) = true
    · simp [h]
    · simp only [h, if_false, iff_false]
      rcases query "SELECT is_archived FROM projects WHERE id = $1" [.string id] with rows | e
      · cases rows with
        | nil => simp
        | cons r rs =>
          dsimp only
          rcases query
            "UPDATE projects SET is_archived = $1, last_updated_at = NOW() WHERE id = $2 RETURNING *"
            [.bool (!r.is_archived), .string id] with rows2 | e2 <;> simp
      · simp
  · intro h
    refine ⟨by rw [hget]; simp [h], by rw [hupd]; simp [h], by rw [hdel]; simp [h], ?_⟩
    rcases htog with ⟨e, _⟩ | ⟨h', _⟩
    · exact e
    · rw [h] at h'; exact absurd h' (by decide)
  · intro ds rest hne hd hid
    have hn : isNaN (parseInt id) = false := by
      have := parseInt_ne_nan ds rest hne hd
      rw [← hid] at this
      cases hp : parseInt id with
      | nan => exact absurd hp this
      | finite v => rfl
      | infinity b => rfl
    refine ⟨hn, by rw [hget]; simp [hn], by rw [hdel]; simp [hn], ?_, ?_⟩
    · rcases htog with ⟨_, h'⟩ | ⟨_, e | ⟨b, e⟩⟩
      · rw [hn] at h'; exact absurd h' (by decide)
      · rw [e]; rfl
      · rw [e]; rfl
    · intro h2 h3
      rw [hupd]
      simp [hn, h2, h3]
  · intro q hq
    simp only [List.mem_append] at hq
    rcases hq with ((hq | hq) | hq) | hq
    · rw [hget] at hq
      by_cases h : isNaN (parseInt id) = true
      · simp [h] at hq
      · simp [h] at hq
        rw [hq]; rfl
    · rw [hupd] at hq
      split at hq
      · simp at hq
      · simp only [List.mem_singleton] at hq
        rw [hq]; simp
    · rw [hdel] at hq
      by_cases h : isNaN (parseInt id) = true
      · simp [h] at hq
      · simp [h] at hq
        rw [hq]; rfl
    · rcases htog with ⟨e, _⟩ | ⟨_, e | ⟨b, e⟩⟩
      · rw [e] at hq; simp at hq
      · rw [e] at hq
        simp only [List.mem_singleton] at hq
        rw [hq]; rfl
      · rw [e] at hq
        simp only [List.mem_cons, List.mem_singleton, List.not_mem_nil, or_false] at hq
        rcases hq with hq | hq <;> rw [hq] <;> rfl

/-- The validation of C30 at the id `12abc`: it passes, and `getProjectById`
binds the string `12abc` itself. -/
theorem id_validation_witness :
    isNaN (parseInt "12abc") = false ∧
    (getProjectById oneRow "12abc").queries
      = [("SELECT * FROM projects WHERE id = $1", [.string "12abc"])] :=
  ⟨((id_validation oneRow "12abc" (bodyNamed .undefined)).2.2.2.2.2.2.1
      ['1', '2'] ['a', 'b', 'c'] (by simp) (by decide) rfl).1,
   ((id_validation oneRow "12abc" (bodyNamed .undefined)).2.2.2.2.2.2.1
      ['1', '2'] ['a', 'b', 'c'] (by simp) (by decide) rfl).2.1⟩

end NautManager
